import Mathlib

/-
Verification development for the isvalid validator-generator.

The repository contains two generations of the analysis package; where the
claims point at `internal/analysis/analysis.go` and `internal/generator/
generator.go` those files are the source of the embedding.  Symbols that are
referenced by that code but whose defining file is not part of the source
snapshot (the default rule-spec registry, the go/types capability helpers'
results, the search package) are modelled from the specification and marked
as such in their doc comments.

Strings are processed as `List Char`; `String.data` bridges to Go strings.
-/

set_option maxHeartbeats 1600000

namespace Isvalid

/-- TypeKind mirrors the `TypeKind` constants of internal/analysis/types.go
(one constructor per named constant; the unexported range markers are
realised below as the kind-class predicates). -/
inductive TypeKind where
  | invalid
  | bool
  | int | int8 | int16 | int32 | int64
  | uint | uint8 | uint16 | uint32 | uint64 | uintptr
  | float32 | float64
  | complex64 | complex128
  | string
  | unsafePointer
  | array | interface | map | ptr | slice | struct | chan | func
  deriving DecidableEq, Repr

namespace TypeKind

/-- `TypeKind.IsBasic` from types.go: strictly between the basic range markers. -/
def isBasic : TypeKind → Bool
  | .bool | .int | .int8 | .int16 | .int32 | .int64
  | .uint | .uint8 | .uint16 | .uint32 | .uint64 | .uintptr
  | .float32 | .float64 | .complex64 | .complex128
  | .string | .unsafePointer => true
  | _ => false

/-- `TypeKind.IsNumeric` from types.go: the int, uint and float kinds
(complex kinds excluded, uintptr included, per the constant ordering). -/
def isNumeric : TypeKind → Bool
  | .int | .int8 | .int16 | .int32 | .int64
  | .uint | .uint8 | .uint16 | .uint32 | .uint64 | .uintptr
  | .float32 | .float64 => true
  | _ => false

/-- `TypeKind.IsInteger` from types.go: the signed int kinds only (the
unexported `_integer_kind_*` markers enclose just int..int64). -/
def isInteger : TypeKind → Bool
  | .int | .int8 | .int16 | .int32 | .int64 => true
  | _ => false

/-- `TypeKind.IsUnsigned` from types.go: uint..uint64 and uintptr. -/
def isUnsigned : TypeKind → Bool
  | .uint | .uint8 | .uint16 | .uint32 | .uint64 | .uintptr => true
  | _ => false

/-- `TypeKind.IsFloat` from types.go. -/
def isFloat : TypeKind → Bool
  | .float32 | .float64 => true
  | _ => false

end TypeKind

/-- `ArgType` from internal/analysis/types.go. -/
inductive ArgType where
  | unknown
  | bool
  | int
  | float
  | string
  | field
  deriving DecidableEq, Repr

/-- `RuleArg` from internal/analysis/types.go: the type and literal value of
one rule argument as parsed from a rule tag element. -/
structure RuleArg where
  type : ArgType := .unknown
  value : String := ""
  deriving DecidableEq, Repr

/-- The `Rule` value built by `parseIsTagElem` in internal/analysis/analysis.go
(fields Name, Args, Context, SetKey, Key, Elem as used by that file and by
internal/generator/generator.go; its declaring file is not in the snapshot,
the field set is exactly the one the source reads and writes). -/
inductive Rule where
  | mk (name : String) (args : List RuleArg) (context : String) (setKey : String)
      (key : Option Rule) (elem : Option Rule)

def Rule.name : Rule → String
  | .mk n _ _ _ _ _ => n

def Rule.args : Rule → List RuleArg
  | .mk _ a _ _ _ _ => a

def Rule.context : Rule → String
  | .mk _ _ c _ _ _ => c

def Rule.setKey : Rule → String
  | .mk _ _ _ s _ _ => s

def Rule.key : Rule → Option Rule
  | .mk _ _ _ _ k _ => k

def Rule.elem : Rule → Option Rule
  | .mk _ _ _ _ _ e => e

/-- Splits a string at its first ':' byte, mirroring
`strings.IndexByte(s, ':')`: `(prefixPart, some rest)` when a colon exists,
`(s, none)` otherwise. -/
def splitFirstColon (l : List Char) : List Char × Option (List Char) :=
  if ':' ∈ l then (l.takeWhile (· ≠ ':'), some ((l.dropWhile (· ≠ ':')).drop 1))
  else (l, none)

/-- The regular expression `rxInt` of internal/analysis/analysis.go,
`0` or an optional minus followed by a nonzero digit and digits. -/
def rxIntMatch : List Char → Bool
  | ['0'] => true
  | '-' :: c :: cs => decide ('1' ≤ c) && decide (c ≤ '9') && cs.all (·.isDigit)
  | c :: cs => decide ('1' ≤ c) && decide (c ≤ '9') && cs.all (·.isDigit)
  | [] => false

/-- The integer part alternatives of `rxFloat` of internal/analysis/analysis.go:
empty, `-0`, `0`, or a nonzero digit followed by digits (note no minus is
admitted in front of a nonzero integer part by that regular expression). -/
def rxFloatIntPart : List Char → Bool
  | [] => true
  | ['-', '0'] => true
  | ['0'] => true
  | c :: cs => decide ('1' ≤ c) && decide (c ≤ '9') && cs.all (·.isDigit)

/-- The regular expression `rxFloat` of internal/analysis/analysis.go:
an optional integer part, a dot, then one or more digits. -/
def rxFloatMatch (s : List Char) : Bool :=
  match s.span (· ≠ '.') with
  | (a, '.' :: b) => rxFloatIntPart a && !b.isEmpty && b.all (·.isDigit)
  | _ => false

/-- The regular expression `rxBool` of internal/analysis/analysis.go. -/
def rxBoolMatch (s : List Char) : Bool :=
  s = "true".data || s = "false".data

/-- The default-branch literal classification of one option inside
`parseIsTagElem` (internal/analysis/analysis.go): strip a surrounding pair of
double quotes (explicit string), else infer int / float / bool / string. -/
def classifyOpt (opt : List Char) : RuleArg :=
  if 1 < opt.length ∧ opt.head? = some '"' ∧ opt.getLast? = some '"' then
    { type := .string, value := String.mk (opt.drop 1).dropLast }
  else if rxIntMatch opt then { type := .int, value := String.mk opt }
  else if rxFloatMatch opt then { type := .float, value := String.mk opt }
  else if rxBoolMatch opt then { type := .bool, value := String.mk opt }
  else { type := .string, value := String.mk opt }

/-- The per-option effect inside the option loop of `parseIsTagElem`:
an argument is appended, or the rule's SetKey or Context is assigned. -/
inductive OptEffect where
  | arg (a : RuleArg)
  | setKeyE (s : String)
  | contextE (s : String)
  deriving DecidableEq, Repr

/-- Processing of a single (already split) option of `parseIsTagElem`:
`#` assigns SetKey, `@` assigns Context, `&` yields a field-reference
argument, an empty option yields an empty argument, anything else is a
literal classified by `classifyOpt`. -/
def parseOneOpt : List Char → OptEffect
  | [] => .arg {}
  | c :: rest =>
    if c = '#' then .setKeyE (String.mk rest)
    else if c = '@' then .contextE (String.mk rest)
    else if c = '&' then .arg { type := .field, value := String.mk rest }
    else .arg (classifyOpt (c :: rest))

/-- The option loop of `parseIsTagElem` (internal/analysis/analysis.go
lines 649-699).  Returns the argument list in order, the last `#`/`@`
assignments (later assignments overwrite earlier ones, mirrored by preferring
the tail's value), and the final state of the `appendEmpty` flag, which is
re-assigned whenever a split colon is the last character of the remaining
option string. -/
def optsLoop (opts : List Char) (appendEmpty : Bool) :
    List RuleArg × Option String × Option String × Bool :=
  if hne : opts = [] then ([], none, none, appendEmpty)
  else if hc : ':' ∈ opts then
    let optPart := opts.takeWhile (· ≠ ':')
    let rest := (opts.dropWhile (· ≠ ':')).drop 1
    let ae := rest.isEmpty
    let (args, sk, ctx, ae') := optsLoop rest ae
    match parseOneOpt optPart with
    | .arg a => (a :: args, sk, ctx, ae')
    | .setKeyE s => (args, (sk.orElse fun _ => some s), ctx, ae')
    | .contextE s => (args, sk, (ctx.orElse fun _ => some s), ae')
  else
    -- final iteration without a colon: appendEmpty keeps its prior value
    match parseOneOpt opts with
    | .arg a => ([a], none, none, appendEmpty)
    | .setKeyE s => ([], some s, none, appendEmpty)
    | .contextE s => ([], none, some s, appendEmpty)
  termination_by opts.length
  decreasing_by
    have h1 : (opts.dropWhile (· ≠ ':')) ≠ [] := by
      intro hnil
      have := (List.dropWhile_eq_nil_iff).mp hnil
      have := this ':' hc
      simp at this
    have h2 : (opts.takeWhile (· ≠ ':')).length +
        (opts.dropWhile (· ≠ ':')).length = opts.length := by
      rw [← List.length_append, List.takeWhile_append_dropWhile]
    have h3 := List.length_drop 1 (opts.dropWhile (· ≠ ':'))
    have h4 : 0 < (opts.dropWhile (· ≠ ':')).length :=
      List.length_pos.mpr h1
    omega

/-- `parseIsTagElem` of internal/analysis/analysis.go (lines 616-705):
parses a single element of the `is` tag as a Rule.  A leading `[` with a
matching `]` splits the element into recursively parsed key/elem sub-rules;
otherwise the part before the first colon is the rule name and the remainder
is the option string fed to the option loop; a final true `appendEmpty` flag
appends one empty argument. -/
def parseIsTagElem (str : List Char) : Rule :=
  if hb : str.head? = some '[' ∧ ']' ∈ str then
    let a := str.takeWhile (· ≠ ']')
    let b := (str.dropWhile (· ≠ ']')).drop 1
    -- a = str[:i], so the key part str[1:i] is a with its leading '[' dropped
    let k := a.drop 1
    Rule.mk "" [] "" ""
      (if k.isEmpty then none else some (parseIsTagElem k))
      (if b.isEmpty then none else some (parseIsTagElem b))
  else
    let (name, optsOpt) := splitFirstColon str
    let opts := optsOpt.getD []
    let (args, sk, ctx, ae) := optsLoop opts false
    Rule.mk (String.mk name) (args ++ if ae then [{}] else []) (ctx.getD "")
      (sk.getD "") none none
  termination_by str.length
  decreasing_by
  all_goals
    have h1 : (str.dropWhile (· ≠ ']')) ≠ [] := by
      intro hnil
      have := (List.dropWhile_eq_nil_iff).mp hnil
      have := this ']' hb.2
      simp at this
    have h2 : (str.takeWhile (· ≠ ']')).length +
        (str.dropWhile (· ≠ ']')).length = str.length := by
      rw [← List.length_append, List.takeWhile_append_dropWhile]
    have h4 : 0 < (str.dropWhile (· ≠ ']')).length :=
      List.length_pos.mpr h1
  · have h5 := List.length_drop 1 (str.takeWhile (· ≠ ']'))
    omega
  · have h5 := List.length_drop 1 (str.dropWhile (· ≠ ']'))
    omega

/-- String-level wrapper for `parseIsTagElem`. -/
def parseIsTagElemS (s : String) : Rule :=
  parseIsTagElem s.data

/-- Error codes of the analysis (`errorCode` constants; the constants file of
the analysis.go generation is not in the snapshot, the codes are the ones its
call sites raise, plus codes for the spec-modelled rule checks). -/
inductive ErrCode where
  | errRuleNameUnavailable
  | errRuleFuncParamCount
  | errRuleFuncResultType
  | errEmptyValidator
  | errRuleUnknown
  | errContextOptionFieldRequired
  | errContextOptionFieldConflict
  | errContextOptionFieldType
  | errErrorHandlerFieldConflict
  | errFieldKeyConflict
  | errFieldKeyUnknown
  | errTypeKind
  | errRuleEnumTypeUnnamed
  | errRuleEnumTypeNoConst
  | errRuleFuncRuleArgCount
  | errRuleFuncFieldArgType
  | errRuleFuncRuleArgType
  | errRuleBasicArgCount
  | errRuleBasicArgType
  | errTypeLength
  | errTypeNumeric
  deriving DecidableEq, Repr

mutual
/-- `Type` from internal/analysis/types.go (constructor argument order:
name, pkgPath, pkgName, isImported, isExported, isIsValider, kind, arrayLen,
isEmptyInterface, isByte, isRune, key, elem, fields; PkgLocal always equals
PkgName in the source and is not duplicated here). -/
inductive GoType where
  | mk (name pkgPath pkgName : String) (isImported isExported isIsValider : Bool)
      (kind : TypeKind) (arrayLen : Int) (isEmptyInterface isByte isRune : Bool)
      (key elem : Option GoType) (fields : List StructField)

/-- `StructField` from internal/analysis/types.go (constructor argument
order: name, key, tag, isEmbedded, isExported, typ, maxFieldDepth, rules).
The tag is the tagutil-parsed struct tag: tag name to comma-split values;
tagutil is an external collaborator, its parsed output is the model. -/
inductive StructField where
  | mk (name fkey : String) (tag : List (String × List String))
      (isEmbedded isExported : Bool) (typ : GoType) (maxFieldDepth : Nat)
      (rules : List Rule)
end

def GoType.name : GoType → String
  | .mk n _ _ _ _ _ _ _ _ _ _ _ _ _ => n

def GoType.pkgPath : GoType → String
  | .mk _ p _ _ _ _ _ _ _ _ _ _ _ _ => p

def GoType.pkgName : GoType → String
  | .mk _ _ p _ _ _ _ _ _ _ _ _ _ _ => p

def GoType.isImported : GoType → Bool
  | .mk _ _ _ i _ _ _ _ _ _ _ _ _ _ => i

def GoType.isExported : GoType → Bool
  | .mk _ _ _ _ e _ _ _ _ _ _ _ _ _ => e

def GoType.isIsValider : GoType → Bool
  | .mk _ _ _ _ _ v _ _ _ _ _ _ _ _ => v

def GoType.kind : GoType → TypeKind
  | .mk _ _ _ _ _ _ k _ _ _ _ _ _ _ => k

def GoType.arrayLen : GoType → Int
  | .mk _ _ _ _ _ _ _ a _ _ _ _ _ _ => a

def GoType.isEmptyInterface : GoType → Bool
  | .mk _ _ _ _ _ _ _ _ i _ _ _ _ _ => i

def GoType.isByte : GoType → Bool
  | .mk _ _ _ _ _ _ _ _ _ b _ _ _ _ => b

def GoType.isRune : GoType → Bool
  | .mk _ _ _ _ _ _ _ _ _ _ r _ _ _ => r

def GoType.key : GoType → Option GoType
  | .mk _ _ _ _ _ _ _ _ _ _ _ k _ _ => k

def GoType.elem : GoType → Option GoType
  | .mk _ _ _ _ _ _ _ _ _ _ _ _ e _ => e

def GoType.fields : GoType → List StructField
  | .mk _ _ _ _ _ _ _ _ _ _ _ _ _ f => f

/-- Convenience constructor for `GoType` with Go zero values as defaults. -/
def mkT (kind : TypeKind) (name : String := "") (pkgPath : String := "")
    (pkgName : String := "") (isImported : Bool := false)
    (isExported : Bool := false) (isIsValider : Bool := false)
    (arrayLen : Int := 0) (isEmptyInterface : Bool := false)
    (isByte : Bool := false) (isRune : Bool := false)
    (key : Option GoType := none) (elem : Option GoType := none)
    (fields : List StructField := []) : GoType :=
  .mk name pkgPath pkgName isImported isExported isIsValider kind arrayLen
    isEmptyInterface isByte isRune key elem fields

def StructField.name : StructField → String
  | .mk n _ _ _ _ _ _ _ => n

def StructField.fkey : StructField → String
  | .mk _ k _ _ _ _ _ _ => k

def StructField.tag : StructField → List (String × List String)
  | .mk _ _ t _ _ _ _ _ => t

def StructField.isEmbedded : StructField → Bool
  | .mk _ _ _ e _ _ _ _ => e

def StructField.isExported : StructField → Bool
  | .mk _ _ _ _ e _ _ _ => e

def StructField.typ : StructField → GoType
  | .mk _ _ _ _ _ t _ _ => t

def StructField.maxFieldDepth : StructField → Nat
  | .mk _ _ _ _ _ _ d _ => d

def StructField.rules : StructField → List Rule
  | .mk _ _ _ _ _ _ _ r => r

/-- tagutil model: the list of comma-split values of the named tag. -/
def tagGet (tag : List (String × List String)) (name : String) : List String :=
  ((tag.find? fun p => p.1 = name).map fun p => p.2).getD []

/-- tagutil model: `Tag.First`, the first value of the named tag ("" if none). -/
def tagFirst (tag : List (String × List String)) (name : String) : String :=
  ((tagGet tag name).head?).getD ""

/-- tagutil model: `Tag.Contains`. -/
def tagContains (tag : List (String × List String)) (name v : String) : Bool :=
  (tagGet tag name).contains v

/-- `Type.PtrBase` from internal/analysis/types.go: strip pointer kinds.
A pointer type with no element cannot be produced by the analysis (the
source would dereference nil); it is returned unchanged. -/
def GoType.ptrBase : GoType → GoType
  | .mk n pp pn ii ie iv k al iei ib ir key (some e) fs =>
    if k = .ptr then e.ptrBase
    else .mk n pp pn ii ie iv k al iei ib ir key (some e) fs
  | t => t

/-- `Type.Equals` from internal/analysis/types.go.  Where the source would
dereference a nil Key/Elem pointer the embedding answers false. -/
def GoType.equals : GoType → GoType → Bool
  | .mk n1 pp1 _ _ _ _ k1 al1 iei1 _ _ key1 elem1 _,
    .mk n2 pp2 _ _ _ _ k2 al2 iei2 _ _ key2 elem2 _ =>
    if k1 ≠ k2 then false
    else if n1 ≠ "" ∨ n2 ≠ "" then decide (n1 = n2 ∧ pp1 = pp2)
    else if k1.isBasic then decide (k1 = k2)
    else
      match k1 with
      | .array =>
        decide (al1 = al2) &&
          (match elem1, elem2 with
            | some a, some b => GoType.equals a b
            | _, _ => false)
      | .map =>
        (match key1, key2 with
          | some a, some b => GoType.equals a b
          | _, _ => false) &&
          (match elem1, elem2 with
            | some a, some b => GoType.equals a b
            | _, _ => false)
      | .slice | .ptr =>
        (match elem1, elem2 with
          | some a, some b => GoType.equals a b
          | _, _ => false)
      | .interface => iei1 && iei2
      | _ => false

/-- `Type.NeedsConversion` from internal/analysis/types.go. -/
def GoType.needsConversion (t u : GoType) : Bool :=
  if u.equals t then false
  else if u.isEmptyInterface then false
  else true

/-- `canConvert` from internal/analysis/analysis.go (lines 917-961):
whether src can be converted to dst. -/
def canConvert (dst src : GoType) : Bool :=
  if src.equals dst then true
  else if dst.isEmptyInterface then true
  else if dst.kind = src.kind && dst.kind.isBasic then true
  else if dst.kind.isNumeric && src.kind.isNumeric then true
  else if dst.kind = .string && src.kind = .slice &&
      (match src.elem with
        | some e => e.name = "" && (e.kind = .uint8 || e.kind = .int32)
        | none => false) then true
  else if src.kind = .string && dst.kind = .slice &&
      (match dst.elem with
        | some e => e.name = "" && (e.kind = .uint8 || e.kind = .int32)
        | none => false) then true
  else if dst.kind = src.kind && !dst.kind.isBasic then
    match dst.kind with
    | .array =>
      decide (dst.arrayLen = src.arrayLen) &&
        (match dst.elem, src.elem with
          | some a, some b => a.equals b
          | _, _ => false)
    | .map =>
      (match dst.key, src.key with
        | some a, some b => a.equals b
        | _, _ => false) &&
        (match dst.elem, src.elem with
          | some a, some b => a.equals b
          | _, _ => false)
    | .slice | .ptr =>
      (match dst.elem, src.elem with
        | some a, some b => a.equals b
        | _, _ => false)
    | _ => false
  else false

/-- `canConvertRuleArg` from internal/analysis/analysis.go (lines 963-1008):
whether the literal value of the src RuleArg can be converted to dst.
The selector map (field key to the referenced leaf field's type) stands for
`a.info.SelectorMap[..].Last().Type`; a missing key would make the source
panic and answers false here (unreachable after key validation). -/
def canConvertRuleArg (selmap : List (String × GoType)) (dst : GoType)
    (src : RuleArg) : Bool :=
  if src.type = .field then
    match (selmap.find? fun p => p.1 = src.value).map (fun p => p.2) with
    | some ft => canConvert dst ft
    | none => false
  else if dst.isEmptyInterface || dst.kind = .string then true
  else if src.type = .unknown then true
  else if dst.kind = .bool && src.type = .bool then true
  else if dst.kind.isFloat && (src.type = .int || src.type = .float) then true
  else if dst.kind.isInteger && src.type = .int then true
  else if dst.kind.isUnsigned && src.type = .int &&
      src.value.data.head? ≠ some '-' then true
  else if src.type = .string &&
      (dst.kind = .string ||
        (dst.kind = .slice &&
          (match dst.elem with
            | some e => e.name = "" && (e.kind = .uint8 || e.kind = .int32)
            | none => false))) then true
  else false

mutual
/-- Model of the go/types representation consumed by the analysis: one
constructor per `types.Type` shape the source switches on.  A named type
carries the object data and its underlying type; capability flags (Caps)
stand for the method-set inspections of internal/analysis/helpers.go, which
operate on go/types method sets that are outside this model. -/
inductive MType where
  | basic (kind : TypeKind) (tname : String)
  | slice (elem : MType)
  | array (len : Int) (elem : MType)
  | mapT (key elem : MType)
  | ptr (elem : MType)
  | iface (numMethodsZero : Bool) (isValider : Bool)
  | strct (fields : List MField)
  | chanT
  | funcT
  | named (name pkgPath pkgName : String) (exported : Bool)
      (isValider errCtor errAgg : Bool) (underlying : MType)

/-- Model of one `*types.Var` struct field together with its raw tag as
parsed by tagutil. -/
inductive MField where
  | mk (name : String) (tag : List (String × List String)) (typ : MType)
      (embedded exported : Bool)
end

def MField.name : MField → String
  | .mk n _ _ _ _ => n

def MField.tag : MField → List (String × List String)
  | .mk _ t _ _ _ => t

def MField.typ : MField → MType
  | .mk _ _ t _ _ => t

def MField.embedded : MField → Bool
  | .mk _ _ _ e _ => e

def MField.exported : MField → Bool
  | .mk _ _ _ _ e => e

/-- `isErrorConstructor` of internal/analysis/helpers.go reads the method
set of a named type; the model reads the corresponding capability flag
(false for anything that is not a named type, as in the source). -/
def isErrorConstructorM : MType → Bool
  | .named _ _ _ _ _ ec _ _ => ec
  | _ => false

/-- `isErrorAggregator` of internal/analysis/helpers.go, modelled like
`isErrorConstructorM`. -/
def isErrorAggregatorM : MType → Bool
  | .named _ _ _ _ _ _ ea _ => ea
  | _ => false

/-- `isIsValider` as called by internal/analysis/analysis.go (its defining
file is not in the snapshot; helpers.go's `canIsValid` documents the
behaviour: named types and interfaces can carry the IsValid capability). -/
def isIsValiderM : MType → Bool
  | .named _ _ _ _ iv _ _ _ => iv
  | .iface _ iv => iv
  | _ => false

/-- `isBool` of internal/analysis/helpers.go: the builtin bool type. -/
def isBoolM : MType → Bool
  | .basic k n => k = .bool && n = "bool"
  | _ => false

/-- `analyzeTypeKind` from internal/analysis/analysis.go (lines 574-598). -/
def analyzeTypeKindM : MType → TypeKind
  | .basic k _ => k
  | .array _ _ => .array
  | .chanT => .chan
  | .funcT => .func
  | .iface _ _ => .interface
  | .mapT _ _ => .map
  | .ptr _ => .ptr
  | .slice _ => .slice
  | .strct _ => .struct
  | .named _ _ _ _ _ _ _ u => analyzeTypeKindM u

mutual
/-- `analyzeType0` from internal/analysis/analysis.go (lines 440-479): the
simplified type translation used for registered rule functions.  A named
type contributes its object data, then the underlying type is translated. -/
def analyzeType0M : MType → GoType
  | .named n pp pn ex _ _ _ u => analyzeType0Under u n pp pn ex
  | t => analyzeType0Under t "" "" "" false

/-- The switch over the underlying type inside `analyzeType0`. -/
def analyzeType0Under (t : MType) (n pp pn : String) (ex : Bool) : GoType :=
  let kind := analyzeTypeKindM t
  match t with
  | .basic _ tn =>
    GoType.mk n pp pn false ex false kind 0 false (decide (tn = "byte"))
      (decide (tn = "rune")) none none []
  | .slice e =>
    GoType.mk n pp pn false ex false kind 0 false false false none
      (some (analyzeType0M e)) []
  | .array l e =>
    GoType.mk n pp pn false ex false kind l false false false none
      (some (analyzeType0M e)) []
  | .mapT k e =>
    GoType.mk n pp pn false ex false kind 0 false false false
      (some (analyzeType0M k)) (some (analyzeType0M e)) []
  | .ptr e =>
    GoType.mk n pp pn false ex false kind 0 false false false none
      (some (analyzeType0M e)) []
  | .iface z _ =>
    GoType.mk n pp pn false ex false kind 0 z false false none none []
  | _ =>
    -- struct and chan are left untranslated by the source (a marked TODO)
    GoType.mk n pp pn false ex false kind 0 false false false none none []
end

/-- Model of a `*types.Func` argument of `Config.AddRuleFunc`: its name and
package together with its signature's parameter and result types. -/
structure GoFunc where
  name : String := ""
  pkgPath : String := ""
  params : List MType := []
  results : List MType := []
  isVariadic : Bool := false

/-- `RuleFuncBoolConn` from internal/analysis/types.go (the generator
generation names the same data `LOp` with LogicalNot/And/Or). -/
inductive BoolConn where
  | bcNone | bcNot | bcAnd | bcOr
  deriving DecidableEq, Repr

/-- The comparison `conn > RuleFuncBoolNone` of the source. -/
def BoolConn.gtNone : BoolConn → Bool
  | .bcNone => false
  | _ => true

/-- `RuleFunc` from internal/analysis/types.go (named `RuleTypeFunc` in the
generator generation). -/
structure RuleFuncSpec where
  funcName : String := ""
  pkgPath : String := ""
  argTypes : List GoType := []
  isVariadic : Bool := false
  boolConn : BoolConn := .bcNone
  useRawString : Bool := false
  check : Option (Rule → GoType → Except ErrCode Unit) := none
  iscustom : Bool := false

/-- `RuleSpec` variants from internal/analysis/types.go: IsValid, Enum,
Basic (with its type-check function), Func.  The generator generation names
these `RuleTypeIsValid` / `RuleTypeEnum` / `RuleTypeBasic` / `RuleTypeFunc`. -/
inductive RuleSpec where
  | isValidSpec
  | enumSpec
  | basicSpec (check : Rule → GoType → Except ErrCode Unit)
  | funcSpec (f : RuleFuncSpec)

/-- Go map model: lookup by key. -/
def mapLookup (m : List (String × α)) (k : String) : Option α :=
  (m.find? fun p => p.1 = k).map fun p => p.2

/-- Go map model: insert-or-overwrite. -/
def mapInsert (m : List (String × α)) (k : String) (v : α) : List (String × α) :=
  (k, v) :: m.filter fun p => p.1 ≠ k

/-- `Config` from internal/analysis/analysis.go. -/
structure Config where
  fieldKeyTag : String := ""
  fieldKeyJoin : Bool := false
  fieldKeySeparator : String := ""
  ruleSpecMap : List (String × RuleSpec) := []

/-- `strings.ToLower` on the ASCII names at issue (character-wise
lowercasing). -/
def strToLower (s : String) : String := String.mk (s.data.map Char.toLower)

/-- `Config.AddRuleFunc` from internal/analysis/analysis.go (lines 37-64).
On error the configuration is returned unchanged by the caller (the source
returns only the error and performs no map insertion). -/
def addRuleFunc (c : Config) (ruleName : String) (ruleFunc : GoFunc) :
    Except ErrCode Config :=
  if strToLower ruleName = "isvalid" ∨ strToLower ruleName = "enum" then
    .error .errRuleNameUnavailable
  else
    let p := ruleFunc.params
    let r := ruleFunc.results
    if p.length < 1 ∨ r.length ≠ 1 then .error .errRuleFuncParamCount
    else
      match r.head? with
      | some rt =>
        if !isBoolM rt then .error .errRuleFuncResultType
        else
          let rf : RuleFuncSpec :=
            { iscustom := true, funcName := ruleFunc.name,
              pkgPath := ruleFunc.pkgPath, isVariadic := ruleFunc.isVariadic,
              argTypes := p.map analyzeType0M }
          .ok { c with ruleSpecMap := mapInsert c.ruleSpecMap ruleName (.funcSpec rf) }
      | none => .error .errRuleFuncParamCount

/-- `makeFieldKey` from internal/analysis/analysis.go (lines 600-608): if the
key is already tracked, bump its counter and append "-<old counter>". -/
def makeFieldKey (keys : List (String × Nat)) (key : String) :
    String × List (String × Nat) :=
  match mapLookup keys key with
  | some num => (key ++ "-" ++ toString num, mapInsert keys key (num + 1))
  | none => (key, keys)

/-- The key-uniqueness step of `analyzeStructFields` (internal/analysis/
analysis.go lines 285-296): produce the field key via `makeFieldKey`, fail
with errFieldKeyConflict if it is already tracked, else track it with
counter 1. -/
def assignKeyStep (keys : List (String × Nat)) (base : String) :
    Except ErrCode (String × List (String × Nat)) :=
  let (k, keys1) := makeFieldKey keys base
  match mapLookup keys1 k with
  | some _ => .error .errFieldKeyConflict
  | none => .ok (k, mapInsert keys1 k 1)

/-- `assignKeyStep` folded over the sequence of base keys in the order the
analysis encounters the fields. -/
def assignKeys (keys : List (String × Nat)) :
    List String → Except ErrCode (List String × List (String × Nat))
  | [] => .ok ([], keys)
  | b :: bs => do
    let (k, keys1) ← assignKeyStep keys b
    let (ks, keys2) ← assignKeys keys1 bs
    .ok (k :: ks, keys2)

/-- `fieldKeyFunc` from internal/analysis/analysis.go (lines 1012-1070):
produce a field's base key from its selector according to the config.
String lengths are character counts (byte counts in Go; they agree on the
ASCII keys at issue). -/
def fieldKeyFn (conf : Config) (sel : List StructField) : String :=
  if conf.fieldKeyTag.length > 0 then
    if conf.fieldKeyJoin then
      let sep := conf.fieldKeySeparator
      let key := sel.foldl
        (fun acc f =>
          if tagContains f.tag "isvalid" "omitkey" then acc
          else
            let v := tagFirst f.tag conf.fieldKeyTag
            acc ++ (if v.length = 0 then f.name else v) ++ sep) ""
      if sep.length > 0 ∧ key.length > sep.length then key.dropRight sep.length
      else key
    else
      match sel.getLast? with
      | some f =>
        let key := tagFirst f.tag conf.fieldKeyTag
        if key.length > 0 then key else f.name
      | none => ""
  else if conf.fieldKeyJoin then
    let sep := conf.fieldKeySeparator
    let key := sel.foldl
      (fun acc f =>
        if tagContains f.tag "isvalid" "omitkey" then acc
        else acc ++ f.name ++ sep) ""
    if sep.length > 0 ∧ key.length > sep.length then key.dropRight sep.length
    else key
  else
    match sel.getLast? with
    | some f => f.name
    | none => ""

/-- Shorthand for an unnamed basic string type. -/
def stringT : GoType := mkT .string

/-- Shorthand for an unnamed basic int type. -/
def intT : GoType := mkT .int

/-- Modelled from the spec: check of the `required` rule (no type
constraint; the zero-value check form is chosen by kind at synthesis). -/
def checkRequired (_ : Rule) (_ : GoType) : Except ErrCode Unit := .ok ()

/-- Modelled from the spec: `notnil` applies only to nilable kinds
(pointer, slice, map, interface). -/
def checkNotnil (_ : Rule) (t : GoType) : Except ErrCode Unit :=
  match t.ptrBase.kind with
  | .ptr | .slice | .map | .interface => .ok ()
  | _ => .error .errTypeKind

/-- Modelled from the spec: `eq`/`ne` need at least one argument and each
literal argument must be convertible to the field's base type (a field
reference is resolved against the selector map later in the pipeline). -/
def checkEqNe (r : Rule) (t : GoType) : Except ErrCode Unit :=
  if r.args.length < 1 then .error .errRuleBasicArgCount
  else if r.args.all fun a =>
      a.type = .field || canConvertRuleArg [] t.ptrBase a then .ok ()
  else .error .errRuleBasicArgType

/-- Modelled from the spec: the ordered comparison rules (gt, lt, gte, lte,
min, max) need a numeric field type and one argument convertible to it. -/
def checkNumericCmp (r : Rule) (t : GoType) : Except ErrCode Unit :=
  if !t.ptrBase.kind.isNumeric then .error .errTypeNumeric
  else if r.args.length ≠ 1 then .error .errRuleBasicArgCount
  else if r.args.all fun a =>
      a.type = .field || canConvertRuleArg [] t.ptrBase a then .ok ()
  else .error .errRuleBasicArgType

/-- Modelled from the spec: `len` needs a type with a length (string,
slice, array, map) and one or two bounds, each an integer when nonempty. -/
def checkLen (r : Rule) (t : GoType) : Except ErrCode Unit :=
  match t.ptrBase.kind with
  | .string | .slice | .array | .map =>
    if r.args.length = 0 ∨ 2 < r.args.length then .error .errRuleBasicArgCount
    else if r.args.all fun a =>
        a.value = "" || a.type = .int || a.type = .field then .ok ()
    else .error .errRuleBasicArgType
  | _ => .error .errTypeLength

/-- Modelled from the spec: `rng` needs a numeric field type and exactly
two bounds, each numeric when nonempty. -/
def checkRng (r : Rule) (t : GoType) : Except ErrCode Unit :=
  if !t.ptrBase.kind.isNumeric then .error .errTypeNumeric
  else if r.args.length ≠ 2 then .error .errRuleBasicArgCount
  else if r.args.all fun a =>
      a.value = "" || a.type = .int || a.type = .float || a.type = .field then .ok ()
  else .error .errRuleBasicArgType

/-- The isvalid package path used in generated code. -/
def isvalidPkg : String := "github.com/frk/isvalid"

/-- Modelled from the spec: `defaultRuleSpecMap` (its defining file is not in
the snapshot).  It registers `isvalid` and `enum` as the method/enum rules,
the basic comparison rules, and the predicate-registry function rules the
claims exercise; `re` prefers raw string arguments and the substring rules
chain with the OR connective (emitted as a conjunction of negated calls),
matching the generator testdata. -/
def defaultRuleSpecMap : List (String × RuleSpec) :=
  [("required", .basicSpec checkRequired),
   ("notnil", .basicSpec checkNotnil),
   ("isvalid", .isValidSpec),
   ("enum", .enumSpec),
   ("eq", .basicSpec checkEqNe),
   ("ne", .basicSpec checkEqNe),
   ("gt", .basicSpec checkNumericCmp),
   ("lt", .basicSpec checkNumericCmp),
   ("gte", .basicSpec checkNumericCmp),
   ("lte", .basicSpec checkNumericCmp),
   ("min", .basicSpec checkNumericCmp),
   ("max", .basicSpec checkNumericCmp),
   ("len", .basicSpec checkLen),
   ("rng", .basicSpec checkRng),
   ("email", .funcSpec { funcName := "Email", pkgPath := isvalidPkg, argTypes := [stringT] }),
   ("url", .funcSpec { funcName := "URL", pkgPath := isvalidPkg, argTypes := [stringT] }),
   ("uri", .funcSpec { funcName := "URI", pkgPath := isvalidPkg, argTypes := [stringT] }),
   ("numeric", .funcSpec { funcName := "Numeric", pkgPath := isvalidPkg, argTypes := [stringT] }),
   ("hex", .funcSpec { funcName := "Hex", pkgPath := isvalidPkg, argTypes := [stringT] }),
   ("fqdn", .funcSpec { funcName := "FQDN", pkgPath := isvalidPkg, argTypes := [stringT] }),
   ("ein", .funcSpec { funcName := "EIN", pkgPath := isvalidPkg, argTypes := [stringT] }),
   ("re", .funcSpec { funcName := "Match", pkgPath := isvalidPkg, argTypes := [stringT, stringT], useRawString := true }),
   ("rfc", .funcSpec { funcName := "RFC", pkgPath := isvalidPkg, argTypes := [stringT, intT] }),
   ("contains", .funcSpec { funcName := "Contains", pkgPath := "strings", argTypes := [stringT, stringT], boolConn := .bcOr }),
   ("prefix", .funcSpec { funcName := "HasPrefix", pkgPath := "strings", argTypes := [stringT, stringT], boolConn := .bcOr }),
   ("suffix", .funcSpec { funcName := "HasSuffix", pkgPath := "strings", argTypes := [stringT, stringT], boolConn := .bcOr })]

/-- `strings.TrimSpace`: whitespace stripped from both ends. -/
def strTrim (s : String) : String :=
  String.mk (((s.data.dropWhile Char.isWhitespace).reverse.dropWhile
    Char.isWhitespace).reverse)

/-- `hasRuleSpec` from internal/analysis/analysis.go (lines 550-571): for a
key/elem rule check the children, otherwise look the name up in the custom
and default rule-spec maps. -/
def hasRuleSpec (conf : Config) : Rule → Bool
  | .mk n _ _ _ k e =>
    if k.isSome || e.isSome then
      (match k with
        | some kr => hasRuleSpec conf kr
        | none => true) &&
      (match e with
        | some er => hasRuleSpec conf er
        | none => true)
    else
      match mapLookup conf.ruleSpecMap n with
      | some _ => true
      | none => (mapLookup defaultRuleSpecMap n).isSome

/-- Replace a Rule's name, used for the implicit `isvalid` substitution. -/
def Rule.withName (r : Rule) (n : String) : Rule :=
  match r with
  | .mk _ a c s k e => .mk n a c s k e

/-- The per-element loop of `analyzeRules` (internal/analysis/analysis.go
lines 507-540), threading the remaining `isvalid` backup rule and the
needs-context flag (`a.needsContext != nil` of the source). -/
def analyzeRulesLoop (conf : Config) (isValider omitIv : Bool) :
    List String → Option Rule → Bool →
    Except ErrCode (List Rule × Option Rule × Bool)
  | [], iv, nc => .ok ([], iv, nc)
  | s :: ss, iv, nc =>
    let s' := strTrim s
    if s' = "-isvalid" then analyzeRulesLoop conf isValider omitIv ss iv nc
    else
      let r := parseIsTagElemS s'
      let nc1 := nc || decide (r.context.length > 0)
      if r.name = "isvalid" then .error .errRuleUnknown
      else
        let (r1, iv1) :=
          if r.name = "" ∧ isValider ∧ ¬omitIv then (r.withName "isvalid", none)
          else (r, iv)
        if ¬ hasRuleSpec conf r1 then .error .errRuleUnknown
        else do
          let (rs, iv2, nc2) ← analyzeRulesLoop conf isValider omitIv ss iv1 nc1
          .ok (r1 :: rs, iv2, nc2)

/-- `analyzeRules` from internal/analysis/analysis.go (lines 486-547):
scan the `is` tag values for `-isvalid`, prepare the `isvalid` backup rule
for IsValider base types, process each element (empty names become the
implicit `isvalid` rule on IsValider fields, an explicit `isvalid` element
and unknown rule names fail), and append the backup at the end if it was
not consumed by an empty-named element.  Returns the field's rules and the
updated needs-context flag. -/
def analyzeRules (conf : Config) (nc : Bool) (tagIs : List String)
    (typ : GoType) : Except ErrCode (List Rule × Bool) := do
  let typBase := typ.ptrBase
  let omitIv := tagIs.any fun s => strTrim s = "-isvalid"
  let iv0 : Option Rule :=
    if typBase.isIsValider && !omitIv then some (Rule.mk "isvalid" [] "" "" none none)
    else none
  let (rs, iv, nc') ← analyzeRulesLoop conf typBase.isIsValider omitIv tagIs iv0 nc
  .ok (rs ++ (match iv with | some r => [r] | none => []), nc')

/-- Model of one typed constant found by `search.FindConstantsByType` (the
search package is not part of the snapshot; modelled from the spec: the
package is searched for typed constants of the named type). -/
structure MConst where
  name : String
  pkgPath : String
  typeName : String
  typePkgPath : String
  exported : Bool := true
  deriving DecidableEq, Repr

/-- Modelled from the spec: `search.FindConstantsByType`, the constants of
the environment declared with the named type. -/
def findConstantsByType (consts : List MConst) (tp tn : String) : List MConst :=
  consts.filter fun c => c.typePkgPath = tp ∧ c.typeName = tn

/-- The analysis environment: the configuration, the target package path,
and the constants visible to the enum search. -/
structure AnEnv where
  conf : Config := {}
  pkgPath : String := ""
  consts : List MConst := []

/-- The mutable parts of the `analysis` struct of internal/analysis/
analysis.go: the key-uniqueness counters, the needs-context flag
(`a.needsContext != nil`), the selector map (field key to the selector's
names and its leaf field type), the enum map, and the special fields
recorded on the validator under construction. -/
structure AnState where
  keys : List (String × Nat) := []
  needsContext : Bool := false
  selectorMap : List (String × (List String × GoType)) := []
  enumMap : List (String × List MConst) := []
  errorHandler : Option (String × Bool) := none
  contextOption : Option String := none

/-- `ValidatorStruct` from internal/analysis/types.go (the error handler is
its name and aggregator flag, the context option its name, the hooks their
method names). -/
structure ValidatorStruct where
  typeName : String := ""
  fields : List StructField := []
  errorHandler : Option (String × Bool) := none
  contextOption : Option String := none
  beforeValidate : Option String := none
  afterValidate : Option String := none

/-- `analyzeErrorHandlerField` from internal/analysis/analysis.go
(lines 337-346). -/
def analyzeErrorHandlerField (st : AnState) (fname : String)
    (isAggregator : Bool) : Except ErrCode AnState :=
  if st.errorHandler.isSome then .error .errErrorHandlerFieldConflict
  else .ok { st with errorHandler := some (fname, isAggregator) }

/-- `analyzeContextOptionField` from internal/analysis/analysis.go
(lines 350-361). -/
def analyzeContextOptionField (st : AnState) (fname : String)
    (typ : GoType) : Except ErrCode AnState :=
  if st.contextOption.isSome then .error .errContextOptionFieldConflict
  else if typ.kind ≠ .string then .error .errContextOptionFieldType
  else .ok { st with contextOption := some fname }

mutual
/-- `analyzeType` from internal/analysis/analysis.go (lines 364-437),
named-type unwrapping step: a named type contributes its object data and
the IsValider capability, then the underlying type is analyzed. -/
def analyzeTypeM (env : AnEnv) (st : AnState) (md : Nat) (t : MType)
    (selector : List StructField) : Except ErrCode (GoType × Nat × AnState) :=
  match t with
  | .named n pp pn ex iv _ _ u =>
    analyzeTypeUnder env st md u selector n pp pn (pp ≠ env.pkgPath) ex iv
  | t' => analyzeTypeUnder env st md t' selector "" "" "" false false (isIsValiderM t')
  termination_by (sizeOf t, 1)
  decreasing_by all_goals (simp_wf <;> omega)

/-- The switch over the underlying type inside `analyzeType`: composites
are analyzed recursively (sharing the maxdepth out-parameter), an interface
re-reads the IsValider capability and the empty-interface property, and a
struct has its fields analyzed, setting maxdepth to one more than the
deepest field. -/
def analyzeTypeUnder (env : AnEnv) (st : AnState) (md : Nat) (t : MType)
    (selector : List StructField) (n pp pn : String) (imp ex iv : Bool) :
    Except ErrCode (GoType × Nat × AnState) :=
  let kind := analyzeTypeKindM t
  match t with
  | .basic _ tn =>
    .ok (GoType.mk n pp pn imp ex iv kind 0 false (decide (tn = "byte"))
      (decide (tn = "rune")) none none [], md, st)
  | .slice e => do
    let (elem, md1, st1) ← analyzeTypeM env st md e selector
    .ok (GoType.mk n pp pn imp ex iv kind 0 false false false none (some elem) [],
      md1, st1)
  | .array l e => do
    let (elem, md1, st1) ← analyzeTypeM env st md e selector
    .ok (GoType.mk n pp pn imp ex iv kind l false false false none (some elem) [],
      md1, st1)
  | .mapT k e => do
    let (keyT, md1, st1) ← analyzeTypeM env st md k selector
    let (elem, md2, st2) ← analyzeTypeM env st1 md1 e selector
    .ok (GoType.mk n pp pn imp ex iv kind 0 false false false (some keyT)
      (some elem) [], md2, st2)
  | .ptr e => do
    let (elem, md1, st1) ← analyzeTypeM env st md e selector
    .ok (GoType.mk n pp pn imp ex iv kind 0 false false false none (some elem) [],
      md1, st1)
  | .iface z ivi => do
    .ok (GoType.mk n pp pn imp ex ivi kind 0 z false false none none [], md, st)
  | .strct mfields => do
    let (fields, st1) ← analyzeStructFieldsM env st mfields selector (!imp)
    let md1 :=
      if fields.isEmpty then md
      else (fields.foldl (fun mx f => Max.max mx f.maxFieldDepth) 0) + 1
    .ok (GoType.mk n pp pn imp ex iv kind 0 false false false none none fields,
      md1, st1)
  | _ =>
    .ok (GoType.mk n pp pn imp ex iv kind 0 false false false none none [], md, st)
  termination_by (sizeOf t, 0)
  decreasing_by all_goals (simp_wf <;> omega)

/-- `analyzeStructFields` from internal/analysis/analysis.go
(lines 252-332): skip imported-unexported, blank and `is:"-"` fields;
build the field, produce and track its unique key, record the selector,
analyze its type (which analyzes nested struct fields) and its rules; an
untagged root field whose type has the error-constructor or
error-aggregator capability, or whose lowercased name is "context",
becomes a special field instead of a validated one. -/
def analyzeStructFieldsM (env : AnEnv) (st : AnState) (mfields : List MField)
    (selector : List StructField) (isLocal : Bool) :
    Except ErrCode (List StructField × AnState) :=
  match mfields with
  | [] => .ok ([], st)
  | .mk fname ftag ftyp femb fex :: rest => do
    let istag := tagFirst ftag "is"
    if (!isLocal && !fex) || fname = "_" || istag = "-" then
      analyzeStructFieldsM env st rest selector isLocal
    else do
      let f0 : StructField := .mk fname "" ftag femb fex (mkT .invalid) 0 []
      let fsel := selector ++ [f0]
      let base := fieldKeyFn env.conf fsel
      let (fkey, keys') ← assignKeyStep st.keys base
      let st1 := { st with keys := keys' }
      let (typ, md, st2) ← analyzeTypeM env st1 0 ftyp fsel
      let (rules, nc) ← analyzeRules env.conf st2.needsContext (tagGet ftag "is") typ
      let st3 := { st2 with
        needsContext := nc,
        selectorMap := mapInsert st2.selectorMap fkey (fsel.map (·.name), typ) }
      let f : StructField := .mk fname fkey ftag femb fex typ md rules
      if istag.length == 0 && selector.isEmpty then
        if isErrorConstructorM ftyp then do
          let st4 ← analyzeErrorHandlerField st3 fname false
          analyzeStructFieldsM env st4 rest selector isLocal
        else if isErrorAggregatorM ftyp then do
          let st4 ← analyzeErrorHandlerField st3 fname true
          analyzeStructFieldsM env st4 rest selector isLocal
        else if strToLower fname = "context" then do
          let st4 ← analyzeContextOptionField st3 fname typ
          analyzeStructFieldsM env st4 rest selector isLocal
        else do
          let (fs, st4) ← analyzeStructFieldsM env st3 rest selector isLocal
          .ok (f :: fs, st4)
      else do
        let (fs, st4) ← analyzeStructFieldsM env st3 rest selector isLocal
        .ok (f :: fs, st4)
  termination_by (sizeOf mfields, 2)
  decreasing_by all_goals (simp_wf <;> omega)
end

/-- `typeCheckRuleEnum` from internal/analysis/analysis.go (lines 817-849):
the base type must be named; its package is searched for typed constants,
skipping blank names and imported-unexported constants; the result (which
must be nonempty) is memoised in the enum map. -/
def typeCheckRuleEnum (env : AnEnv) (st : AnState) (t : GoType) :
    Except ErrCode AnState :=
  let typ := t.ptrBase
  if typ.name.length = 0 then .error .errRuleEnumTypeUnnamed
  else
    let ident := typ.pkgPath ++ "." ++ typ.name
    if (mapLookup st.enumMap ident).isSome then .ok st
    else
      let consts := findConstantsByType env.consts typ.pkgPath typ.name
      let enums := consts.filter fun c =>
        ¬(c.name = "_") ∧ ¬(env.pkgPath ≠ c.pkgPath ∧ ¬c.exported)
      if enums.isEmpty then .error .errRuleEnumTypeNoConst
      else .ok { st with enumMap := mapInsert st.enumMap ident enums }

/-- `typeCheckRuleFunc` from internal/analysis/analysis.go (lines 852-913):
argument-count compatibility (a boolean connective replaces the arity check
with "at least one"), convertibility of the field type to the function's
first parameter, the optional custom check, and convertibility of every
rule argument to its declared parameter type. -/
def typeCheckRuleFunc (st : AnState) (r : Rule) (rf : RuleFuncSpec)
    (t : GoType) : Except ErrCode Unit := do
  if rf.boolConn.gtNone then
    if r.args.length < 1 then throw .errRuleFuncRuleArgCount else pure ()
  else
    let numreq0 := (rf.argTypes.drop 1).length
    let numreq := if rf.isVariadic then numreq0 - 1 else numreq0
    let numarg := r.args.length
    if numreq > numarg ∨ (numreq < numarg ∧ ¬rf.isVariadic) then
      throw .errRuleFuncRuleArgCount
    else pure ()
  let fldType := t.ptrBase
  let argType0 := (rf.argTypes.head?).getD (mkT .invalid)
  let argType :=
    if rf.isVariadic ∧ rf.argTypes.length = 1 then
      (argType0.elem).getD (mkT .invalid)
    else argType0
  if ¬canConvert argType fldType then throw .errRuleFuncFieldArgType else pure ()
  match rf.check with
  | some c => c r t
  | none => pure ()
  let selmap := st.selectorMap.map fun p => (p.1, p.2.2)
  let fatypes0 := rf.argTypes.drop 1
  let fatypes :=
    if rf.isVariadic ∧ fatypes0.length > 0 then fatypes0.dropLast else fatypes0
  for p in fatypes.zip (r.args.take fatypes.length) do
    if ¬canConvertRuleArg selmap p.1 p.2 then throw .errRuleFuncRuleArgType
    else pure ()
  if rf.isVariadic then
    let last0 := (rf.argTypes.getLast?).getD (mkT .invalid)
    let fatyp := (last0.elem).getD (mkT .invalid)
    for ra in r.args.drop fatypes.length do
      if ¬canConvertRuleArg selmap fatyp ra then throw .errRuleFuncRuleArgType
      else pure ()
  else if rf.boolConn.gtNone then
    let fatyp := ((rf.argTypes.drop 1).head?).getD (mkT .invalid)
    for ra in r.args do
      if ¬canConvertRuleArg selmap fatyp ra then throw .errRuleFuncRuleArgType
      else pure ()
  else pure ()

/-- `typeCheckRuleSpec` from internal/analysis/analysis.go (lines 762-813):
a key/elem rule requires a map (for key) or map/slice/array (for elem) base
type and descends into the key/element type; otherwise the rule's spec is
looked up and its specific check dispatched.  Where the source would
dereference a missing key/element type of a malformed map/slice type the
embedding fails with errTypeKind. -/
def typeCheckRuleSpec (env : AnEnv) (st : AnState) (r : Rule) (t : GoType) :
    Except ErrCode AnState :=
  match r with
  | .mk n _ _ _ rk re =>
    if rk.isSome || re.isSome then
      let tb := t.ptrBase
      let afterKey : Except ErrCode AnState :=
        match rk with
        | some kr =>
          if tb.kind ≠ .map then .error .errTypeKind
          else
            match tb.key with
            | some kt => typeCheckRuleSpec env st kr kt
            | none => .error .errTypeKind
        | none => .ok st
      match afterKey with
      | .error e => .error e
      | .ok st1 =>
        match re with
        | some er =>
          if tb.kind ≠ .array ∧ tb.kind ≠ .slice ∧ tb.kind ≠ .map then
            .error .errTypeKind
          else
            match tb.elem with
            | some et => typeCheckRuleSpec env st1 er et
            | none => .error .errTypeKind
        | none => .ok st1
    else
      match (mapLookup env.conf.ruleSpecMap n).orElse
          (fun _ => mapLookup defaultRuleSpecMap n) with
      | none => .error .errRuleUnknown
      | some .isValidSpec => .ok st
      | some .enumSpec => typeCheckRuleEnum env st t
      | some (.basicSpec check) => do
        let _ ← check r t
        .ok st
      | some (.funcSpec rf) => do
        let _ ← typeCheckRuleFunc st r rf t
        .ok st

mutual
/-- `typeCheckRules` from internal/analysis/analysis.go (lines 709-758):
for every field, validate field-reference arguments against the selector
map and type-check each rule, then walk the field's type hierarchy and do
the same for nested struct fields. -/
def typeCheckRulesM (env : AnEnv) (st : AnState) :
    List StructField → Except ErrCode AnState
  | [] => .ok st
  | .mk _ _ _ _ _ ftyp _ frules :: fs => do
    let st1 ← typeCheckFieldRules env st frules ftyp
    let st2 ← typeCheckWalk env st1 ftyp
    typeCheckRulesM env st2 fs
  termination_by fs => (sizeOf fs, 0)
  decreasing_by all_goals (simp_wf <;> omega)

/-- The per-field rule loop of `typeCheckRules`: the field-reference check
followed by `typeCheckRuleSpec`, for each rule. -/
def typeCheckFieldRules (env : AnEnv) (st : AnState) :
    List Rule → GoType → Except ErrCode AnState
  | [], _ => .ok st
  | r :: rs, t => do
    if r.args.any fun a =>
        a.type = .field ∧ (mapLookup st.selectorMap a.value).isNone then
      throw .errFieldKeyUnknown
    else do
      let st1 ← typeCheckRuleSpec env st r t
      typeCheckFieldRules env st1 rs t
  termination_by rs t => (sizeOf rs, sizeOf t)
  decreasing_by all_goals (simp_wf <;> omega)

/-- The `walk` closure of `typeCheckRules`: descend through pointers (the
source first takes PtrBase; the embedding peels one pointer per step, which
computes the same base), recurse into array/slice/map component types, and
type-check the fields of a struct. -/
def typeCheckWalk (env : AnEnv) (st : AnState) (t : GoType) :
    Except ErrCode AnState :=
  match t with
  | .mk _ _ _ _ _ _ k _ _ _ _ keyT elemT tfields =>
    match k with
    | .ptr =>
      match elemT with
      | some e => typeCheckWalk env st e
      | none => .ok st
    | .struct => typeCheckRulesM env st tfields
    | .array | .slice =>
      match elemT with
      | some e => typeCheckWalk env st e
      | none => .ok st
    | .map => do
      let st1 ←
        match keyT with
        | some kt => typeCheckWalk env st kt
        | none => .ok st
      match elemT with
      | some e => typeCheckWalk env st1 e
      | none => .ok st1
    | _ => .ok st
  termination_by (sizeOf t, 1)
  decreasing_by all_goals (simp_wf <;> omega)
end

/-- `analyzeValidatorStruct` from internal/analysis/analysis.go
(lines 214-249): analyze all fields (there must be at least one),
type-check all rules, and require a context-option field whenever some rule
carried a context clause; on success the ValidatorStruct is assembled.  The
hook names model the `lookupBeforeValidate` / `lookupAfterValidate` results
of helpers.go. -/
def analyzeValidatorStruct (env : AnEnv) (typeName : String)
    (beforeV afterV : Option String) (rootFields : List MField) :
    Except ErrCode ValidatorStruct := do
  let (fields, st) ← analyzeStructFieldsM env {} rootFields [] true
  if fields.isEmpty then throw .errEmptyValidator
  else do
    let st' ← typeCheckRulesM env st fields
    if st'.needsContext ∧ st'.contextOption.isNone then
      throw .errContextOptionFieldRequired
    else
      .ok { typeName := typeName, fields := fields,
            errorHandler := st'.errorHandler,
            contextOption := st'.contextOption,
            beforeValidate := beforeV, afterValidate := afterV }

/-- The binary operators of the GO ast package used by the generator
(`invalid` stands for the zero value a missed map lookup would produce). -/
inductive BinaryOp where
  | invalid | land | lor | eql | neq | leq | geq | lss | gtr
  deriving DecidableEq, Repr

/-- The GO expression nodes the generator produces (one constructor per
GO ast node type used by internal/generator/generator.go). -/
inductive ExprNode where
  | ident (name : String)
  | qualifiedIdent (pkg name : String)
  | selector (x : ExprNode) (sel : String)
  | binary (op : BinaryOp) (x y : ExprNode)
  | unaryNot (x : ExprNode)
  | paren (x : ExprNode)
  | star (x : ExprNode)
  | call (fn : ExprNode) (args : List ExprNode)
  | callLen (x : ExprNode)
  | intLit (n : Int)
  | valueLit (s : String)
  | stringLit (s : String)
  | rawStringLit (s : String)

/-- `GO.Ident{"nil"}`. -/
def NIL : ExprNode := .ident "nil"

/-- The GO statement nodes the generator produces.  `ifStmt` carries the
optional Init statement, the condition (nil for a zero `GO.IfStmt`), the
body block and the optional else branch. -/
inductive StmtNode where
  | ret (result : Option ExprNode)
  | exprStmt (x : ExprNode)
  | ifStmt (ini : Option StmtNode) (cond : Option ExprNode)
      (body : List StmtNode) (els : Option StmtNode)
  | block (l : List StmtNode)
  | assignDefine (lhs rhs : ExprNode)
  | stmtList (l : List StmtNode)
  | forRange (keyVar valVar : String) (x : ExprNode) (body : List StmtNode)

/-- A `GO.IfStmt` value under construction. -/
structure GoIfStmt where
  ini : Option StmtNode := none
  cond : Option ExprNode := none
  body : List StmtNode := []
  els : Option StmtNode := none

def GoIfStmt.toStmt (i : GoIfStmt) : StmtNode :=
  .ifStmt i.ini i.cond i.body i.els

/-- `TagNode` of the generator generation (declared in the analysis file of
part_000): a binary tree of rules with key/elem children. -/
inductive TagNode where
  | mk (rules : List Rule) (key elem : Option TagNode)

def TagNode.rules : TagNode → List Rule
  | .mk r _ _ => r

def TagNode.keyNode : TagNode → Option TagNode
  | .mk _ k _ => k

def TagNode.elemNode : TagNode → Option TagNode
  | .mk _ _ e => e

/-- `TagNode.ContainsRules` of part_000 (nil receivers answer false). -/
def containsRulesTN : Option TagNode → Bool
  | none => false
  | some (.mk rules k e) =>
    !rules.isEmpty || containsRulesTN k || containsRulesTN e

/-- The field view consumed by the generator (the generator generation's
`analysis.StructField` carries the parsed rule TagNode). -/
structure GenField where
  name : String := ""
  fkey : String := ""
  typ : GoType := mkT .invalid
  ruleTag : Option TagNode := none

/-- `impspec` from internal/generator/generator.go. -/
structure Impspec where
  path : String := ""
  name : String := ""
  isLocalName : Bool := false
  num : Nat := 0
  deriving DecidableEq, Repr

/-- The file state mutated by the generator: the import set, the
errors/fmt import flags and the init-function statement list. -/
structure FileState where
  impset : List Impspec := []
  importErrors : Bool := false
  importFmt : Bool := false
  init : List StmtNode := []

/-- Bumps the `num` of the last impspec with the given name (the retained
namesake of `addimport`). -/
def bumpLastNamesake (nm : String) : List Impspec → List Impspec
  | [] => []
  | imp :: rest =>
    if rest.any fun i => i.name = nm then imp :: bumpLastNamesake nm rest
    else if imp.name = nm then { imp with num := imp.num + 1 } :: rest
    else imp :: rest

/-- The name of an import path: the part after the last '/'
(`strings.LastIndexByte(name, '/')` of the source). -/
def pathBase (path : String) : String :=
  String.mk ((path.data.reverse.takeWhile fun c => c ≠ '/').reverse)

/-- `addimport` from internal/generator/generator.go (lines 1026-1054):
dedup by path; a namesake import bumps its counter and the new import gets
a numbered local name. -/
def addimport (f : FileState) (path : String) : Impspec × FileState :=
  let nm := pathBase path
  match f.impset.find? fun imp => imp.path = path with
  | some imp => (imp, f)
  | none =>
    match (f.impset.reverse).find? fun imp => imp.name = nm with
    | some namesake =>
      let imp : Impspec :=
        { path := path, name := nm ++ toString (namesake.num + 1), isLocalName := true }
      (imp, { f with impset := bumpLastNamesake nm f.impset ++ [imp] })
    | none =>
      let imp : Impspec := { path := path, name := nm }
      (imp, { f with impset := f.impset ++ [imp] })

/-- `basicRuleToBinaryOp` from internal/generator/generator.go
(a missing entry yields the zero operator). -/
def basicRuleToBinaryOp (n : String) : BinaryOp :=
  if n = "eq" then .neq
  else if n = "ne" then .eql
  else if n = "gt" then .leq
  else if n = "lt" then .geq
  else if n = "gte" then .lss
  else if n = "lte" then .gtr
  else if n = "min" then .lss
  else if n = "max" then .gtr
  else .invalid

/-- `basicRuleToLogicalOp` from internal/generator/generator.go. -/
def basicRuleToLogicalOp (n : String) : BinaryOp :=
  if n = "eq" then .land
  else if n = "ne" then .lor
  else .invalid

/-- `errorConfig` from internal/generator/generator.go (the suffix field is
named sfx here). -/
structure ErrorConfig where
  text : String := ""
  sfx : String := ""
  argSep : String := ""
  omitArgs : Bool := false
  deriving DecidableEq, Repr

/-- `errorConfigMap` from internal/generator/generator.go (lines 1090-1131),
keyed by rule name and alternative form. -/
def errorConfigMap : List (String × List (Nat × ErrorConfig)) :=
  [("required", [(0, { text := "is required" })]),
   ("notnil", [(0, { text := "cannot be nil" })]),
   ("email", [(0, { text := "must be a valid email" })]),
   ("url", [(0, { text := "must be a valid URL" })]),
   ("uri", [(0, { text := "must be a valid URI" })]),
   ("pan", [(0, { text := "must be a valid PAN" })]),
   ("cvv", [(0, { text := "must be a valid CVV" })]),
   ("ssn", [(0, { text := "must be a valid SSN" })]),
   ("ein", [(0, { text := "must be a valid EIN" })]),
   ("numeric", [(0, { text := "must contain only digits [0-9]" })]),
   ("hex", [(0, { text := "must be a valid hexadecimal string" })]),
   ("hexcolor", [(0, { text := "must be a valid hex color code" })]),
   ("alphanum", [(0, { text := "must be an alphanumeric string" })]),
   ("cidr", [(0, { text := "must be a valid CIDR" })]),
   ("phone", [(0, { text := "must be a valid phone number", omitArgs := true })]),
   ("zip", [(0, { text := "must be a valid zip code", omitArgs := true })]),
   ("uuid", [(0, { text := "must be a valid UUID", omitArgs := true })]),
   ("ip", [(0, { text := "must be a valid IP", omitArgs := true })]),
   ("mac", [(0, { text := "must be a valid MAC", omitArgs := true })]),
   ("iso", [(0, { text := "must be a valid ISO" })]),
   ("rfc", [(0, { text := "must be a valid RFC" })]),
   ("re", [(0, { text := "must match the regular expression" })]),
   ("prefix", [(0, { text := "must be prefixed with", argSep := " or " })]),
   ("suffix", [(0, { text := "must be suffixed with", argSep := " or " })]),
   ("contains", [(0, { text := "must contain substring", argSep := " or " })]),
   ("eq", [(0, { text := "must be equal to", argSep := " or " })]),
   ("ne", [(0, { text := "must not be equal to", argSep := " or " })]),
   ("gt", [(0, { text := "must be greater than" })]),
   ("lt", [(0, { text := "must be less than" })]),
   ("gte", [(0, { text := "must be greater than or equal to" })]),
   ("lte", [(0, { text := "must be less than or equal to" })]),
   ("min", [(0, { text := "must be greater than or equal to" })]),
   ("max", [(0, { text := "must be less than or equal to" })]),
   ("rng", [(0, { text := "must be between", argSep := " and " })]),
   ("len",
    [(0, { text := "must be of length" }),
     (1, { text := "must be of length at least" }),
     (2, { text := "must be of length at most" }),
     (3, { text := "must be of length between", argSep := " and ", sfx := "(inclusive)" })])]

/-- The double lookup `errorConfigMap[name][altform]` (Go map semantics:
a missing entry is the zero errorConfig). -/
def errorConfigLookup (name : String) (altform : Nat) : ErrorConfig :=
  match mapLookup errorConfigMap name with
  | none => {}
  | some inner => (((inner.find? fun p => p.1 = altform).map fun p => p.2)).getD {}

/-- `strconv.Quote` restricted to the escapes arising in this code base
(backslash and double quote; all other characters in the generated error
texts are printable ASCII and pass through unchanged). -/
def goQuote (s : String) : String :=
  "\"" ++ String.mk (s.data.flatMap fun c =>
    if c = '"' then ['\\', '"']
    else if c = '\\' then ['\\', '\\']
    else [c]) ++ "\""

/-- The string form of a type kind (`typeKinds` table of types.go). -/
def typeKindString : TypeKind → String
  | .invalid => "<invalid>"
  | .bool => "bool"
  | .int => "int"
  | .int8 => "int8"
  | .int16 => "int16"
  | .int32 => "int32"
  | .int64 => "int64"
  | .uint => "uint"
  | .uint8 => "uint8"
  | .uint16 => "uint16"
  | .uint32 => "uint32"
  | .uint64 => "uint64"
  | .uintptr => "uintptr"
  | .float32 => "float32"
  | .float64 => "float64"
  | .complex64 => "complex64"
  | .complex128 => "complex128"
  | .string => "string"
  | .unsafePointer => "<unknown>"
  | .array => "array"
  | .interface => "interface"
  | .map => "map"
  | .ptr => "ptr"
  | .slice => "slice"
  | .struct => "struct"
  | .chan => "chan"
  | .func => "func"

/-- `Type.String` from internal/analysis/types.go (lines 187-228); a nil
element or key type renders as the unknown marker. -/
def typeString : GoType → String
  | .mk n _ pn ii _ _ k al _ ib ir keyT elemT tfields =>
    if n ≠ "" then (if ii then pn ++ "." ++ n else n)
    else if ib then "byte"
    else if ir then "rune"
    else if k.isBasic then typeKindString k
    else
      match k with
      | .array =>
        "[" ++ toString al ++ "]" ++
          (match elemT with
            | some e => typeString e
            | none => "<unknown>")
      | .interface =>
        -- the non-empty form renders as interface with a body marker
        if (GoType.mk n "" pn ii false false k al false ib ir keyT elemT tfields).isEmptyInterface
        then "interface\x7b\x7d" else "interface\x7b ... \x7d"
      | .map =>
        "map[" ++
          (match keyT with
            | some kt => typeString kt
            | none => "<unknown>") ++ "]" ++
          (match elemT with
            | some e => typeString e
            | none => "<unknown>")
      | .ptr =>
        "*" ++
          (match elemT with
            | some e => typeString e
            | none => "<unknown>")
      | .slice =>
        "[]" ++
          (match elemT with
            | some e => typeString e
            | none => "<unknown>")
      | .struct =>
        if tfields.isEmpty then "struct\x7b\x7d" else "struct\x7b ... \x7d"
      | .chan => "<chan>"
      | .func => "<func>"
      | _ => "<unknown>"

/-- The generator's environment: the per-target slices of `analysis.Info`
and `ValidatorStruct` that the statement builders read (the receiver ident
is fixed to "v" by `buildValidateMethod`). -/
structure GenEnv where
  ruleTypeMap : List (String × RuleSpec) := []
  selectorMap : List (String × (List String × GoType)) := []
  enumMap : List (String × List MConst) := []
  pkgPath : String := ""
  contextOption : Option String := none
  errorHandler : Option (String × Bool) := none

/-- The scalar fields of the generator's `varcode` struct (the key, elem
and fields children live in `Varcode`).  `fieldKey` and `fieldType` are the
Key and Type of `code.field`. -/
structure VarcodeCore where
  vtype : GoType
  vexpr : ExprNode
  fieldKey : String := ""
  fieldType : GoType := mkT .invalid
  rules : List Rule := []
  required : Option Rule := none
  notnil : Option Rule := none
  ruleifs : List GoIfStmt := []
  rqif : Option GoIfStmt := none
  nnif : Option GoIfStmt := none
  ng : Option ExprNode := none
  sb : List StmtNode := []

/-- `varcode` from internal/generator/generator.go with its key/elem/fields
children. -/
inductive Varcode where
  | mk (core : VarcodeCore) (key elem : Option Varcode) (fields : List Varcode)

def Varcode.core : Varcode → VarcodeCore
  | .mk c _ _ _ => c

def Varcode.keyVc : Varcode → Option Varcode
  | .mk _ k _ _ => k

def Varcode.elemVc : Varcode → Option Varcode
  | .mk _ _ e _ => e

def Varcode.fieldsVc : Varcode → List Varcode
  | .mk _ _ _ f => f

/-- The rule-splitting loop at the top of `buildVarCode` (generator.go
lines 219-227): `required` and `notnil` go to their dedicated slots, the
rest keep their order. -/
def splitRequiredNotnil (c : VarcodeCore) : List Rule → VarcodeCore
  | [] => c
  | r :: rs =>
    if r.name = "required" then splitRequiredNotnil { c with required := some r } rs
    else if r.name = "notnil" then splitRequiredNotnil { c with notnil := some r } rs
    else splitRequiredNotnil { c with rules := c.rules ++ [r] } rs

/-- The multi-pointer loop of `buildVarCodeNilGuard` (generator.go
lines 288-295): extend the guard one dereference at a time while the
variable type stays a pointer. -/
def nilGuardLoop (lop eop : BinaryOp) (cond vexpr : ExprNode) :
    GoType → ExprNode × ExprNode × GoType
  | .mk n pp pn ii ie iv k al iei ib ir keyT (some e) tfs =>
    if k = .ptr then
      nilGuardLoop lop eop (.binary lop cond (.binary eop vexpr NIL)) (.star vexpr) e
    else (cond, vexpr, .mk n pp pn ii ie iv k al iei ib ir keyT (some e) tfs)
  | t => (cond, vexpr, t)

/-- `buildVarCodeNilGuard` from internal/generator/generator.go
(lines 272-298): nothing to do for non-pointers; otherwise the guard is the
chain of nil comparisons over the whole pointer chain, disjunctive with
equality when `required`/`notnil` is present and conjunctive with
inequality otherwise, and the variable expression/type are moved to the
base of the chain.  (A pointer kind without an element type cannot be
produced by the analysis; it is left untouched.) -/
def buildVarCodeNilGuard (code : VarcodeCore) : VarcodeCore :=
  if code.vtype.kind ≠ .ptr then code
  else
    match code.vtype.elem with
    | none => code
    | some e =>
      let lop := if code.required.isSome || code.notnil.isSome then BinaryOp.lor else BinaryOp.land
      let eop := if code.required.isSome || code.notnil.isSome then BinaryOp.eql else BinaryOp.neq
      let cond0 := ExprNode.binary eop code.vexpr NIL
      let (cond, vexpr', vtype') := nilGuardLoop lop eop cond0 (.star code.vexpr) e
      { code with vexpr := vexpr', vtype := vtype', ng := some cond }

/-- Termination support: the nil-guard loop only strips structure off the
variable type. -/
theorem nilGuardLoop_size (lop eop : BinaryOp) (cond vexpr : ExprNode)
    (t : GoType) : sizeOf (nilGuardLoop lop eop cond vexpr t).2.2 ≤ sizeOf t := by
  induction cond, vexpr, t using nilGuardLoop.induct lop eop with
  | case1 cond vexpr n pp pn ii ie iv al iei ib ir key e fs ih =>
    simp only [nilGuardLoop, reduceIte]
    refine le_trans ih ?_
    simp
    omega
  | case2 cond vexpr n pp pn ii ie iv k al iei ib ir key e fs hk =>
    simp [nilGuardLoop, hk]
  | case3 cond vexpr t h =>
    cases t with
    | mk n pp pn ii ie iv k al iei ib ir key elemT fs =>
      cases elemT with
      | some e => exact absurd rfl (h n pp pn ii ie iv k al iei ib ir key e fs)
      | none => simp [nilGuardLoop]

/-- Termination support: `splitRequiredNotnil` does not change the
variable type. -/
theorem splitRequiredNotnil_vtype (c : VarcodeCore) (rules : List Rule) :
    (splitRequiredNotnil c rules).vtype = c.vtype := by
  induction rules generalizing c with
  | nil => rfl
  | cons r rs ih =>
    simp only [splitRequiredNotnil]
    split
    · rw [ih]
    · split
      · rw [ih]
      · rw [ih]

/-- Termination support: the nil guard only strips structure off the
variable type. -/
theorem buildVarCodeNilGuard_vtype_size (c : VarcodeCore) :
    sizeOf (buildVarCodeNilGuard c).vtype ≤ sizeOf c.vtype := by
  simp only [buildVarCodeNilGuard]
  split
  · exact Nat.le_refl _
  · split
    · exact Nat.le_refl _
    · rename_i e heq
      have h2 : sizeOf e < sizeOf c.vtype := by
        cases hv : c.vtype with
        | mk n pp pn ii ie iv k al iei ib ir keyT elemT tfs =>
          rw [hv] at heq
          simp [GoType.elem] at heq
          subst heq
          simp
          omega
      exact le_trans (nilGuardLoop_size _ _ _ _ e) (Nat.le_of_lt h2)

/-- `newRequiredExpr` from internal/generator/generator.go (lines 527-543). -/
def newRequiredExpr (code : VarcodeCore) : Option ExprNode :=
  match code.vtype.kind with
  | .string | .map | .slice =>
    some (.binary .eql (.callLen code.vexpr) (.intLit 0))
  | .int | .int8 | .int16 | .int32 | .int64
  | .uint | .uint8 | .uint16 | .uint32 | .uint64 =>
    some (.binary .eql code.vexpr (.intLit 0))
  | .float32 | .float64 => some (.binary .eql code.vexpr (.valueLit "0.0"))
  | .bool => some (.binary .eql code.vexpr (.valueLit "false"))
  | .ptr | .interface => some (.binary .eql code.vexpr NIL)
  | _ => none

/-- `newNotnilExpr` from internal/generator/generator.go (lines 546-552). -/
def newNotnilExpr (code : VarcodeCore) : Option ExprNode :=
  match code.vtype.kind with
  | .ptr | .slice | .map | .interface =>
    some (.binary .eql code.vexpr NIL)
  | _ => none

/-- The selector-chain expression `v.<f1>.<f2>...` built from a stored
selector's field names. -/
def fieldSelectorExpr (names : List String) : ExprNode :=
  names.foldl (fun x n => .selector x n) (.ident "v")

/-- `newArgFieldSelectorExpr` from internal/generator/generator.go
(lines 753-770): the selector chain of the referenced field, wrapped in an
explicit conversion when the declared type differs. -/
def newArgFieldSelectorExpr (env : GenEnv) (a : RuleArg) (t : GoType) : ExprNode :=
  let (names, lastType) := (mapLookup env.selectorMap a.value).getD ([], mkT .invalid)
  let x := fieldSelectorExpr names
  if GoType.needsConversion t lastType then
    .call (.ident (typeString lastType)) [x]
  else x

/-- `newArgConstExpr` from internal/generator/generator.go (lines 773-850).
In the unknown-arg case for a kind with no zero-value form the source
returns a nil expression node; the embedding renders an empty value
literal. -/
def newArgConstExpr (env : GenEnv) (r : Rule) (a : RuleArg) (t : GoType) : ExprNode :=
  let userawstring :=
    match mapLookup env.ruleTypeMap r.name with
    | some (.funcSpec f) => f.useRawString
    | _ => false
  if t.isEmptyInterface then
    if a.type = .string then
      if userawstring then .rawStringLit a.value else .valueLit (goQuote a.value)
    else .valueLit a.value
  else if t.kind = .string then
    if userawstring then .rawStringLit a.value else .valueLit (goQuote a.value)
  else
    match a.type with
    | .unknown =>
      match t.kind with
      | .string => .stringLit ""
      | .int | .int8 | .int16 | .int32 | .int64 => .intLit 0
      | .uint | .uint8 | .uint16 | .uint32 | .uint64 => .intLit 0
      | .float32 | .float64 => .valueLit "0.0"
      | .bool => .valueLit "false"
      | .ptr | .interface | .map | .slice => NIL
      | _ => .valueLit ""
    | .bool => .valueLit a.value
    | .int => .valueLit a.value
    | .float => .valueLit a.value
    | .string =>
      if userawstring then .rawStringLit a.value else .valueLit (goQuote a.value)
    | .field => fieldSelectorExpr ((mapLookup env.selectorMap a.value).getD ([], mkT .invalid)).1

/-- `newArgValueExpr` from internal/generator/generator.go (lines 745-750). -/
def newArgValueExpr (env : GenEnv) (r : Rule) (a : RuleArg) (t : GoType) : ExprNode :=
  if a.type = .field then newArgFieldSelectorExpr env a t
  else newArgConstExpr env r a t

/-- `newErrorExpr` from internal/generator/generator.go (lines 893-974):
the default error expression.  IsValid, enum and custom-function rules get
the fixed "is not valid" text; otherwise the message is the field key, the
rule's configured phrase, its rendered arguments (field references render
as %v and move into fmt.Errorf arguments, strings are quoted, unknown
arguments become 0 for numeric fields and empty values are dropped) and the
configured suffix. -/
def ruleSpecShortCircuit : Option RuleSpec → Bool
  | some .isValidSpec | some .enumSpec => true
  | some (.funcSpec f) => f.iscustom
  | _ => false

/-- The alternate error-text form selection for the two-argument `len`
rule (lines 902-911 of generator.go). -/
def altformOf (r : Rule) : Nat :=
  if r.name = "len" ∧ r.args.length = 2 then
    match r.args with
    | a1 :: a2 :: _ =>
      if a1.value ≠ "" ∧ a2.value = "" then 1
      else if a1.value = "" ∧ a2.value ≠ "" then 2
      else 3
    | _ => 0
  else 0

/-- The argument rendering of the default error text (lines 916-943 of
generator.go): field references render as %v and move into the reference
list, strings are quoted, unknown arguments become 0 for numeric fields,
and empty values are dropped. -/
def errorTextArgs (env : GenEnv) (typ : GoType) (conf : ErrorConfig)
    (r : Rule) : List String × List ExprNode :=
  if conf.omitArgs then ([], [])
  else
    r.args.foldl
      (fun (acc : List String × List ExprNode) a0 =>
        let a :=
          if a0.type = .unknown ∧ typ.kind.isNumeric then
            ({ type := .int, value := "0" } : RuleArg)
          else a0
        if a.value = "" then acc
        else if a.type = .field then
          (acc.1 ++ ["%v"],
            acc.2 ++ [fieldSelectorExpr ((mapLookup env.selectorMap a.value).getD ([], mkT .invalid)).1])
        else if a.type = .string then (acc.1 ++ [goQuote a.value], acc.2)
        else (acc.1 ++ [a.value], acc.2))
      ([], [])

def newErrorExpr (env : GenEnv) (file : FileState) (code : VarcodeCore)
    (r : Rule) : ExprNode × FileState :=
  if ruleSpecShortCircuit (mapLookup env.ruleTypeMap r.name) then
    (.call (.qualifiedIdent "errors" "New")
        [.valueLit (goQuote (code.fieldKey ++ " is not valid"))],
      { file with importErrors := true })
  else
    let conf := errorConfigLookup r.name (altformOf r)
    let (args, refs) := errorTextArgs env code.fieldType.ptrBase conf r
    let text0 := code.fieldKey ++ " " ++ conf.text
    let text1 := if args.isEmpty then text0
      else text0 ++ ": " ++ String.intercalate conf.argSep args
    let text := if conf.sfx ≠ "" then text1 ++ " " ++ conf.sfx else text1
    if !refs.isEmpty then
      (.call (.qualifiedIdent "fmt" "Errorf") (ExprNode.valueLit (goQuote text) :: refs),
        { file with importFmt := true })
    else
      (.call (.qualifiedIdent "errors" "New") [ExprNode.valueLit (goQuote text)],
        { file with importErrors := true })

/-- `newErrorReturnStmt` from internal/generator/generator.go
(lines 853-890): with a custom handler the error call (a statement in
aggregator mode, a returned value in constructor mode), otherwise a return
of the default error expression. -/
def newErrorReturnStmt (env : GenEnv) (file : FileState) (code : VarcodeCore)
    (r : Rule) : StmtNode × FileState :=
  match env.errorHandler with
  | some (ehName, isAgg) =>
    let argsTail := r.args.map fun a =>
      match a.type with
      | .field => fieldSelectorExpr ((mapLookup env.selectorMap a.value).getD ([], mkT .invalid)).1
      | .string => ExprNode.stringLit a.value
      | .unknown => ExprNode.stringLit ""
      | _ => ExprNode.valueLit a.value
    let args := [ExprNode.stringLit code.fieldKey, code.vexpr,
      ExprNode.stringLit r.name] ++ argsTail
    let eh := ExprNode.selector (.qualifiedIdent "v" ehName) "Error"
    let callE := ExprNode.call eh args
    if isAgg then (.exprStmt callE, file) else (.ret (some callE), file)
  | none =>
    let (e, file1) := newErrorExpr env file code r
    (.ret (some e), file1)

/-- `newRuleTypeIsValidIfStmt` from internal/generator/generator.go
(lines 582-591). -/
def newRuleTypeIsValidIfStmt (env : GenEnv) (file : FileState)
    (code : VarcodeCore) (r : Rule) : GoIfStmt × FileState :=
  let x := if code.fieldType.kind = .ptr then ExprNode.paren code.vexpr else code.vexpr
  let cond := ExprNode.unaryNot (.call (.selector x "IsValid") [])
  let (retS, file1) := newErrorReturnStmt env file code r
  ({ cond := some cond, body := [retS] }, file1)

/-- `newRuleTypeEnumIfStmt` from internal/generator/generator.go
(lines 594-616): the conjunction of inequalities against every collected
constant (imported constants add an import and qualify). -/
def newRuleTypeEnumIfStmt (env : GenEnv) (file : FileState)
    (code : VarcodeCore) (r : Rule) : GoIfStmt × FileState :=
  let typ := code.fieldType.ptrBase
  let ident := typ.pkgPath ++ "." ++ typ.name
  let enums := (mapLookup env.enumMap ident).getD []
  let (cond, file1) :=
    enums.foldl
      (fun (acc : Option ExprNode × FileState) e =>
        let (idE, f') :=
          if env.pkgPath ≠ e.pkgPath then
            let (imp, f'') := addimport acc.2 e.pkgPath
            (ExprNode.qualifiedIdent imp.name e.name, f'')
          else (ExprNode.ident e.name, acc.2)
        let c := ExprNode.binary .neq code.vexpr idE
        match acc.1 with
        | some c0 => (some (.binary .land c0 c), f')
        | none => (some c, f'))
      (none, file)
  let (retS, file2) := newErrorReturnStmt env file1 code r
  ({ cond := cond, body := [retS] }, file2)

/-- `newRuleTypeBasicIfStmt` from internal/generator/generator.go
(lines 619-639): one comparison per argument against the dereferenced
field type, joined with the rule's logical operator. -/
def newRuleTypeBasicIfStmt (env : GenEnv) (file : FileState)
    (code : VarcodeCore) (r : Rule) : GoIfStmt × FileState :=
  let typ := code.fieldType.ptrBase
  let binop := basicRuleToBinaryOp r.name
  let logop := basicRuleToLogicalOp r.name
  let cond :=
    r.args.foldl
      (fun (acc : Option ExprNode) a =>
        let c := ExprNode.binary binop code.vexpr (newArgValueExpr env r a typ)
        match acc with
        | some c0 => some (.binary logop c0 c)
        | none => some c)
      none
  let (retS, file1) := newErrorReturnStmt env file code r
  ({ cond := cond, body := [retS] }, file1)

/-- `newRuleTypeBasicLenIfStmt` from internal/generator/generator.go
(lines 642-666): the exact, min-only, max-only and two-bound forms of the
length check (the argument type is the int of len()).  The source assumes
one or two arguments; with none it would panic, here the statement stays
empty. -/
def newRuleTypeBasicLenIfStmt (env : GenEnv) (file : FileState)
    (code : VarcodeCore) (r : Rule) : GoIfStmt × FileState :=
  let typ := mkT .int
  match r.args with
  | [a] =>
    let cond := ExprNode.binary .neq (.callLen code.vexpr) (newArgValueExpr env r a typ)
    let (retS, file1) := newErrorReturnStmt env file code r
    ({ cond := some cond, body := [retS] }, file1)
  | a1 :: a2 :: _ =>
    if a1.value ≠ "" ∧ a2.value = "" then
      let cond := ExprNode.binary .lss (.callLen code.vexpr) (newArgValueExpr env r a1 typ)
      let (retS, file1) := newErrorReturnStmt env file code r
      ({ cond := some cond, body := [retS] }, file1)
    else if a1.value = "" ∧ a2.value ≠ "" then
      let cond := ExprNode.binary .gtr (.callLen code.vexpr) (newArgValueExpr env r a2 typ)
      let (retS, file1) := newErrorReturnStmt env file code r
      ({ cond := some cond, body := [retS] }, file1)
    else
      let cond := ExprNode.paren (.binary .lor
        (.binary .lss (.callLen code.vexpr) (newArgValueExpr env r a1 typ))
        (.binary .gtr (.callLen code.vexpr) (newArgValueExpr env r a2 typ)))
      let (retS, file1) := newErrorReturnStmt env file code r
      ({ cond := some cond, body := [retS] }, file1)
  | [] => ({}, file)

/-- `newRuleTypeBasicRngIfStmt` from internal/generator/generator.go
(lines 669-678).  The source assumes two arguments; with fewer it would
panic, here the statement stays empty. -/
def newRuleTypeBasicRngIfStmt (env : GenEnv) (file : FileState)
    (code : VarcodeCore) (r : Rule) : GoIfStmt × FileState :=
  match r.args with
  | a1 :: a2 :: _ =>
    let t := code.fieldType.ptrBase
    let cond := ExprNode.paren (.binary .lor
      (.binary .lss code.vexpr (newArgValueExpr env r a1 t))
      (.binary .gtr code.vexpr (newArgValueExpr env r a2 t)))
    let (retS, file1) := newErrorReturnStmt env file code r
    ({ cond := some cond, body := [retS] }, file1)
  | _ => ({}, file)

/-- `RuleFunc.TypesForArgs` from internal/analysis/types.go
(lines 335-358), adjusting the declared argument types to the number of
rule arguments (the variadic element type fills the tail). -/
def typesForArgs (f : RuleFuncSpec) (args : List RuleArg) : List GoType :=
  let types0 := f.argTypes.drop 1
  if f.isVariadic then
    let last := (((f.argTypes.getLast?).getD (mkT .invalid)).elem).getD (mkT .invalid)
    let types1 := if types0.length > 0 then types0.dropLast ++ [last] else [last]
    types1 ++ List.replicate (args.length - types1.length) last
  else
    let last := (f.argTypes.getLast?).getD (mkT .invalid)
    types0 ++ List.replicate (args.length - types0.length) last

/-- `newRuleTypeFuncIfStmt` from internal/generator/generator.go
(lines 681-706): the negated predicate call; every argument of an `re`
rule additionally appends a RegisterRegexp call with the pattern as a raw
string literal to the file's init list. -/
def newRuleTypeFuncIfStmt (env : GenEnv) (file : FileState)
    (code : VarcodeCore) (r : Rule) (rt : RuleFuncSpec) : GoIfStmt × FileState :=
  let (imp, file1) := addimport file rt.pkgPath
  let (retS, file2) := newErrorReturnStmt env file1 code r
  let fn := ExprNode.qualifiedIdent imp.name rt.funcName
  let argtypes := typesForArgs rt r.args
  let (argsRev, file3) :=
    (r.args.zip argtypes).foldl
      (fun (acc : List ExprNode × FileState) p =>
        let x := newArgValueExpr env r p.1 p.2
        let f' :=
          if r.name = "re" then
            { acc.2 with init := acc.2.init ++
                [.exprStmt (.call (.qualifiedIdent imp.name "RegisterRegexp")
                  [.rawStringLit p.1.value])] }
          else acc.2
        (acc.1 ++ [x], f'))
      ([], file2)
  let cond := ExprNode.unaryNot (.call fn (code.vexpr :: argsRev))
  ({ cond := some cond, body := [retS] }, file3)

/-- `newRuleTypeFuncChainIfStmt` from internal/generator/generator.go
(lines 710-742): one predicate call per argument, joined per the
connective (NOT: or-joined calls; AND: or-joined negations; OR: and-joined
negations). -/
def newRuleTypeFuncChainIfStmt (env : GenEnv) (file : FileState)
    (code : VarcodeCore) (r : Rule) (rt : RuleFuncSpec) : GoIfStmt × FileState :=
  let (imp, file1) := addimport file rt.pkgPath
  let (retS, file2) := newErrorReturnStmt env file1 code r
  let argtypes := typesForArgs rt r.args
  let cond :=
    (r.args.zip argtypes).foldl
      (fun (acc : Option ExprNode) p =>
        let callE := ExprNode.call (.qualifiedIdent imp.name rt.funcName)
          [code.vexpr, newArgValueExpr env r p.1 p.2]
        match rt.boolConn with
        | .bcNot =>
          match acc with
          | some c0 => some (.binary .lor c0 callE)
          | none => some callE
        | .bcAnd =>
          match acc with
          | some c0 => some (.binary .lor c0 (.unaryNot callE))
          | none => some (.unaryNot callE)
        | .bcOr =>
          match acc with
          | some c0 => some (.binary .land c0 (.unaryNot callE))
          | none => some (.unaryNot callE)
        | .bcNone => acc)
      none
  ({ cond := cond, body := [retS] }, file2)

/-- `newRuleIfStmt` from internal/generator/generator.go (lines 555-579):
dispatch on the rule's registered type (`len` and `rng` have special basic
forms; a function spec with a connective chains).  An unregistered rule
would panic in the source and yields an empty statement here. -/
def newRuleIfStmt (env : GenEnv) (file : FileState) (code : VarcodeCore)
    (r : Rule) : GoIfStmt × FileState :=
  match mapLookup env.ruleTypeMap r.name with
  | some .isValidSpec => newRuleTypeIsValidIfStmt env file code r
  | some .enumSpec => newRuleTypeEnumIfStmt env file code r
  | some (.basicSpec _) =>
    if r.name = "len" then newRuleTypeBasicLenIfStmt env file code r
    else if r.name = "rng" then newRuleTypeBasicRngIfStmt env file code r
    else newRuleTypeBasicIfStmt env file code r
  | some (.funcSpec rx) =>
    if rx.boolConn.gtNone then newRuleTypeFuncChainIfStmt env file code r rx
    else newRuleTypeFuncIfStmt env file code r rx
  | none => ({}, file)

/-- `buildVarCodeRequired` from internal/generator/generator.go
(lines 301-321): the zero-value check or-joined onto the nil guard (the
guard alone if there is no zero-value form), conjoined with the context
comparison when the rule has a context clause. -/
def buildVarCodeRequired (env : GenEnv) (file : FileState)
    (code : VarcodeCore) : VarcodeCore × FileState :=
  match code.required with
  | none => (code, file)
  | some req =>
    let cond0 : Option ExprNode :=
      match newRequiredExpr code, code.ng with
      | some c, some g => some (.binary .lor g c)
      | none, some g => some g
      | some c, none => some c
      | none, none => none
    let cond :=
      if req.context ≠ "" then
        let opt := ExprNode.selector (.ident "v") (env.contextOption.getD "")
        some (.binary .land (cond0.getD NIL) (.binary .eql opt (.stringLit req.context)))
      else cond0
    let (retS, file1) := newErrorReturnStmt env file code req
    ({ code with rqif := some { cond := cond, body := [retS] } }, file1)

/-- `buildVarCodeNotnil` from internal/generator/generator.go
(lines 324-344), the notnil analogue of `buildVarCodeRequired`. -/
def buildVarCodeNotnil (env : GenEnv) (file : FileState)
    (code : VarcodeCore) : VarcodeCore × FileState :=
  match code.notnil with
  | none => (code, file)
  | some nn =>
    let cond0 : Option ExprNode :=
      match newNotnilExpr code, code.ng with
      | some c, some g => some (.binary .lor g c)
      | none, some g => some g
      | some c, none => some c
      | none, none => none
    let cond :=
      if nn.context ≠ "" then
        let opt := ExprNode.selector (.ident "v") (env.contextOption.getD "")
        some (.binary .land (cond0.getD NIL) (.binary .eql opt (.stringLit nn.context)))
      else cond0
    let (retS, file1) := newErrorReturnStmt env file code nn
    ({ code with nnif := some { cond := cond, body := [retS] } }, file1)

/-- `buildVarCodeSubBlock` from internal/generator/generator.go
(lines 347-373): with a nil guard and either subfields or at least two
plain rules (and no required/notnil short-circuit), bind the variable to
`f` in a sub block. -/
def buildVarCodeSubBlock (code : VarcodeCore) : VarcodeCore :=
  if code.ng.isNone then code
  else if code.vtype.fields.isEmpty ∧ (code.nnif.isSome ∨ code.rqif.isSome) then code
  else if code.vtype.fields.isEmpty ∧ code.rules.length < 2 then code
  else
    let v := ExprNode.ident "f"
    { code with vexpr := v, sb := code.sb ++ [.assignDefine v code.vexpr] }

/-- `buildVarCodeRules` from internal/generator/generator.go
(lines 376-387): build one if-statement per plain rule, conjoining the
context comparison (in parentheses) when the rule has a context clause. -/
def buildVarCodeRules (env : GenEnv) (file : FileState)
    (code : VarcodeCore) : VarcodeCore × FileState :=
  code.rules.foldl
    (fun (acc : VarcodeCore × FileState) r =>
      let (ifs, f1) := newRuleIfStmt env acc.2 acc.1 r
      let ifs1 :=
        if r.context ≠ "" then
          let opt := ExprNode.selector (.ident "v") (env.contextOption.getD "")
          { ifs with cond := some (.paren (.binary .land (ifs.cond.getD NIL)
              (.binary .eql opt (.stringLit r.context)))) }
        else ifs
      ({ acc.1 with ruleifs := acc.1.ruleifs ++ [ifs1] }, f1))
    (code, file)

/-- Termination support: an element type is smaller than its carrier. -/
theorem elem_size_lt (t e : GoType) : t.elem = some e → sizeOf e < sizeOf t := by
  cases t with
  | mk n pp pn ii ie iv k al iei ib ir keyT elemT tfs =>
    intro h
    simp [GoType.elem] at h
    subst h
    simp
    omega

/-- Termination support: a key type is smaller than its carrier. -/
theorem key_size_lt (t e : GoType) : t.key = some e → sizeOf e < sizeOf t := by
  cases t with
  | mk n pp pn ii ie iv k al iei ib ir keyT elemT tfs =>
    intro h
    simp [GoType.key] at h
    subst h
    simp
    omega

/-- Termination support: the field list is smaller than its carrier. -/
theorem fields_size_lt (t : GoType) : sizeOf t.fields < sizeOf t := by
  cases t with
  | mk n pp pn ii ie iv k al iei ib ir keyT elemT tfs =>
    simp [GoType.fields]
    try omega

/-- Termination support: a list tail is smaller than the list. -/
theorem cons_size_lt (f : StructField) (fs : List StructField) :
    sizeOf fs < sizeOf (f :: fs) := by
  simp only [List.cons.sizeOf_spec]
  omega

/-- Termination support: the size of a cons cell. -/
theorem cons_sizeOf_eq (f : StructField) (fs : List StructField) :
    sizeOf (f :: fs) = 1 + sizeOf f + sizeOf fs := by
  simp only [List.cons.sizeOf_spec]

/-- Termination support: a field's type is smaller than the field. -/
theorem field_typ_size_lt (f : StructField) : sizeOf f.typ < sizeOf f := by
  cases f with
  | mk n k tag emb ex typ md rules =>
    simp [StructField.typ]
    try omega

mutual
/-- `buildVarCode` from internal/generator/generator.go (lines 217-270):
split off required/notnil, build the nil guard, the required/notnil
if-statements, the sub block and the rule if-chain, then descend into the
element of a slice/array tag, the key/element of a map tag, or the
rule-bearing fields of a struct.  The descent reads the variable type left
by the nil guard (the later build steps do not modify it). -/
def buildVarCode (env : GenEnv) (file : FileState) (core0 : VarcodeCore)
    (tn : TagNode) : Varcode × FileState :=
  let core1 := splitRequiredNotnil core0 tn.rules
  let core2 := buildVarCodeNilGuard core1
  let (core3, file1) := buildVarCodeRequired env file core2
  let (core4, file2) := buildVarCodeNotnil env file1 core3
  let core5 := buildVarCodeSubBlock core4
  let (core6, file3) := buildVarCodeRules env file2 core5
  match core2.vtype.kind with
  | .slice | .array =>
    (match tn.elemNode with
      | some etn =>
        match he : core2.vtype.elem with
        | some ety =>
          let (elemVc, file4) := buildVarCode env file3
            { vtype := ety, vexpr := .ident "e",
              fieldKey := core2.fieldKey, fieldType := core2.fieldType } etn
          (.mk core6 none (some elemVc) [], file4)
        | none => (.mk core6 none none [], file3)
      | none => (.mk core6 none none [], file3))
  | .map =>
    let (keyVc, fileK) :=
      match tn.keyNode with
      | some ktn =>
        (match hak : core2.vtype.key with
          | some kty =>
            let (vc, f') := buildVarCode env file3
              { vtype := kty, vexpr := .ident "k",
                fieldKey := core2.fieldKey, fieldType := core2.fieldType } ktn
            (some vc, f')
          | none => (none, file3))
      | none => (none, file3)
    let (elemVc, fileE) :=
      match tn.elemNode with
      | some etn =>
        (match hae : core2.vtype.elem with
          | some ety =>
            let (vc, f') := buildVarCode env fileK
              { vtype := ety, vexpr := .ident "e",
                fieldKey := core2.fieldKey, fieldType := core2.fieldType } etn
            (some vc, f')
          | none => (none, fileK))
      | none => (none, fileK)
    (.mk core6 keyVc elemVc [], fileE)
  | .struct =>
    let (fieldVcs, file4) := buildVarCodeFields env file3 core6.vexpr core2.vtype.fields
    (.mk core6 none none fieldVcs, file4)
  | _ => (.mk core6 none none [], file3)
  termination_by (sizeOf core0.vtype, 0)
  decreasing_by
    all_goals simp_wf
    all_goals apply Prod.Lex.left
    all_goals have h2 : sizeOf core2.vtype ≤ sizeOf core1.vtype :=
      buildVarCodeNilGuard_vtype_size core1
    all_goals have h3 : sizeOf core1.vtype = sizeOf core0.vtype :=
      congrArg sizeOf (splitRequiredNotnil_vtype core0 tn.rules)
    all_goals try have h4 := elem_size_lt core2.vtype _ he
    all_goals try have h5 := key_size_lt core2.vtype _ hak
    all_goals try have h6 := elem_size_lt core2.vtype _ hae
    all_goals have hB : sizeOf (buildVarCodeNilGuard (splitRequiredNotnil core0 tn.rules)).vtype ≤
        sizeOf (splitRequiredNotnil core0 tn.rules).vtype :=
      buildVarCodeNilGuard_vtype_size _
    all_goals have hC : sizeOf (splitRequiredNotnil core0 tn.rules).vtype = sizeOf core0.vtype :=
      congrArg sizeOf (splitRequiredNotnil_vtype core0 tn.rules)
    all_goals have hD := fields_size_lt (buildVarCodeNilGuard (splitRequiredNotnil core0 tn.rules)).vtype
    all_goals omega

/-- The struct-field loop of `buildVarCode` (generator.go lines 256-268).
The generator generation's StructField carries its parsed TagNode; in this
merged embedding a nested field's analyzed rules form a leaf tag node, and
a field with no rules is skipped. -/
def buildVarCodeFields (env : GenEnv) (file : FileState) (pexpr : ExprNode) :
    List StructField → List Varcode × FileState
  | [] => ([], file)
  | f :: fs =>
    if f.rules.isEmpty then buildVarCodeFields env file pexpr fs
    else
      let (vc, file1) := buildVarCode env file
        { vtype := f.typ, vexpr := .selector pexpr f.name,
          fieldKey := f.fkey, fieldType := f.typ } (TagNode.mk f.rules none none)
      let (vcs, file2) := buildVarCodeFields env file1 pexpr fs
      (vc :: vcs, file2)
  termination_by fs => (sizeOf fs, 1)
  decreasing_by
    all_goals simp_wf
    all_goals apply Prod.Lex.left
    all_goals try have h1 := field_typ_size_lt f
    all_goals try have h2 := cons_size_lt f fs
    all_goals try have h3 := cons_sizeOf_eq f fs
    all_goals omega
end

/-- `assembleVarCodeSubBlock` from internal/generator/generator.go
(lines 445-463): without a sub block the statement passes through;
otherwise the sub block wraps it and becomes the else branch of the
required/notnil if-statement, or the body of the nil-guard if-statement,
or a bare block. -/
def assembleVarCodeSubBlock (core : VarcodeCore) (stmt : StmtNode) : StmtNode :=
  if core.sb.isEmpty then stmt
  else
    let bsl := core.sb ++ [stmt]
    match core.rqif with
    | some ifs => { ifs with els := some (.block bsl) }.toStmt
    | none =>
      match core.nnif with
      | some ifs => { ifs with els := some (.block bsl) }.toStmt
      | none =>
        match core.ng with
        | some g => .ifStmt none (some g) bsl none
        | none => .block bsl

/-- `assembleVarCodeRules` from internal/generator/generator.go
(lines 466-498): chain the required/notnil if-statement and the rule
if-statements into one if-else-if chain; with a nil guard, no
required/notnil and exactly one rule, the guard is conjoined onto the
single condition. -/
def assembleVarCodeRules (core : VarcodeCore) : GoIfStmt :=
  let iflist :=
    (match core.rqif with
      | some i => [i]
      | none =>
        match core.nnif with
        | some i => [i]
        | none => []) ++ core.ruleifs
  let root := iflist.foldr
    (fun ifs root => if root.cond.isNone then ifs else { ifs with els := some root.toStmt })
    ({} : GoIfStmt)
  if core.ng.isSome ∧ core.rqif.isNone ∧ core.nnif.isNone ∧ core.ruleifs.length = 1 then
    { root with cond := some (.binary .land (core.ng.getD NIL) (root.cond.getD NIL)) }
  else root

mutual
/-- `assembleVarCode` from internal/generator/generator.go (lines 414-442):
a block of assembled subfields, else the rule if-chain, else the key/elem
range loop (under the nil guard when present); each wrapped in the sub
block when one was built. -/
def assembleVarCode (env : GenEnv) : Varcode → Option StmtNode
  | .mk core kc ec fieldsC =>
    let stmtlist := assembleVarCodeList env fieldsC
    if !stmtlist.isEmpty then some (assembleVarCodeSubBlock core (.stmtList stmtlist))
    else
      let ifs := assembleVarCodeRules core
      if ifs.cond.isSome then some (assembleVarCodeSubBlock core ifs.toStmt)
      else if kc.isSome || ec.isSome then
        match assembleVarCodeKeyElem env core kc ec with
        | some node =>
          match core.ng with
          | some g => some (.ifStmt none (some g) [node] none)
          | none => some (assembleVarCodeSubBlock core node)
        | none => none
      else none
  termination_by vc => (sizeOf vc, 1)

/-- The subfield loop of `assembleVarCode`, keeping the non-nil assembled
statements in order. -/
def assembleVarCodeList (env : GenEnv) : List Varcode → List StmtNode
  | [] => []
  | vc :: vcs =>
    (match assembleVarCode env vc with
      | some s => [s]
      | none => []) ++ assembleVarCodeList env vcs
  termination_by vcs => (sizeOf vcs, 0)

/-- `assembleVarCodeKeyElem` from internal/generator/generator.go
(lines 501-524): the for-range statement over the variable, with the
assembled key code (maps only) and element code as its body.  A kind
other than slice/array/map would panic in the source and yields none;
an absent element varcode, which the source would dereference, is
skipped. -/
def assembleVarCodeKeyElem (env : GenEnv) (core : VarcodeCore)
    (kc ec : Option Varcode) : Option StmtNode :=
  match core.vtype.kind with
  | .slice | .array =>
    some (.forRange "_" "e" core.vexpr
      (match ec with
        | some vc =>
          (match assembleVarCode env vc with
            | some s => [s]
            | none => [])
        | none => []))
  | .map =>
    some (.forRange "k" "e" core.vexpr
      ((match kc with
        | some vc =>
          (match assembleVarCode env vc with
            | some s => [s]
            | none => [])
        | none => []) ++
       (match ec with
        | some vc =>
          (match assembleVarCode env vc with
            | some s => [s]
            | none => [])
        | none => [])))
  | _ => none
  termination_by (sizeOf kc + sizeOf ec, 0)
end

/-- The hook-call if-statement of `buildHookCalls` (generator.go
lines 181-198): `if err := v.<hook>(); err != nil { return err }`. -/
def hookStmt (mName : String) : StmtNode :=
  .ifStmt
    (some (.assignDefine (.ident "err") (.call (.qualifiedIdent "v" mName) [])))
    (some (.binary .neq (.ident "err") NIL))
    [.ret (some (.ident "err"))]
    none

/-- `assembleBody` from internal/generator/generator.go (lines 391-411):
before-hook, the assembled statement of every varcode, after-hook, and the
closing return (nil, or the aggregator's Out()). -/
def assembleBody (env : GenEnv) (varcodes : List Varcode)
    (beforeV afterV : Option String) : List StmtNode :=
  (match beforeV with
    | some n => [hookStmt n]
    | none => []) ++
  varcodes.filterMap (assembleVarCode env) ++
  (match afterV with
    | some n => [hookStmt n]
    | none => []) ++
  [match env.errorHandler with
    | some (n, true) =>
      .ret (some (.call (.selector (.selector (.ident "v") n) "Out") []))
    | _ => .ret (some NIL)]

/-- `buildVarCodes` from internal/generator/generator.go (lines 202-214):
one varcode per rule-bearing field, rooted at the selector `v.<name>`. -/
def buildVarCodes (env : GenEnv) (file : FileState) :
    List GenField → List Varcode × FileState
  | [] => ([], file)
  | f :: fs =>
    if !containsRulesTN f.ruleTag then buildVarCodes env file fs
    else
      let (vc, file1) := buildVarCode env file
        { vtype := f.typ, vexpr := .selector (.ident "v") f.name,
          fieldKey := f.fkey, fieldType := f.typ }
        (f.ruleTag.getD (TagNode.mk [] none none))
      let (vcs, file2) := buildVarCodes env file1 fs
      (vc :: vcs, file2)

/-- The per-target work of `Generate`/`buildValidateMethod`: build the
varcodes and assemble the body of the `Validate() error` method, returning
the final file state alongside. -/
def generateTarget (env : GenEnv) (file : FileState) (fields : List GenField)
    (beforeV afterV : Option String) : List StmtNode × FileState :=
  let (vcs, file1) := buildVarCodes env file fields
  (assembleBody env vcs beforeV afterV, file1)

/-- The init-function emission decision of `Generate` (generator.go
lines 37-43): an init function with the collected statements as its body
is added exactly when the init list is nonempty. -/
def generatedInitBlock (file : FileState) : Option (List StmtNode) :=
  if file.init.isEmpty then none else some file.init

/-- `OptionType` of the part_000 analysis generation (the declared
constants are not in the snapshot; the zero value is the unknown type and
the others are the ones `parseRuleTagOption` assigns). -/
inductive OptionType where
  | unknownO | boolO | intO | floatO | stringO | fieldO
  deriving DecidableEq, Repr

/-- `RuleOption` of the part_000 analysis generation. -/
structure RuleOption where
  type : OptionType := .unknownO
  value : String := ""
  deriving DecidableEq, Repr

/-- The `Rule` of the part_000 analysis generation (name, options,
context). -/
structure PRule where
  name : String := ""
  options : List RuleOption := []
  context : String := ""
  deriving DecidableEq, Repr

/-- `TagNode` of the part_000 analysis generation. -/
inductive PTagNode where
  | mk (rules : List PRule) (key elem : Option PTagNode)

def PTagNode.rules : PTagNode → List PRule
  | .mk r _ _ => r

def PTagNode.keyNode : PTagNode → Option PTagNode
  | .mk _ k _ => k

def PTagNode.elemNode : PTagNode → Option PTagNode
  | .mk _ _ e => e

/-- `isvalid.Int` of part_000: optional sign, one or more digits. -/
def goIsvalidInt (s : List Char) : Bool :=
  let s1 := match s with
    | c :: cs => if c = '+' ∨ c = '-' then cs else s
    | [] => s
  !s1.isEmpty && s1.all (·.isDigit)

/-- Drops one leading sign character. -/
def dropSign (s : List Char) : List Char :=
  match s with
  | c :: cs => if c = '+' ∨ c = '-' then cs else s
  | [] => s

/-- `isvalid.Float` of part_000 (lines 31-37): the empty string and the
bare `.`, `+`, `-` are rejected up front; the rest is matched against
`rxFloat`: optional sign, optional digits, optional dot with optional
digits, optional exponent with mandatory digits. -/
def goIsvalidFloat (s : List Char) : Bool :=
  if s = [] ∨ s = ['.'] ∨ s = ['+'] ∨ s = ['-'] then false
  else
    let s1 := dropSign s
    let s2 := s1.dropWhile (·.isDigit)
    let s3 := match s2 with
      | '.' :: r => r.dropWhile (·.isDigit)
      | _ => s2
    match s3 with
    | [] => true
    | e :: r =>
      (e = 'e' ∨ e = 'E') &&
        (let r1 := dropSign r
         !r1.isEmpty && r1.all (·.isDigit))

/-- `parseRuleTagOption` of part_000 (lines 1575-1596): `&` marks a field
reference, otherwise the literal type is inferred in the order int, float,
bool, and string for anything else except the bare word nil, which keeps
the unknown type. -/
def parseRuleTagOption (val : List Char) : RuleOption :=
  if val.isEmpty then {}
  else if val.head? = some '&' then
    { type := .fieldO, value := String.mk (val.drop 1) }
  else if goIsvalidInt val then { type := .intO, value := String.mk val }
  else if goIsvalidFloat val then { type := .floatO, value := String.mk val }
  else if rxBoolMatch val then { type := .boolO, value := String.mk val }
  else if val ≠ "nil".data then { type := .stringO, value := String.mk val }
  else { value := String.mk val }

/-- The quote scan of the part_000 parser's option loop (lines 1511-1517):
content up to the closing quote, a backslash consuming the next character
as well; the remainder still starts with the closing quote if one exists. -/
def scanQuoted : List Char → List Char × List Char
  | [] => ([], [])
  | c :: rest =>
    if c = '"' then ([], c :: rest)
    else if c = '\\' then
      match rest with
      | [] => ([c], [])
      | d :: rest2 =>
        let (a, b) := scanQuoted rest2
        (c :: d :: a, b)
    else
      let (a, b) := scanQuoted rest
      (c :: a, b)

/-- The quote scan inside the part_000 bracket scan (lines 1443-1456):
the number of characters consumed, including the closing quote when it is
reached. -/
def scanQuotedLen : List Char → Nat
  | [] => 0
  | c :: rest =>
    if c = '"' then 1
    else if c = '\\' then
      match rest with
      | [] => 1
      | _ :: rest2 => 2 + scanQuotedLen rest2
    else 1 + scanQuotedLen rest

/-- Termination support: the quote scan consumes at most the input. -/
theorem scanQuotedLen_le (s : List Char) : scanQuotedLen s ≤ s.length := by
  induction s using scanQuotedLen.induct with
  | case1 => rw [scanQuotedLen.eq_def]; try simp
  | case2 rest => rw [scanQuotedLen.eq_def]; try simp
  | case3 h => rw [scanQuotedLen.eq_def]; try simp
  | case4 c rest h ih =>
    rw [scanQuotedLen.eq_def]
    simp
    omega
  | case5 c rest h1 h2 ih =>
    rw [scanQuotedLen.eq_def]
    simp [h1, h2]
    omega

/-- The matching-bracket scan of the part_000 parser (lines 1432-1458):
the number of characters before the `]` matching the already-consumed `[`,
tracking nesting depth and skipping quoted strings. -/
def scanBracket (s : List Char) (n : Nat) : Nat :=
  match s with
  | [] => 0
  | c :: rest =>
    if c = ']' ∧ n = 0 then 0
    else
      let n' := if c = '[' then n + 1 else if c = ']' then n - 1 else n
      if c = '"' then
        let q := scanQuotedLen rest
        1 + q + scanBracket (rest.drop q) n'
      else 1 + scanBracket rest n'
  termination_by s.length
  decreasing_by
  · have := List.length_drop q rest
    simp
    try omega
  · simp
    try omega

/-- Termination support: the remainder of the quoted-option scan is no
longer than its input. -/
theorem scanQuoted_rest_le (s : List Char) :
    (scanQuoted s).2.length ≤ s.length := by
  induction s using scanQuoted.induct with
  | case1 => rw [scanQuoted.eq_def]; try simp
  | case2 rest => rw [scanQuoted.eq_def]; try simp
  | case3 h => rw [scanQuoted.eq_def]; try simp
  | case4 c rest a b hsc h ih =>
    rw [scanQuoted.eq_def]
    simp [hsc]
    all_goals (rw [hsc] at ih; simp at ih; omega)
  | case5 c rest h1 h2 a b hsc ih =>
    rw [scanQuoted.eq_def]
    simp [h1, h2, hsc]
    all_goals (rw [hsc] at ih; simp at ih; omega)

/-- The option loop of the part_000 parser (lines 1506-1566): each
iteration drops the leading colon, then reads a quoted string option or
scans to the next separator (a leading `@` assigns the rule context,
otherwise the option is classified); a comma or the end of the input ends
the rule. -/
def parseOptsP (r : PRule) (tag : List Char) : PRule × List Char :=
  match tag with
  | [] => (r, [])
  | _ :: '"' :: t2 =>
    -- the leading colon is dropped; a quoted option value follows
    (match hsc : scanQuoted t2 with
      | (content, t3) =>
        let r' := { r with options := r.options ++
          [{ type := .stringO, value := String.mk content }] }
        -- the closing quote is dropped; a colon continues the loop,
        -- a comma ends the rule and is dropped, else the loop breaks
        match t3 with
        | '"' :: ':' :: rest5 => parseOptsP r' (':' :: rest5)
        | '"' :: ',' :: t6 => (r', t6)
        | '"' :: t5 => (r', t5)
        | ':' :: rest3 => parseOptsP r' (':' :: rest3)
        | ',' :: t6 => (r', t6)
        | t5 => (r', t5))
  | _ :: t1 =>
    -- the leading colon is dropped; scan the option to the next separator
    let optstr := t1.takeWhile fun c => c ≠ ':' ∧ c ≠ ','
    let r' :=
      if optstr.head? = some '@' then { r with context := String.mk (optstr.drop 1) }
      else { r with options := r.options ++ [parseRuleTagOption optstr] }
    match hdrop : t1.drop optstr.length with
    | [] => (r', [])
    | ',' :: u6 => (r', u6)
    | u0 :: u1 => parseOptsP r' (u0 :: u1)
  termination_by tag.length
  decreasing_by
  · have h1 := scanQuoted_rest_le t2
    rw [hsc] at h1
    simp at h1 ⊢
    omega
  · have h1 := scanQuoted_rest_le t2
    rw [hsc] at h1
    simp at h1 ⊢
    omega
  · have h3 := List.length_drop (t1.takeWhile fun c => c ≠ ':' ∧ c ≠ ',').length t1
    rw [hdrop] at h3
    simp at h3 ⊢
    omega

set_option maxRecDepth 4000 in
/-- Termination support: the option loop never produces a remainder longer
than its input. -/
theorem parseOptsP_rest_le (r : PRule) (tag : List Char) :
    (parseOptsP r tag).2.length ≤ tag.length := by
  induction r, tag using parseOptsP.induct with
  | case1 r =>
      rw [parseOptsP.eq_def]
  | case2 r head t2 content r' rest5 h1 h2 ih =>
      have hq := scanQuoted_rest_le t2
      rw [h1] at hq
      simp only [List.length_cons] at hq ih ⊢
      rw [parseOptsP.eq_2]
      split
      rename_i c3 t3 heq
      rw [h1] at heq
      injection heq with hc ht
      subst hc
      subst ht
      dsimp only
      split
      · rename_i hE hH
        injection hE with _ hE1
        injection hE1 with _ hE2
        subst hE2
        exact le_trans ih (by omega)
      · rename_i hE hH
        injection hE with _ hE1
        injection hE1 with hch _
        exact absurd hch (by decide)
      · rename_i hE hH
        injection hE with _ hE1
        subst hE1
        dsimp only [List.length_cons]
        omega
      · rename_i hE hH
        injection hE with hch _
        exact absurd hch (by decide)
      · rename_i hE hH
        injection hE with hch _
        exact absurd hch (by decide)
      · dsimp only [List.length_cons]
        omega
  | case3 r head t2 content t6 h1 h2 =>
      have hq := scanQuoted_rest_le t2
      rw [h1] at hq
      simp only [List.length_cons] at hq ⊢
      rw [parseOptsP.eq_2]
      split
      rename_i c3 t3 heq
      rw [h1] at heq
      injection heq with hc ht
      subst hc
      subst ht
      dsimp only
      split
      · rename_i hE hH
        injection hE with _ hE1
        injection hE1 with hch _
        exact absurd hch (by decide)
      · rename_i hE hH
        injection hE with _ hE1
        injection hE1 with _ hE2
        subst hE2
        dsimp only
        omega
      · rename_i hE hH
        injection hE with _ hE1
        subst hE1
        dsimp only [List.length_cons]
        omega
      · rename_i hE hH
        injection hE with hch _
        exact absurd hch (by decide)
      · rename_i hE hH
        injection hE with hch _
        exact absurd hch (by decide)
      · dsimp only [List.length_cons]
        omega
  | case4 r head t2 content t5 hsc hf1 hf2 h3 =>
      have hq := scanQuoted_rest_le t2
      rw [hsc] at hq
      simp only [List.length_cons] at hq ⊢
      rw [parseOptsP.eq_2]
      split
      rename_i c3 t3 heq
      rw [hsc] at heq
      injection heq with hc ht
      subst hc
      subst ht
      dsimp only
      split
      · rename_i r5 hscx hE hH
        injection hE with _ hE1
        exact (hf1 r5 hscx hE1 (proof_irrel_heq hsc hscx)).elim
      · rename_i hE hH
        have hl := congrArg List.length hE
        simp only [List.length_cons] at hl
        dsimp only
        omega
      · rename_i hE hH
        injection hE with _ hE1
        subst hE1
        dsimp only
        omega
      · rename_i hE hH
        injection hE with hch _
        exact absurd hch (by decide)
      · rename_i hE hH
        injection hE with hch _
        exact absurd hch (by decide)
      · dsimp only [List.length_cons]
        omega
  | case5 r head t2 content r' rest3 h1 h2 ih =>
      have hq := scanQuoted_rest_le t2
      rw [h1] at hq
      simp only [List.length_cons] at hq ih ⊢
      rw [parseOptsP.eq_2]
      split
      rename_i c3 t3 heq
      rw [h1] at heq
      injection heq with hc ht
      subst hc
      subst ht
      dsimp only
      split
      · rename_i hE hH
        injection hE with hch _
        exact absurd hch (by decide)
      · rename_i hE hH
        injection hE with hch _
        exact absurd hch (by decide)
      · rename_i hE hH
        injection hE with hch _
        exact absurd hch (by decide)
      · rename_i hE hH
        injection hE with _ hE1
        subst hE1
        exact le_trans ih (by omega)
      · rename_i hE hH
        injection hE with hch _
        exact absurd hch (by decide)
      · dsimp only [List.length_cons]
        omega
  | case6 r head t2 content t6 h1 h2 =>
      have hq := scanQuoted_rest_le t2
      rw [h1] at hq
      simp only [List.length_cons] at hq ⊢
      rw [parseOptsP.eq_2]
      split
      rename_i c3 t3 heq
      rw [h1] at heq
      injection heq with hc ht
      subst hc
      subst ht
      dsimp only
      split
      · rename_i hE hH
        injection hE with hch _
        exact absurd hch (by decide)
      · rename_i hE hH
        injection hE with hch _
        exact absurd hch (by decide)
      · rename_i hE hH
        injection hE with hch _
        exact absurd hch (by decide)
      · rename_i hE hH
        injection hE with hch _
        exact absurd hch (by decide)
      · rename_i hE hH
        injection hE with _ hE1
        subst hE1
        dsimp only
        omega
      · dsimp only [List.length_cons]
        omega
  | case7 r head t2 content t5 hsc f1 f2 f3 f4 f5 h6 =>
      have hq := scanQuoted_rest_le t2
      rw [hsc] at hq
      have hq2 : t5.length ≤ t2.length := hq
      have hfst : (scanQuoted t2).1 = content := congrArg Prod.fst hsc
      have hsnd : (scanQuoted t2).2 = t5 := congrArg Prod.snd hsc
      rw [parseOptsP.eq_2]
      simp only [List.length_cons]
      split
      · rename_i r5 hscx hE hH
        rw [hfst] at hscx
        exact (f1 r5 hscx (hsnd.symm.trans hE) (proof_irrel_heq hsc hscx)).elim
      · rename_i t6x hscx hE hH
        have hl := congrArg List.length (hsnd.symm.trans hE)
        simp only [List.length_cons] at hl
        dsimp only
        omega
      · rename_i t5x hscx hE hH
        have hl := congrArg List.length (hsnd.symm.trans hE)
        simp only [List.length_cons] at hl
        dsimp only
        omega
      · rename_i r3 hscx hE hH
        rw [hfst] at hscx
        exact (f4 r3 hscx (hsnd.symm.trans hE) (proof_irrel_heq hsc hscx)).elim
      · rename_i t6x hscx hE hH
        have hl := congrArg List.length (hsnd.symm.trans hE)
        simp only [List.length_cons] at hl
        dsimp only
        omega
      · dsimp only
        rw [hsnd]
        omega
  | case8 r head t1 hne optstr hdrop =>
      rw [parseOptsP.eq_3 r head t1 hne]
      have hdropx : List.drop (List.takeWhile (fun c => decide (c ≠ ':' ∧ c ≠ ',')) t1).length t1 = ([] : List Char) := hdrop
      split
      · dsimp only
        simp
      · rename_i hE
        rw [hdropx] at hE
        exact absurd hE (by simp)
      · rename_i hneg hE
        rw [hdropx] at hE
        exact absurd hE (by simp)
  | case9 r head t1 hne optstr u6 hdrop =>
      rw [parseOptsP.eq_3 r head t1 hne]
      have hdropx : List.drop (List.takeWhile (fun c => decide (c ≠ ':' ∧ c ≠ ',')) t1).length t1 = ',' :: u6 := hdrop
      have hl := congrArg List.length hdropx
      simp only [List.length_drop, List.length_cons] at hl
      split
      · rename_i hE
        rw [hdropx] at hE
        exact absurd hE (by simp)
      · rename_i hE
        rw [hdropx] at hE
        injection hE with _ hE1
        subst hE1
        dsimp only [List.length_cons]
        omega
      · rename_i hneg hE
        rw [hdropx] at hE
        injection hE with hch _
        exact absurd hch.symm hneg
  | case10 r head t1 hne optstr r' u0 u1 hu0 hdrop ih =>
      rw [parseOptsP.eq_3 r head t1 hne]
      have hdropx : List.drop (List.takeWhile (fun c => decide (c ≠ ':' ∧ c ≠ ',')) t1).length t1 = u0 :: u1 := hdrop
      have hl := congrArg List.length hdropx
      simp only [List.length_drop, List.length_cons] at hl
      split
      · rename_i hE
        rw [hdropx] at hE
        exact absurd hE (by simp)
      · rename_i hE
        rw [hdropx] at hE
        injection hE with hch _
        exact absurd hch hu0
      · rename_i hneg hE
        rw [hdropx] at hE
        injection hE with hch htl
        subst hch
        subst htl
        exact le_trans ih (by simp only [List.length_cons]; omega)

/-- Prepends a rule to a tag node's rule list. -/
def prependRule (r : PRule) : PTagNode → PTagNode
  | .mk rs k e => .mk (r :: rs) k e


/-- The recursive local `parser` of part_000 `parseRuleTag` (lines
1414-1571): skip leading spaces; a `[` opens bracketed key/elem sub-tags
parsed recursively; an empty rule name consumes one separator; otherwise a
rule is built from the scanned name and its option loop, and parsing
continues on the remainder. -/
def parser (tag : List Char) : PTagNode :=
  match h0 : tag.dropWhile (fun ch => ch = ' ') with
  | [] => .mk [] none none
  | '[' :: rest =>
      let j := scanBracket rest 0
      let ktag := rest.take j
      let etag := rest.drop j
      let key := if ktag.isEmpty then none else some (parser ktag)
      let elem := if 1 < etag.length then some (parser (etag.drop 1)) else none
      .mk [] key elem
  | c :: rest =>
      let name := (c :: rest).takeWhile fun ch => ch ≠ ',' ∧ ch ≠ ':'
      if hname : name = [] then parser rest
      else
        let r : PRule := { name := String.mk name }
        match h1 : (c :: rest).drop name.length with
        | [] => .mk [r] none none
        | ',' :: t2 => prependRule r (parser t2)
        | t2 =>
            let pr := parseOptsP r t2
            prependRule pr.1 (parser pr.2)
  termination_by tag.length
  decreasing_by
  all_goals have hd : (tag.dropWhile (fun ch => ch = ' ')).length ≤ tag.length :=
      (List.dropWhile_sublist _).length_le
  all_goals rw [h0] at hd
  · simp only [List.length_cons, List.length_take] at *
    omega
  · simp only [List.length_cons, List.length_drop] at *
    omega
  · simp only [List.length_cons] at *
    omega
  · have hl1 := congrArg List.length h1
    simp only [List.length_drop, List.length_cons] at *
    omega
  · have hl1 := congrArg List.length h1
    have hrest := parseOptsP_rest_le { name := String.mk ((c :: rest).takeWhile fun ch => decide (ch ≠ ',' ∧ ch ≠ ':')) } ((c :: rest).drop ((c :: rest).takeWhile fun ch => decide (ch ≠ ',' ∧ ch ≠ ':')).length)
    have hn : 0 < name.length := List.length_pos.mpr hname
    rw [h1] at hrest
    simp only [List.length_drop, List.length_cons] at *
    omega

/-- Termination support: the option loop never changes the rule's name. -/
theorem parseOptsP_name_aux : ∀ (n : Nat) (r : PRule) (tag : List Char),
    tag.length < n → (parseOptsP r tag).1.name = r.name := by
  intro n
  induction n with
  | zero => intro r tag h; omega
  | succ n ih =>
    intro r tag hlt
    rcases tag with _ | ⟨c, cs⟩
    · rw [parseOptsP.eq_1]
    rcases cs with _ | ⟨c2, cs2⟩
    · rw [parseOptsP.eq_3 r c [] (fun t2 h => List.noConfusion h)]
      simp
    by_cases hq : c2 = '"'
    · subst hq
      rw [parseOptsP.eq_2]
      split
      rename_i c3 t3 heq
      dsimp only
      split
      · have hsb := scanQuoted_rest_le cs2
        rw [heq] at hsb
        simp only [List.length_cons] at hsb hlt
        exact ih _ _ (by simp only [List.length_cons]; omega)
      · rfl
      · rfl
      · have hsb := scanQuoted_rest_le cs2
        rw [heq] at hsb
        simp only [List.length_cons] at hsb hlt
        exact ih _ _ (by simp only [List.length_cons]; omega)
      · rfl
      · rfl
    · rw [parseOptsP.eq_3 r c (c2 :: cs2) (fun t2 h => absurd h (by simp [hq]))]
      split
      · split <;> rfl
      · split <;> rfl
      · rename_i heq
        have hlen := congrArg List.length heq
        simp only [List.length_drop, List.length_cons] at hlen hlt
        refine (ih _ _ ?_).trans ?_
        · simp only [List.length_cons]
          omega
        · split <;> rfl

/-- The option loop never changes the rule's name. -/
theorem parseOptsP_name (r : PRule) (tag : List Char) :
    (parseOptsP r tag).1.name = r.name :=
  parseOptsP_name_aux (tag.length + 1) r tag (by omega)

/-- `parseRuleTag` of part_000 (lines 1408-1412): the extracted `is` tag
value; a missing value, `-`, or the empty string produce the empty node,
anything else is handed to the recursive parser. -/
def parseRuleTag (val : Option String) : PTagNode :=
  match val with
  | none => .mk [] none none
  | some v => if v = "-" ∨ v = "" then .mk [] none none else parser v.data

/-- Every rule in the tag-node tree has a nonempty name. -/
def noEmptyNames : PTagNode → Bool
  | .mk rs k e =>
    rs.all (fun r => !(r.name.data.isEmpty)) &&
    (match k with | some kn => noEmptyNames kn | none => true) &&
    (match e with | some en => noEmptyNames en | none => true)

/-- A name built from a nonempty character list fails the isEmpty check. -/
theorem nonempty_name_check : ∀ (L : List Char), ¬(L = []) →
    (!((String.mk L).data.isEmpty)) = true
  | [], h => absurd rfl h
  | _ :: _, _ => rfl

/-- Prepending a rule with a nonempty name preserves the checker. -/
theorem noEmptyNames_cons (r : PRule) (rs : List PRule) (k e : Option PTagNode)
    (h1 : (!(r.name.data.isEmpty)) = true)
    (h2 : noEmptyNames (.mk rs k e) = true) :
    noEmptyNames (.mk (r :: rs) k e) = true := by
  rw [noEmptyNames.eq_def] at h2 ⊢
  simp only [List.all_cons, Bool.and_assoc, Bool.and_eq_true] at h2 ⊢
  exact ⟨h1, h2⟩

/-- An empty rule name before a comma is skipped by the parser: the comma
is consumed and parsing continues with the rest of the tag. -/
theorem parser_comma (t : List Char) : parser (',' :: t) = parser t := by
  rw [parser.eq_def]
  have hd : (',' :: t).dropWhile (fun ch => ch = ' ') = ',' :: t := by
    simp [List.dropWhile]
  split
  · rename_i heq
    rw [hd] at heq
    exact absurd heq (by simp)
  · rename_i rest heq
    rw [hd] at heq
    exact absurd heq (by simp)
  · rename_i c rest hne heq
    rw [hd] at heq
    injection heq with hc hrest
    subst hc
    subst hrest
    dsimp only
    simp [List.takeWhile]

/-- The parser produces no rule with an empty name, on any tag. -/
theorem noEmptyNamesParseAux : ∀ (n : Nat) (tag : List Char),
    tag.length < n → noEmptyNames (parser tag) = true := by
  intro n
  induction n with
  | zero => intro tag h; omega
  | succ n ih =>
    intro tag hlt
    have hdl : (tag.dropWhile (fun ch => ch = ' ')).length ≤ tag.length :=
      (List.dropWhile_sublist _).length_le
    rw [parser.eq_def]
    split
    · rw [noEmptyNames.eq_def]
      rfl
    · rename_i rest heq
      have hr : rest.length + 1 ≤ tag.length := by
        have := congrArg List.length heq
        simp only [List.length_cons] at this
        omega
      dsimp only
      rw [noEmptyNames.eq_def]
      simp only [List.all_nil, Bool.true_and, Bool.and_eq_true]
      constructor
      · split
        · rename_i kn heqk
          split at heqk
          · exact absurd heqk (by simp)
          · injection heqk with hk
            subst hk
            exact ih _ (by simp only [List.length_take]; omega)
        · rfl
      · split
        · rename_i en heqe
          split at heqe
          · injection heqe with he
            subst he
            exact ih _ (by simp only [List.length_drop]; omega)
          · exact absurd heqe (by simp)
        · rfl
    · rename_i c rest hne heq
      have hr : rest.length + 1 ≤ tag.length := by
        have := congrArg List.length heq
        simp only [List.length_cons] at this
        omega
      dsimp only
      split
      · exact ih _ (by omega)
      · rename_i hname
        split
        · exact noEmptyNames_cons _ _ _ _ (nonempty_name_check _ hname) rfl
        · rename_i t2 heq2
          have ht2 : t2.length < tag.length := by
            have := congrArg List.length heq2
            simp only [List.length_drop, List.length_cons] at this
            omega
          have hrec := ih t2 (by omega)
          rcases hpt : parser t2 with ⟨rs, k, e⟩
          rw [hpt] at hrec
          simp only [prependRule]
          exact noEmptyNames_cons _ _ _ _ (nonempty_name_check _ hname) hrec
        · have hnm := parseOptsP_name
            { name := String.mk ((c :: rest).takeWhile fun ch => decide (ch ≠ ',' ∧ ch ≠ ':')) }
            (List.drop ((c :: rest).takeWhile fun ch => decide (ch ≠ ',' ∧ ch ≠ ':')).length (c :: rest))
          have hrle := parseOptsP_rest_le
            { name := String.mk ((c :: rest).takeWhile fun ch => decide (ch ≠ ',' ∧ ch ≠ ':')) }
            (List.drop ((c :: rest).takeWhile fun ch => decide (ch ≠ ',' ∧ ch ≠ ':')).length (c :: rest))
          have hname2 : 0 < ((c :: rest).takeWhile fun ch => decide (ch ≠ ',' ∧ ch ≠ ':')).length :=
            List.length_pos.mpr hname
          have hdlen : (List.drop ((c :: rest).takeWhile fun ch => decide (ch ≠ ',' ∧ ch ≠ ':')).length (c :: rest)).length < tag.length := by
            simp only [List.length_drop, List.length_cons]
            omega
          have hrec := ih (parseOptsP
            { name := String.mk ((c :: rest).takeWhile fun ch => decide (ch ≠ ',' ∧ ch ≠ ':')) }
            (List.drop ((c :: rest).takeWhile fun ch => decide (ch ≠ ',' ∧ ch ≠ ':')).length (c :: rest))).2 (by omega)
          rcases hpt : parser (parseOptsP
            { name := String.mk ((c :: rest).takeWhile fun ch => decide (ch ≠ ',' ∧ ch ≠ ':')) }
            (List.drop ((c :: rest).takeWhile fun ch => decide (ch ≠ ',' ∧ ch ≠ ':')).length (c :: rest))).2 with ⟨rs, k, e⟩
          rw [hpt] at hrec
          simp only [prependRule]
          refine noEmptyNames_cons _ _ _ _ ?_ hrec
          rw [hnm]
          exact nonempty_name_check _ hname

/-- The parser produces no rule with an empty name, on any tag. -/
theorem noEmptyNamesParseAll (tag : List Char) :
    noEmptyNames (parser tag) = true :=
  noEmptyNamesParseAux (tag.length + 1) tag (by omega)

/-! ## Claim support and claim theorems -/

/-- The custom function spec `AddRuleFunc` registers for a given function
model. -/
def customSpecOf (f : GoFunc) : RuleSpec :=
  .funcSpec { iscustom := true, funcName := f.name, pkgPath := f.pkgPath,
              isVariadic := f.isVariadic, argTypes := f.params.map analyzeType0M }

/-- A single-bool-result function model used as a concrete `AddRuleFunc`
argument. -/
def boolResultFunc : GoFunc :=
  { name := "P", pkgPath := "example.com/p",
    params := [.basic .string "string"], results := [.basic .bool "bool"] }

/-- C9 counterexample: `AddRuleFunc` accepts the reserved name `required`
(only `isvalid` and `enum` are rejected by the name check), refuting the
claim that all four reserved names are rejected. -/
theorem C9_counterexample :
    (match addRuleFunc {} "required" boolResultFunc with
      | .ok _ => true
      | .error _ => false) = true := by decide

/-- C9 (amended): `AddRuleFunc` rejects exactly the names whose lowercase
form is `isvalid` or `enum` (with errRuleNameUnavailable), then a missing
parameter or a result list that is not a single value (with
errRuleFuncParamCount), then a non-bool single result (with
errRuleFuncResultType); otherwise it registers a custom function spec under
the given name.  The configuration is returned unchanged in all error
cases (the embedding returns no configuration at all then). -/
theorem C9_addRuleFunc_characterization :
    (∀ (c : Config) (n : String) (f : GoFunc),
        (strToLower n = "isvalid" ∨ strToLower n = "enum") →
        addRuleFunc c n f = .error .errRuleNameUnavailable) ∧
    (∀ (c : Config) (n : String) (f : GoFunc),
        ¬(strToLower n = "isvalid" ∨ strToLower n = "enum") →
        (f.params.length < 1 ∨ f.results.length ≠ 1) →
        addRuleFunc c n f = .error .errRuleFuncParamCount) ∧
    (∀ (c : Config) (n : String) (f : GoFunc) (rt : MType),
        ¬(strToLower n = "isvalid" ∨ strToLower n = "enum") →
        1 ≤ f.params.length → f.results = [rt] → isBoolM rt = false →
        addRuleFunc c n f = .error .errRuleFuncResultType) ∧
    (∀ (c : Config) (n : String) (f : GoFunc) (rt : MType),
        ¬(strToLower n = "isvalid" ∨ strToLower n = "enum") →
        1 ≤ f.params.length → f.results = [rt] → isBoolM rt = true →
        addRuleFunc c n f = .ok { c with ruleSpecMap := mapInsert c.ruleSpecMap n (customSpecOf f) }) := by
  refine ⟨?_, ?_, ?_, ?_⟩
  · intro c n f h
    simp [addRuleFunc, h]
  · intro c n f h hpr
    rcases hpr with hp | hr
    · simp [addRuleFunc, h, hp]
    · simp only [addRuleFunc, if_neg h]
      rw [if_pos (Or.inr hr)]
  · intro c n f rt h hp hres hb
    simp only [addRuleFunc, hres]
    rw [if_neg h, if_neg (by simp only [List.length_singleton]; omega)]
    simp [hb]
  · intro c n f rt h hp hres hb
    simp only [addRuleFunc, hres]
    rw [if_neg h, if_neg (by simp only [List.length_singleton]; omega)]
    simp [hb, customSpecOf]

/-- A function model with no parameters. -/
def noParamFunc : GoFunc := { results := [.basic .bool "bool"] }

/-- A function model whose single result is a string. -/
def strResultFunc : GoFunc :=
  { params := [.basic .string "string"], results := [.basic .string "string"] }

/-- C9 witness: the characterization applied at concrete inputs — `IsValid`
is rejected as unavailable, a parameterless function is rejected, a
string-result function is rejected, and a well-formed function is
registered. -/
theorem C9_witness :
    addRuleFunc {} "IsValid" boolResultFunc = .error .errRuleNameUnavailable ∧
    addRuleFunc {} "x" noParamFunc = .error .errRuleFuncParamCount ∧
    addRuleFunc {} "x" strResultFunc = .error .errRuleFuncResultType ∧
    addRuleFunc {} "x" boolResultFunc =
      .ok { ruleSpecMap := [("x", customSpecOf boolResultFunc)] } :=
  ⟨C9_addRuleFunc_characterization.1 {} "IsValid" boolResultFunc (by decide),
   C9_addRuleFunc_characterization.2.1 {} "x" noParamFunc
     (by decide) (by simp [noParamFunc]),
   C9_addRuleFunc_characterization.2.2.1 {} "x" strResultFunc
     (.basic .string "string") (by decide) (by simp [strResultFunc]) rfl rfl,
   C9_addRuleFunc_characterization.2.2.2 {} "x" boolResultFunc
     (.basic .bool "bool") (by decide) (by simp [boolResultFunc]) rfl rfl⟩

/-- The registration statement `isvalid.RegisterRegexp(`pat`)` appended to
the init list for a regex pattern. -/
def regStmtOf (impName pat : String) : StmtNode :=
  .exprStmt (.call (.qualifiedIdent impName "RegisterRegexp") [.rawStringLit pat])

/-- The `re` function spec of the default registry. -/
def reFuncSpec : RuleFuncSpec :=
  { funcName := "Match", pkgPath := isvalidPkg, argTypes := [stringT, stringT],
    useRawString := true }

/-- The rule `re:foo`. -/
def reFooRule : Rule := Rule.mk "re" [{ type := .string, value := "foo" }] "" "" none none

/-- A varcode core for a plain string field. -/
def strFieldCore (nm : String) : VarcodeCore :=
  { vtype := mkT .string, vexpr := .selector (.ident "v") nm,
    fieldKey := nm, fieldType := mkT .string }

/-- C4 counterexample: two fields carrying `re:foo` with the same pattern
produce two identical RegisterRegexp entries in the init list — the same
pattern is not registered once but once per occurrence. -/
theorem C4_counterexample :
    ((newRuleTypeFuncIfStmt {} ((newRuleTypeFuncIfStmt {} {} (strFieldCore "F1")
        reFooRule reFuncSpec).2) (strFieldCore "F2") reFooRule reFuncSpec).2).init =
      [regStmtOf "isvalid" "foo", regStmtOf "isvalid" "foo"] := rfl

/-- `addimport` never touches the init list. -/
theorem addimport_init (f : FileState) (p : String) :
    ((addimport f p).2).init = f.init := by
  unfold addimport
  split
  · rfl
  · dsimp only
    split <;> rfl

/-- The default error expression never touches the init list. -/
theorem newErrorExpr_init (env : GenEnv) (f : FileState)
    (code : VarcodeCore) (r : Rule) :
    ((newErrorExpr env f code r).2).init = f.init := by
  unfold newErrorExpr
  split
  · rfl
  · dsimp only
    split <;> rfl

/-- The error-return construction never touches the init list. -/
theorem newErrorReturnStmt_init (env : GenEnv) (f : FileState)
    (code : VarcodeCore) (r : Rule) :
    ((newErrorReturnStmt env f code r).2).init = f.init := by
  unfold newErrorReturnStmt
  split
  · split <;> rfl
  · exact newErrorExpr_init env f code r

/-- The argument fold of `newRuleTypeFuncIfStmt`: each processed argument
of an `re` rule appends one registration with its value; other rules leave
the init list alone. -/
theorem funcIfFold (env : GenEnv) (r : Rule) (imp : Impspec) :
    ∀ (l : List (RuleArg × GoType)) (args0 : List ExprNode) (f0 : FileState),
      ((l.foldl (fun (acc : List ExprNode × FileState) p =>
        let x := newArgValueExpr env r p.1 p.2
        let f' :=
          if r.name = "re" then
            { acc.2 with init := acc.2.init ++
                [.exprStmt (.call (.qualifiedIdent imp.name "RegisterRegexp")
                  [.rawStringLit p.1.value])] }
          else acc.2
        (acc.1 ++ [x], f')) (args0, f0)).2).init =
      f0.init ++ (if r.name = "re"
        then l.map (fun p => regStmtOf imp.name p.1.value) else []) := by
  intro l
  induction l with
  | nil => intro args0 f0; simp
  | cons p ps ih =>
    intro args0 f0
    simp only [List.foldl_cons, List.map_cons]
    rw [ih]
    by_cases hre : r.name = "re"
    · simp [hre, regStmtOf]
    · simp [hre]

/-- The adjusted argument-type vector is never shorter than the argument
list. -/
theorem typesForArgs_len (f : RuleFuncSpec) (args : List RuleArg) :
    args.length ≤ (typesForArgs f args).length := by
  unfold typesForArgs
  dsimp only
  split
  · split <;>
      (simp only [List.length_append, List.length_replicate, List.length_singleton,
        List.length_dropLast, List.length_drop]; omega)
  · simp only [List.length_append, List.length_replicate, List.length_drop]
    omega

/-- C4 (amended): every occurrence of an argument of an `re` rule appends
one RegisterRegexp call with the pattern as a raw string literal to the
file's init list (one registration per occurrence, with no deduplication);
other function rules leave the init list unchanged; a nonempty init list
becomes the init function of the generated file. -/
theorem C4_register_per_occurrence :
    (∀ (env : GenEnv) (file : FileState) (code : VarcodeCore) (r : Rule)
        (rt : RuleFuncSpec), r.name = "re" →
      ((newRuleTypeFuncIfStmt env file code r rt).2).init =
        file.init ++ r.args.map
          (fun a => regStmtOf (addimport file rt.pkgPath).1.name a.value)) ∧
    (∀ (env : GenEnv) (file : FileState) (code : VarcodeCore) (r : Rule)
        (rt : RuleFuncSpec), r.name ≠ "re" →
      ((newRuleTypeFuncIfStmt env file code r rt).2).init = file.init) ∧
    (∀ (file : FileState), file.init ≠ [] →
      generatedInitBlock file = some file.init) := by
  refine ⟨?_, ?_, ?_⟩
  · intro env file code r rt hre
    rcases haddi : addimport file rt.pkgPath with ⟨imp, file1⟩
    have h1 : file1.init = file.init := by
      have hh := addimport_init file rt.pkgPath
      rw [haddi] at hh
      exact hh
    rcases herr : newErrorReturnStmt env file1 code r with ⟨retS, file2⟩
    have h2 : file2.init = file1.init := by
      have hh := newErrorReturnStmt_init env file1 code r
      rw [herr] at hh
      exact hh
    unfold newRuleTypeFuncIfStmt
    rw [haddi]
    dsimp only
    rw [herr]
    dsimp only
    rw [funcIfFold, h2, h1, if_pos hre]
    congr 1
    have hz : ((r.args.zip (typesForArgs rt r.args)).map Prod.fst) = r.args :=
      List.map_fst_zip _ _ (typesForArgs_len rt r.args)
    calc (r.args.zip (typesForArgs rt r.args)).map
          (fun p => regStmtOf imp.name p.1.value)
        = ((r.args.zip (typesForArgs rt r.args)).map Prod.fst).map
            (fun a => regStmtOf imp.name a.value) := by
          rw [List.map_map]
          rfl
      _ = r.args.map (fun a => regStmtOf imp.name a.value) := by
          rw [hz]
  · intro env file code r rt hre
    rcases haddi : addimport file rt.pkgPath with ⟨imp, file1⟩
    have h1 : file1.init = file.init := by
      have hh := addimport_init file rt.pkgPath
      rw [haddi] at hh
      exact hh
    rcases herr : newErrorReturnStmt env file1 code r with ⟨retS, file2⟩
    have h2 : file2.init = file1.init := by
      have hh := newErrorReturnStmt_init env file1 code r
      rw [herr] at hh
      exact hh
    unfold newRuleTypeFuncIfStmt
    rw [haddi]
    dsimp only
    rw [herr]
    dsimp only
    rw [funcIfFold, h2, h1]
    simp [hre]
  · intro file h
    unfold generatedInitBlock
    simp [h]

/-- C4 witness: the per-occurrence law applied at the concrete `re:foo`
rule and at a non-`re` rule, and the init-block emission at a nonempty
list. -/
theorem C4_witness :
    ((newRuleTypeFuncIfStmt {} {} (strFieldCore "F1") reFooRule reFuncSpec).2).init =
      [regStmtOf "isvalid" "foo"] ∧
    ((newRuleTypeFuncIfStmt {} {} (strFieldCore "F1")
        (Rule.mk "email" [] "" "" none none) reFuncSpec).2).init = [] ∧
    generatedInitBlock { init := [regStmtOf "isvalid" "foo"] } =
      some [regStmtOf "isvalid" "foo"] :=
  ⟨by
    have h := C4_register_per_occurrence.1 {} {} (strFieldCore "F1") reFooRule reFuncSpec rfl
    simpa [reFooRule, Rule.args, regStmtOf] using h,
   by
    have h := C4_register_per_occurrence.2.1 {} {} (strFieldCore "F1")
      (Rule.mk "email" [] "" "" none none) reFuncSpec (by simp [Rule.name])
    simpa using h,
   C4_register_per_occurrence.2.2 _ (by simp)⟩

-- ## C8: literal-argument convertibility

theorem unsigned_kind_props (k : TypeKind) (h : k.isUnsigned = true) :
    k.isFloat = false ∧ k.isInteger = false ∧ k ≠ .bool ∧ k ≠ .string := by
  cases k <;> revert h <;> decide

theorem float_kind_props (k : TypeKind) (h : k.isFloat = true) :
    k ≠ .string := by
  cases k <;> revert h <;> decide

theorem integer_kind_props (k : TypeKind) (h : k.isInteger = true) :
    k.isFloat = false ∧ k ≠ .string := by
  cases k <;> revert h <;> decide

/-- C8: the literal-argument convertibility matrix of `canConvertRuleArg`
(analysis.go lines 963-1008): an unknown-typed argument converts to every
destination; every non-field argument converts to an empty-interface or
string-kind destination; for an unsigned destination an int literal
converts exactly when its value does not start with a minus sign; a bool
destination accepts, among the typed literals, exactly the bool ones; a
float destination accepts int and float literals; an integer destination
accepts int literals. -/
theorem C8_canConvertRuleArg_matrix :
    (∀ (selmap : List (String × GoType)) (dst : GoType) (v : String),
      canConvertRuleArg selmap dst { type := .unknown, value := v } = true) ∧
    (∀ (selmap : List (String × GoType)) (dst : GoType) (src : RuleArg),
      src.type ≠ .field → (dst.isEmptyInterface = true ∨ dst.kind = .string) →
      canConvertRuleArg selmap dst src = true) ∧
    (∀ (selmap : List (String × GoType)) (dst : GoType) (v : String),
      dst.isEmptyInterface = false → dst.kind.isUnsigned = true →
      (canConvertRuleArg selmap dst { type := .int, value := v } = true ↔
        v.data.head? ≠ some '-')) ∧
    (∀ (selmap : List (String × GoType)) (dst : GoType) (src : RuleArg),
      dst.isEmptyInterface = false → dst.kind = .bool →
      (src.type = .bool ∨ src.type = .int ∨ src.type = .float ∨ src.type = .string) →
      (canConvertRuleArg selmap dst src = true ↔ src.type = .bool)) ∧
    (∀ (selmap : List (String × GoType)) (dst : GoType) (v : String),
      dst.isEmptyInterface = false → dst.kind.isFloat = true →
      canConvertRuleArg selmap dst { type := .int, value := v } = true ∧
        canConvertRuleArg selmap dst { type := .float, value := v } = true) ∧
    (∀ (selmap : List (String × GoType)) (dst : GoType) (v : String),
      dst.isEmptyInterface = false → dst.kind.isInteger = true →
      canConvertRuleArg selmap dst { type := .int, value := v } = true) := by
  refine ⟨?_, ?_, ?_, ?_, ?_, ?_⟩
  · intro selmap dst v
    simp [canConvertRuleArg]
  · intro selmap dst src hfield hds
    rcases hds with h | h <;> simp [canConvertRuleArg, hfield, h]
  · intro selmap dst v hei hu
    obtain ⟨hf, hi, _, hs⟩ := unsigned_kind_props dst.kind hu
    simp [canConvertRuleArg, hei, hu, hf, hi, hs]
  · intro selmap dst src hei hkb hlit
    rcases hlit with h | h | h | h <;>
      simp [canConvertRuleArg, hei, hkb, h, TypeKind.isFloat,
        TypeKind.isInteger, TypeKind.isUnsigned]
  · intro selmap dst v hei hf
    have hs := float_kind_props dst.kind hf
    constructor <;> simp [canConvertRuleArg, hei, hf, hs]
  · intro selmap dst v hei hi
    obtain ⟨hf, hs⟩ := integer_kind_props dst.kind hi
    simp [canConvertRuleArg, hei, hi, hf, hs]

/-- C8 witness: the matrix applied at concrete destinations and literals —
an unknown argument into a bool destination, a float literal into a string
destination, non-negative and negative int literals into a uint
destination, literals into a bool destination, and int literals into
float64 and int destinations. -/
theorem C8_witness :
    canConvertRuleArg [] (mkT .bool) { type := .unknown, value := "" } = true ∧
    canConvertRuleArg [] (mkT .string) { type := .float, value := "1.5" } = true ∧
    (canConvertRuleArg [] (mkT .uint) { type := .int, value := "5" } = true ↔
      ("5" : String).data.head? ≠ some '-') ∧
    (canConvertRuleArg [] (mkT .bool) { type := .string, value := "x" } = true ↔
      ArgType.string = ArgType.bool) ∧
    canConvertRuleArg [] (mkT .float64) { type := .int, value := "7" } = true ∧
    canConvertRuleArg [] (mkT .int) { type := .int, value := "7" } = true :=
  ⟨C8_canConvertRuleArg_matrix.1 [] (mkT .bool) "",
   C8_canConvertRuleArg_matrix.2.1 [] (mkT .string)
     { type := .float, value := "1.5" } (by decide) (Or.inr rfl),
   C8_canConvertRuleArg_matrix.2.2.1 [] (mkT .uint) "5" rfl rfl,
   C8_canConvertRuleArg_matrix.2.2.2.1 [] (mkT .bool)
     { type := .string, value := "x" } rfl rfl (by simp),
   (C8_canConvertRuleArg_matrix.2.2.2.2.1 [] (mkT .float64) "7" rfl rfl).1,
   C8_canConvertRuleArg_matrix.2.2.2.2.2 [] (mkT .int) "7" rfl rfl⟩

theorem optsLoop_nil (b : Bool) : optsLoop [] b = ([], none, none, b) := by
  rw [optsLoop.eq_def]
  rfl

theorem dropWhile_colon_shape : ∀ (p : List Char), ':' ∈ p →
    ∃ t, p.dropWhile (· ≠ ':') = ':' :: t ∧ t.length < p.length := by
  intro p hp
  induction p with
  | nil => cases hp
  | cons c cs ih =>
    by_cases hc : c = ':'
    · subst hc
      exact ⟨cs, by simp [List.dropWhile], by simp⟩
    · have hmem : ':' ∈ cs := by
        rcases List.mem_cons.mp hp with h | h
        · exact absurd h.symm hc
        · exact h
      obtain ⟨t, ht, hl⟩ := ih hmem
      refine ⟨t, ?_, ?_⟩
      · rw [List.dropWhile_cons, if_pos (decide_eq_true hc)]
        exact ht
      · simp only [List.length_cons]
        omega

theorem optsLoop_trailing_colon_aux : ∀ (n : Nat) (p : List Char) (b : Bool),
    p.length < n → (optsLoop (p ++ [':']) b).2.2.2 = true := by
  intro n
  induction n with
  | zero => intro p b h; omega
  | succ n ih =>
    intro p b hlt
    have hne : p ++ [':'] ≠ [] := by simp
    have hc : ':' ∈ p ++ [':'] := by simp
    rw [optsLoop.eq_def, dif_neg hne, dif_pos hc]
    by_cases hcp : ':' ∈ p
    · obtain ⟨t, ht, hl⟩ := dropWhile_colon_shape p hcp
      have hdw : (p ++ [':']).dropWhile (· ≠ ':') = ':' :: (t ++ [':']) := by
        rw [List.dropWhile_append, ht]
        simp
      rw [hdw]
      dsimp only
      split
      · exact ih t _ (by omega)
      · exact ih t _ (by omega)
      · exact ih t _ (by omega)
    · have h0 : p.dropWhile (· ≠ ':') = [] :=
        List.dropWhile_eq_nil_iff.mpr (fun x hx => by
          simp only [ne_eq, decide_eq_true_eq]
          rintro rfl
          exact hcp hx)
      have hdw : (p ++ [':']).dropWhile (· ≠ ':') = [':'] := by
        rw [List.dropWhile_append, h0]
        simp [List.dropWhile]
      rw [hdw]
      dsimp only
      split
      · simp [optsLoop_nil]
      · simp [optsLoop_nil]
      · simp [optsLoop_nil]

theorem optsLoop_trailing_colon (p : List Char) (b : Bool) :
    (optsLoop (p ++ [':']) b).2.2.2 = true :=
  optsLoop_trailing_colon_aux (p.length + 1) p b (by omega)

theorem parseIsTagElem_trailing (str name p : List Char)
    (hbr : ¬(str.head? = some '[' ∧ ']' ∈ str))
    (hsplit : splitFirstColon str = (name, some (p ++ [':']))) :
    parseIsTagElem str = Rule.mk (String.mk name)
      ((optsLoop (p ++ [':']) false).1 ++ [({} : RuleArg)])
      (((optsLoop (p ++ [':']) false).2.2.1).getD "")
      (((optsLoop (p ++ [':']) false).2.1).getD "") none none := by
  rw [parseIsTagElem.eq_def, dif_neg hbr, hsplit]
  dsimp only [Option.getD]
  rw [optsLoop_trailing_colon p false]
  rfl

/-- C7: parsing a rule tag element whose option string ends in a colon sets
the final appendEmpty flag, so exactly one extra empty argument is appended
after the option loop's argument list; in particular `len:4:` parses to a
rule named `len` with exactly the arguments `[{value := "4"}, {value := ""}]`. -/
theorem C7_trailing_colon_appends_empty :
    (∀ (str name p : List Char), ¬(str.head? = some '[' ∧ ']' ∈ str) →
      splitFirstColon str = (name, some (p ++ [':'])) →
      parseIsTagElem str = Rule.mk (String.mk name)
        ((optsLoop (p ++ [':']) false).1 ++ [({} : RuleArg)])
        (((optsLoop (p ++ [':']) false).2.2.1).getD "")
        (((optsLoop (p ++ [':']) false).2.1).getD "") none none) ∧
    parseIsTagElemS "len:4:" =
      Rule.mk "len" [{ type := .int, value := "4" }, {}] "" "" none none :=
  ⟨parseIsTagElem_trailing, by
    simp [parseIsTagElemS, parseIsTagElem, splitFirstColon, optsLoop, optsLoop_nil,
      parseOneOpt, classifyOpt, rxIntMatch, List.takeWhile, List.dropWhile]⟩

/-- C7 witness: the general trailing-colon law applied at the concrete tag
element `min:2:`. -/
theorem C7_witness :
    parseIsTagElem ['m','i','n',':','2',':'] = Rule.mk (String.mk ['m','i','n'])
      ((optsLoop ['2',':'] false).1 ++ [({} : RuleArg)])
      (((optsLoop ['2',':'] false).2.2.1).getD "")
      (((optsLoop ['2',':'] false).2.1).getD "") none none :=
  C7_trailing_colon_appends_empty.1 ['m','i','n',':','2',':'] ['m','i','n'] ['2']
    (by decide) (by decide)

-- ## C5: eq/ne comparison joins

theorem optJoinFold (g : RuleArg → ExprNode) (lop : BinaryOp) :
    ∀ (args : List RuleArg) (c0 : ExprNode),
    List.foldl (fun (acc : Option ExprNode) a =>
        match acc with
        | some c1 => some (ExprNode.binary lop c1 (g a))
        | none => some (g a)) (some c0) args =
      some (List.foldl (fun c a => ExprNode.binary lop c (g a)) c0 args) := by
  intro args
  induction args with
  | nil => intro c0; rfl
  | cons a as ih =>
    intro c0
    simp only [List.foldl_cons]
    exact ih _

theorem newRuleTypeBasicIfStmt_cond (env : GenEnv) (file : FileState)
    (code : VarcodeCore) (r : Rule) (a1 : RuleArg) (rest : List RuleArg)
    (hargs : r.args = a1 :: rest) :
    (newRuleTypeBasicIfStmt env file code r).1.cond =
      some (rest.foldl
        (fun c a => ExprNode.binary (basicRuleToLogicalOp r.name) c
          (ExprNode.binary (basicRuleToBinaryOp r.name) code.vexpr
            (newArgValueExpr env r a code.fieldType.ptrBase)))
        (ExprNode.binary (basicRuleToBinaryOp r.name) code.vexpr
          (newArgValueExpr env r a1 code.fieldType.ptrBase))) := by
  unfold newRuleTypeBasicIfStmt
  rw [hargs]
  dsimp only
  rw [List.foldl_cons]
  exact optJoinFold
    (fun a => ExprNode.binary (basicRuleToBinaryOp r.name) code.vexpr
      (newArgValueExpr env r a code.fieldType.ptrBase))
    (basicRuleToLogicalOp r.name) rest _

def intPtrT : GoType :=
  .mk "" "" "" false false false .ptr 0 false false false none (some intT) []

def neRule123 : Rule :=
  Rule.mk "ne" [{ type := .int, value := "123" }, { type := .int, value := "0" },
    { type := .int, value := "321" }] "" "" none none

def f2NeCode : VarcodeCore :=
  { vtype := intT, vexpr := .star (.selector (.ident "v") "F2"),
    fieldKey := "F2", fieldType := intPtrT, rules := [neRule123] }

/-- C5: `eq` joins its per-argument comparisons with `&&` and `ne` with `||`
(via the operator tables and the condition fold of `newRuleTypeBasicIfStmt`),
and for a field F2 of type `*int` with rule `ne:123:0:321` the generated
check condition is the `||`-join of equality comparisons of the dereferenced
field value against 123, 0 and 321 whose failing branch returns
`errors.New("F2 must not be equal to: 123 or 0 or 321")`. -/
theorem C5_eq_ne_join :
    basicRuleToLogicalOp "eq" = .land ∧ basicRuleToLogicalOp "ne" = .lor ∧
    basicRuleToBinaryOp "eq" = .neq ∧ basicRuleToBinaryOp "ne" = .eql ∧
    (∀ (env : GenEnv) (file : FileState) (code : VarcodeCore) (r : Rule)
        (a1 : RuleArg) (rest : List RuleArg), r.args = a1 :: rest →
      (newRuleTypeBasicIfStmt env file code r).1.cond =
        some (rest.foldl
          (fun c a => ExprNode.binary (basicRuleToLogicalOp r.name) c
            (ExprNode.binary (basicRuleToBinaryOp r.name) code.vexpr
              (newArgValueExpr env r a code.fieldType.ptrBase)))
          (ExprNode.binary (basicRuleToBinaryOp r.name) code.vexpr
            (newArgValueExpr env r a1 code.fieldType.ptrBase)))) ∧
    newRuleTypeBasicIfStmt {} {} f2NeCode neRule123 =
      ({ cond := some (.binary .lor
            (.binary .lor
              (.binary .eql (.star (.selector (.ident "v") "F2")) (.valueLit "123"))
              (.binary .eql (.star (.selector (.ident "v") "F2")) (.valueLit "0")))
            (.binary .eql (.star (.selector (.ident "v") "F2")) (.valueLit "321"))),
          body := [.ret (some (.call (.qualifiedIdent "errors" "New")
            [.valueLit "\"F2 must not be equal to: 123 or 0 or 321\""]))] },
        { importErrors := true }) :=
  ⟨rfl, rfl, rfl, rfl, newRuleTypeBasicIfStmt_cond, rfl⟩

/-- C5 witness: the condition-fold law applied at the concrete `ne:123:0:321`
rule. -/
theorem C5_witness :
    (newRuleTypeBasicIfStmt {} {} f2NeCode neRule123).1.cond =
      some ([({ type := .int, value := "0" } : RuleArg),
          { type := .int, value := "321" }].foldl
        (fun c a => ExprNode.binary (basicRuleToLogicalOp neRule123.name) c
          (ExprNode.binary (basicRuleToBinaryOp neRule123.name) f2NeCode.vexpr
            (newArgValueExpr {} neRule123 a f2NeCode.fieldType.ptrBase)))
        (ExprNode.binary (basicRuleToBinaryOp neRule123.name) f2NeCode.vexpr
          (newArgValueExpr {} neRule123 { type := .int, value := "123" }
            f2NeCode.fieldType.ptrBase))) :=
  C5_eq_ne_join.2.2.2.2.1 {} {} f2NeCode neRule123 { type := .int, value := "123" }
    [{ type := .int, value := "0" }, { type := .int, value := "321" }] rfl

theorem parseIsTagElemS_empty : parseIsTagElemS "" = Rule.mk "" [] "" "" none none := by
  simp [parseIsTagElemS, parseIsTagElem, splitFirstColon, optsLoop_nil]

theorem parseIsTagElemS_isvalid :
    parseIsTagElemS "isvalid" = Rule.mk "isvalid" [] "" "" none none := by
  simp [parseIsTagElemS, parseIsTagElem, splitFirstColon, optsLoop_nil]

theorem parseIsTagElemS_email :
    parseIsTagElemS "email" = Rule.mk "email" [] "" "" none none := by
  simp [parseIsTagElemS, parseIsTagElem, splitFirstColon, optsLoop_nil]

theorem exceptBindOk (x : α) (f : α → Except ε β) :
    (Except.ok x >>= f) = f x := rfl

theorem exceptBindErr (e : ε) (f : α → Except ε β) :
    ((Except.error e : Except ε α) >>= f) = .error e := rfl

theorem analyzeRules_empty_name_error (conf : Config) (nc : Bool) (typ : GoType)
    (hiv : typ.ptrBase.isIsValider = false)
    (hconf : mapLookup conf.ruleSpecMap "" = none) :
    analyzeRules conf nc [""] typ = .error .errRuleUnknown := by
  have hdef : (mapLookup defaultRuleSpecMap "").isSome = false := by decide
  have hloop : analyzeRulesLoop conf false false [""] none nc =
      .error .errRuleUnknown := by
    simp [analyzeRulesLoop, parseIsTagElemS_empty, hconf, hdef, hasRuleSpec,
      strTrim, Rule.name, Rule.context, Rule.key, Rule.elem]
  simp [analyzeRules, strTrim, hiv, hloop, exceptBindOk, exceptBindErr]

theorem analyzeRules_empty_name_subst (nc : Bool) (typ : GoType)
    (hiv : typ.ptrBase.isIsValider = true) :
    analyzeRules {} nc [""] typ = .ok ([Rule.mk "isvalid" [] "" "" none none], nc) := by
  have hspec : hasRuleSpec {} (Rule.mk "isvalid" [] "" "" none none) = true := by decide
  have hloop : analyzeRulesLoop {} true false [""]
      (some (Rule.mk "isvalid" [] "" "" none none)) nc =
      .ok ([Rule.mk "isvalid" [] "" "" none none], none, nc) := by
    simp [analyzeRulesLoop, parseIsTagElemS_empty, hspec, strTrim,
      Rule.name, Rule.context, Rule.withName, exceptBindOk]
  simp [analyzeRules, strTrim, hiv, hloop, exceptBindOk]

def ivStringT : GoType :=
  .mk "MyStr" "pkg" "pkg" false false true .string 0 false false false none none []

/-- C6 counterexample: the analysis does not skip an empty-named element —
on a plain string field it fails with the unknown-rule error. -/
theorem C6_counterexample :
    analyzeRules {} false [""] (mkT .string) = .error .errRuleUnknown :=
  analyzeRules_empty_name_error {} false (mkT .string) rfl rfl

/-- C6 (amended): only the rule-tag parser of part_000 skips empty rule
names between commas silently (a leading comma is consumed and no rule with
an empty name ever enters the tree); `analyzeRules` does not skip them: on a
field whose pointer-base type is not an IsValider (and whose rule name is
not custom-registered) an empty-named element fails with the unknown-rule
error, and on an IsValider field it is substituted by the implicit `isvalid`
rule. -/
theorem C6_empty_name_not_always_skipped :
    (∀ (t : List Char), parser (',' :: t) = parser t) ∧
    (∀ (tag : List Char), noEmptyNames (parser tag) = true) ∧
    (∀ (conf : Config) (nc : Bool) (typ : GoType),
      typ.ptrBase.isIsValider = false → mapLookup conf.ruleSpecMap "" = none →
      analyzeRules conf nc [""] typ = .error .errRuleUnknown) ∧
    (∀ (nc : Bool) (typ : GoType), typ.ptrBase.isIsValider = true →
      analyzeRules {} nc [""] typ =
        .ok ([Rule.mk "isvalid" [] "" "" none none], nc)) :=
  ⟨parser_comma, noEmptyNamesParseAll, analyzeRules_empty_name_error,
    analyzeRules_empty_name_subst⟩

/-- C6 witness: the analysis-level laws applied at a plain string type and
at an IsValider string type. -/
theorem C6_witness :
    analyzeRules {} true [""] (mkT .int) = .error .errRuleUnknown ∧
    analyzeRules {} false [""] ivStringT =
      .ok ([Rule.mk "isvalid" [] "" "" none none], false) :=
  ⟨C6_empty_name_not_always_skipped.2.2.1 {} true (mkT .int) rfl rfl,
   C6_empty_name_not_always_skipped.2.2.2 false ivStringT rfl⟩

-- ## C10: explicit vs implicit isvalid

theorem analyzeRulesLoop_isvalid_elem (conf : Config) (isv om : Bool)
    (iv : Option Rule) (nc : Bool) :
    analyzeRulesLoop conf isv om ["isvalid"] iv nc = .error .errRuleUnknown := by
  simp [analyzeRulesLoop, parseIsTagElemS_isvalid, strTrim, Rule.name, Rule.context]

theorem analyzeRules_isvalid_elem (conf : Config) (nc : Bool) (typ : GoType) :
    analyzeRules conf nc ["isvalid"] typ = .error .errRuleUnknown := by
  simp [analyzeRules, strTrim, analyzeRulesLoop_isvalid_elem, exceptBindErr]

theorem analyzeRulesLoop_no_isvalid : ∀ (ss : List String) (conf : Config)
    (om nc : Bool) (rs : List Rule) (iv2 : Option Rule) (nc2 : Bool),
    analyzeRulesLoop conf false om ss none nc = .ok (rs, iv2, nc2) →
    (∀ r ∈ rs, r.name ≠ "isvalid") ∧ iv2 = none := by
  intro ss
  induction ss with
  | nil =>
    intro conf om nc rs iv2 nc2 h
    simp [analyzeRulesLoop] at h
    obtain ⟨h1, h2, h3⟩ := h
    subst h1
    subst h2
    simp
  | cons s ss ih =>
    intro conf om nc rs iv2 nc2 h
    simp only [analyzeRulesLoop] at h
    split at h
    · exact ih conf om nc rs iv2 nc2 h
    · split at h
      · cases h
      · rename_i hname
        rw [if_neg (show ¬((parseIsTagElemS (strTrim s)).name = "" ∧
          false = true ∧ ¬om = true) from fun hc => Bool.false_ne_true hc.2.1)] at h
        try dsimp only at h
        split at h
        · cases h
        · rcases hrec : analyzeRulesLoop conf false om ss none
              (nc || decide ((parseIsTagElemS (strTrim s)).context.length > 0))
            with e | ⟨rs0, iv0, nc0⟩ <;> rw [hrec] at h
          · cases h
          · simp only [exceptBindOk] at h
            try dsimp only at h
            injection h with h
            have h1 : parseIsTagElemS (strTrim s) :: rs0 = rs := congrArg Prod.fst h
            have h2 : iv0 = iv2 := congrArg (fun p => p.2.1) h
            obtain ⟨hall, hnone⟩ := ih conf om _ rs0 iv0 nc0 hrec
            subst h1
            refine ⟨?_, by rw [← h2]; exact hnone⟩
            intro r hr
            rcases List.mem_cons.mp hr with hh | hh
            · subst hh
              exact hname
            · exact hall r hh

theorem analyzeRules_no_isvalid (conf : Config) (nc : Bool) (tag : List String)
    (typ : GoType) (rs : List Rule) (nc' : Bool)
    (hiv : typ.ptrBase.isIsValider = false)
    (h : analyzeRules conf nc tag typ = .ok (rs, nc')) :
    ∀ r ∈ rs, r.name ≠ "isvalid" := by
  simp only [analyzeRules] at h
  rw [hiv] at h
  simp only [Bool.false_and] at h
  rw [if_neg Bool.false_ne_true] at h
  rcases hrec : analyzeRulesLoop conf false (tag.any fun s => strTrim s = "-isvalid")
      tag none nc with e | ⟨rs0, iv0, nc0⟩ <;> rw [hrec] at h
  · cases h
  · simp only [exceptBindOk] at h
    try dsimp only at h
    obtain ⟨hall, hnone⟩ := analyzeRulesLoop_no_isvalid tag conf _ nc rs0 iv0 nc0 hrec
    subst hnone
    injection h with h
    have h1 : rs0 ++ ([] : List Rule) = rs := congrArg Prod.fst h
    rw [List.append_nil] at h1
    subst h1
    exact hall

theorem analyzeRules_isvalider_email (nc : Bool) (typ : GoType)
    (hiv : typ.ptrBase.isIsValider = true) :
    analyzeRules {} nc ["email"] typ =
      .ok ([Rule.mk "email" [] "" "" none none,
        Rule.mk "isvalid" [] "" "" none none], nc) := by
  have hspec : hasRuleSpec {} (Rule.mk "email" [] "" "" none none) = true := by decide
  have hloop : analyzeRulesLoop {} true false ["email"]
      (some (Rule.mk "isvalid" [] "" "" none none)) nc =
      .ok ([Rule.mk "email" [] "" "" none none],
        some (Rule.mk "isvalid" [] "" "" none none), nc) := by
    simp [analyzeRulesLoop, parseIsTagElemS_email, hspec, strTrim,
      Rule.name, Rule.context, exceptBindOk]
  simp [analyzeRules, strTrim, hiv, hloop, exceptBindOk]

theorem analyzeRules_isvalider_email_empty (nc : Bool) (typ : GoType)
    (hiv : typ.ptrBase.isIsValider = true) :
    analyzeRules {} nc ["email", ""] typ =
      .ok ([Rule.mk "email" [] "" "" none none,
        Rule.mk "isvalid" [] "" "" none none], nc) := by
  have hspec : hasRuleSpec {} (Rule.mk "email" [] "" "" none none) = true := by decide
  have hspec2 : hasRuleSpec {} (Rule.mk "isvalid" [] "" "" none none) = true := by decide
  have hloop : analyzeRulesLoop {} true false ["email", ""]
      (some (Rule.mk "isvalid" [] "" "" none none)) nc =
      .ok ([Rule.mk "email" [] "" "" none none,
        Rule.mk "isvalid" [] "" "" none none], none, nc) := by
    simp [analyzeRulesLoop, parseIsTagElemS_email, parseIsTagElemS_empty, hspec,
      hspec2, strTrim, Rule.name, Rule.context, Rule.withName, exceptBindOk]
  simp [analyzeRules, strTrim, hiv, hloop, exceptBindOk]

theorem analyzeRules_omit_isvalid (nc : Bool) (typ : GoType) :
    analyzeRules {} nc ["-isvalid"] typ = .ok ([], nc) := by
  have hloop : ∀ (isv : Bool) (iv : Option Rule),
      analyzeRulesLoop {} isv true ["-isvalid"] iv nc = .ok ([], iv, nc) := by
    intro isv iv
    simp [analyzeRulesLoop, strTrim]
  simp [analyzeRules, strTrim, hloop, exceptBindOk]

/-- C10: an explicit `isvalid` tag element always fails analysis with the
unknown-rule error; on fields whose pointer-base type is not an IsValider no
rule named `isvalid` ever enters the produced rule list; on IsValider fields
the rule enters implicitly — appended as the last rule when the tag has no
`-isvalid` (and no empty-named element), or substituted for an empty-named
element; with `-isvalid` it is omitted. -/
theorem C10_isvalid_only_implicit :
    (∀ (conf : Config) (nc : Bool) (typ : GoType),
      analyzeRules conf nc ["isvalid"] typ = .error .errRuleUnknown) ∧
    (∀ (conf : Config) (nc : Bool) (tag : List String) (typ : GoType)
        (rs : List Rule) (nc' : Bool), typ.ptrBase.isIsValider = false →
      analyzeRules conf nc tag typ = .ok (rs, nc') →
      ∀ r ∈ rs, r.name ≠ "isvalid") ∧
    (∀ (nc : Bool) (typ : GoType), typ.ptrBase.isIsValider = true →
      analyzeRules {} nc ["email"] typ =
        .ok ([Rule.mk "email" [] "" "" none none,
          Rule.mk "isvalid" [] "" "" none none], nc)) ∧
    (∀ (nc : Bool) (typ : GoType), typ.ptrBase.isIsValider = true →
      analyzeRules {} nc ["email", ""] typ =
        .ok ([Rule.mk "email" [] "" "" none none,
          Rule.mk "isvalid" [] "" "" none none], nc)) ∧
    (∀ (nc : Bool) (typ : GoType),
      analyzeRules {} nc ["-isvalid"] typ = .ok ([], nc)) :=
  ⟨analyzeRules_isvalid_elem, analyzeRules_no_isvalid,
    analyzeRules_isvalider_email, analyzeRules_isvalider_email_empty,
    analyzeRules_omit_isvalid⟩

theorem analyzeRules_email_plain :
    analyzeRules {} false ["email"] (mkT .int) =
      .ok ([Rule.mk "email" [] "" "" none none], false) := by
  have hspec : hasRuleSpec {} (Rule.mk "email" [] "" "" none none) = true := by decide
  have hloop : analyzeRulesLoop {} false false ["email"] none false =
      .ok ([Rule.mk "email" [] "" "" none none], none, false) := by
    simp [analyzeRulesLoop, parseIsTagElemS_email, hspec, strTrim,
      Rule.name, Rule.context, exceptBindOk]
  have hbase : (mkT TypeKind.int).ptrBase.isIsValider = false := rfl
  simp [analyzeRules, strTrim, hbase, hloop, exceptBindOk]

/-- C10 witness: the laws applied at an IsValider string type and a plain
int type. -/
theorem C10_witness :
    analyzeRules {} false ["isvalid"] ivStringT = .error .errRuleUnknown ∧
    (∀ r ∈ ([Rule.mk "email" [] "" "" none none] : List Rule),
      r.name ≠ "isvalid") ∧
    analyzeRules {} true ["email"] ivStringT =
      .ok ([Rule.mk "email" [] "" "" none none,
        Rule.mk "isvalid" [] "" "" none none], true) :=
  ⟨C10_isvalid_only_implicit.1 {} false ivStringT,
   C10_isvalid_only_implicit.2.1 {} false ["email"] (mkT .int)
     [Rule.mk "email" [] "" "" none none] false rfl analyzeRules_email_plain,
   C10_isvalid_only_implicit.2.2.1 true ivStringT rfl⟩

-- ## C1: pointer-chain nil guards

/-- A chain of n unnamed pointers over a base type. -/
def ptrChainT : Nat → GoType → GoType
  | 0, t => t
  | n + 1, t =>
    .mk "" "" "" false false false .ptr 0 false false false none
      (some (ptrChainT n t)) []

/-- n dereferences applied to an expression (innermost first). -/
def starN : Nat → ExprNode → ExprNode
  | 0, p => p
  | n + 1, p => starN n (.star p)

/-- The nil-comparison chain of the claim: the comparisons of p, *p, …,
star^n p against nil, joined left-associatively by the logical operator. -/
def nilGuardChain (lop eop : BinaryOp) (p : ExprNode) : Nat → ExprNode
  | 0 => .binary eop p NIL
  | n + 1 =>
    .binary lop (nilGuardChain lop eop p n) (.binary eop (starN (n + 1) p) NIL)

/-- The accumulator form in which `nilGuardLoop` extends its condition. -/
def chainExtend (lop eop : BinaryOp) (cond p : ExprNode) : Nat → ExprNode
  | 0 => cond
  | n + 1 => chainExtend lop eop (.binary lop cond (.binary eop p NIL)) (.star p) n

theorem nilGuardLoop_stop (lop eop : BinaryOp) (cond p : ExprNode) (t : GoType)
    (ht : t.kind ≠ .ptr) : nilGuardLoop lop eop cond p t = (cond, p, t) := by
  cases t with
  | mk n pp pn ii ie iv k al iei ib ir keyT elemT tfs =>
    simp only [GoType.kind] at ht
    cases elemT with
    | some e => simp [nilGuardLoop, ht]
    | none => simp [nilGuardLoop]

theorem nilGuardLoop_chainExtend : ∀ (n : Nat) (t : GoType) (lop eop : BinaryOp)
    (cond p : ExprNode), t.kind ≠ .ptr →
    nilGuardLoop lop eop cond p (ptrChainT n t) =
      (chainExtend lop eop cond p n, starN n p, t) := by
  intro n
  induction n with
  | zero =>
    intro t lop eop cond p ht
    exact nilGuardLoop_stop lop eop cond p t ht
  | succ n ih =>
    intro t lop eop cond p ht
    simp only [ptrChainT, nilGuardLoop, reduceIte]
    rw [ih t lop eop _ _ ht]
    rfl

theorem chainExtend_succ : ∀ (n : Nat) (lop eop : BinaryOp) (cond p : ExprNode),
    chainExtend lop eop cond p (n + 1) =
      .binary lop (chainExtend lop eop cond p n) (.binary eop (starN n p) NIL) := by
  intro n
  induction n with
  | zero => intro lop eop cond p; rfl
  | succ n ih =>
    intro lop eop cond p
    show chainExtend lop eop (.binary lop cond (.binary eop p NIL)) (.star p) (n + 1) = _
    rw [ih]
    rfl

theorem chainExtend_eq_guard : ∀ (n : Nat) (lop eop : BinaryOp) (p : ExprNode),
    chainExtend lop eop (.binary eop p NIL) (.star p) n = nilGuardChain lop eop p n := by
  intro n
  induction n with
  | zero => intro lop eop p; rfl
  | succ n ih =>
    intro lop eop p
    show chainExtend lop eop (.binary eop p NIL) (.star p) (n + 1) = _
    rw [chainExtend_succ, ih]
    rfl

theorem buildVarCodeNilGuard_chain (n : Nat) (t : GoType) (code : VarcodeCore)
    (ht : t.kind ≠ .ptr) (hv : code.vtype = ptrChainT (n + 1) t) :
    buildVarCodeNilGuard code =
      { code with
        vexpr := starN (n + 1) code.vexpr,
        vtype := t,
        ng := some (nilGuardChain
          (if code.required.isSome || code.notnil.isSome then .lor else .land)
          (if code.required.isSome || code.notnil.isSome then .eql else .neq)
          code.vexpr n) } := by
  unfold buildVarCodeNilGuard
  rw [hv]
  rw [if_neg (show ¬((ptrChainT (n + 1) t).kind ≠ .ptr) from fun hk => hk rfl)]
  show (match (ptrChainT (n + 1) t).elem with
    | none => code
    | some e => _) = _
  have he : (ptrChainT (n + 1) t).elem = some (ptrChainT n t) := rfl
  rw [he]
  dsimp only
  rw [nilGuardLoop_chainExtend n t _ _ _ _ ht]
  dsimp only
  rw [chainExtend_eq_guard]
  rfl

/-- C1: for a field whose type is a chain of n+1 pointers over a non-pointer
base, the nil guard is the chain of nil comparisons of p, *p, …, star^n p —
joined by `||` with `==` when `required`/`notnil` is present and by `&&`
with `!=` otherwise — the variable moves to the fully dereferenced base;
with `required` present the guard is `||`-joined with the zero-value check
in the required if-statement; and the rule checks sit under the guard: a
single rule condition is `&&`-conjoined with the guard and a sub block
becomes the body of an if-statement on the guard. -/
theorem C1_nil_guard_chain :
    (∀ (n : Nat) (t : GoType) (code : VarcodeCore), t.kind ≠ .ptr →
      code.vtype = ptrChainT (n + 1) t →
      (code.required.isSome || code.notnil.isSome) = true →
      buildVarCodeNilGuard code =
        { code with
          vexpr := starN (n + 1) code.vexpr,
          vtype := t,
          ng := some (nilGuardChain .lor .eql code.vexpr n) }) ∧
    (∀ (n : Nat) (t : GoType) (code : VarcodeCore), t.kind ≠ .ptr →
      code.vtype = ptrChainT (n + 1) t →
      (code.required.isSome || code.notnil.isSome) = false →
      buildVarCodeNilGuard code =
        { code with
          vexpr := starN (n + 1) code.vexpr,
          vtype := t,
          ng := some (nilGuardChain .land .neq code.vexpr n) }) ∧
    (∀ (env : GenEnv) (file : FileState) (code : VarcodeCore) (req : Rule)
        (g z : ExprNode), code.required = some req → req.context = "" →
      code.ng = some g → newRequiredExpr code = some z →
      (buildVarCodeRequired env file code).1.rqif =
        some { cond := some (.binary .lor g z)
               body := [(newErrorReturnStmt env file code req).1] }) ∧
    (∀ (core : VarcodeCore) (ifs0 : GoIfStmt), core.ng.isSome = true →
      core.rqif = none → core.nnif = none → core.ruleifs = [ifs0] →
      assembleVarCodeRules core =
        { ifs0 with cond := some (.binary .land (core.ng.getD NIL)
            (ifs0.cond.getD NIL)) }) ∧
    (∀ (core : VarcodeCore) (stmt : StmtNode) (g : ExprNode),
      core.sb.isEmpty = false → core.rqif = none → core.nnif = none →
      core.ng = some g →
      assembleVarCodeSubBlock core stmt =
        .ifStmt none (some g) (core.sb ++ [stmt]) none) := by
  refine ⟨?_, ?_, ?_, ?_, ?_⟩
  · intro n t code ht hv hreq
    rw [buildVarCodeNilGuard_chain n t code ht hv, hreq]
    rfl
  · intro n t code ht hv hreq
    rw [buildVarCodeNilGuard_chain n t code ht hv, hreq]
    rfl
  · intro env file code req g z hreq hctx hng hz
    unfold buildVarCodeRequired
    rw [hreq]
    dsimp only
    rw [hz, hng]
    dsimp only
    rw [if_neg (fun hc => hc hctx)]
  · intro core ifs0 hng hrq hnn hrifs
    unfold assembleVarCodeRules
    rw [hrq, hnn, hrifs]
    dsimp only
    rw [if_pos ⟨hng, rfl, rfl, rfl⟩]
    have hroot : ([] ++ [ifs0]).foldr
        (fun ifs root => if root.cond.isNone then ifs
          else { ifs with els := some root.toStmt }) ({} : GoIfStmt) = ifs0 := rfl
    rw [hroot]
  · intro core stmt g hsb hrq hnn hng
    unfold assembleVarCodeSubBlock
    rw [hsb, hrq, hnn, hng]
    rfl

def guardDemoCore : VarcodeCore :=
  { vtype := ptrChainT 2 (mkT .int), vexpr := .selector (.ident "v") "F1" }

/-- C1 witness: the chain law applied at a concrete two-pointer int field,
without required/notnil. -/
theorem C1_witness :
    buildVarCodeNilGuard guardDemoCore =
      { guardDemoCore with
        vexpr := starN 2 guardDemoCore.vexpr,
        vtype := mkT .int,
        ng := some (nilGuardChain .land .neq guardDemoCore.vexpr 1) } :=
  C1_nil_guard_chain.2.1 1 (mkT .int) guardDemoCore (by decide) rfl rfl

-- ## C3: context-option requirement

theorem parseIsTagElemS_eqctx :
    parseIsTagElemS "eq:1:@create" =
      Rule.mk "eq" [{ type := .int, value := "1" }] "create" "" none none := by
  simp [parseIsTagElemS, parseIsTagElem, splitFirstColon, optsLoop, optsLoop_nil,
    parseOneOpt, classifyOpt, rxIntMatch, List.takeWhile, List.dropWhile]

def eqCtxRule : Rule :=
  Rule.mk "eq" [{ type := .int, value := "1" }] "create" "" none none

theorem analyzeRules_context_demo (nc0 : Bool) :
    analyzeRules {} nc0 ["eq:1:@create"] intT = .ok ([eqCtxRule], nc0 || true) := by
  have hspec : hasRuleSpec {}
      (Rule.mk "eq" [{ type := .int, value := "1" }] "create" "" none none) = true := by
    decide
  have hlen : decide (0 < ("create" : String).length) = true := rfl
  have hloop : analyzeRulesLoop {} false false ["eq:1:@create"] none nc0 =
      .ok ([eqCtxRule], none, nc0 || true) := by
    simp [analyzeRulesLoop, parseIsTagElemS_eqctx, eqCtxRule, hspec, hlen, strTrim,
      Rule.name, Rule.context, exceptBindOk]
  have hbase : intT.ptrBase.isIsValider = false := rfl
  simp [analyzeRules, strTrim, hbase, hloop, exceptBindOk]

def ctxField : MField := .mk "F1" [("is", ["eq:1:@create"])] (.basic .int "int") false true

def ctxFieldOut : StructField :=
  .mk "F1" "F1" [("is", ["eq:1:@create"])] false true intT 0 [eqCtxRule]

def ctxStateOut : AnState :=
  { keys := [("F1", 1)], needsContext := true,
    selectorMap := [("F1", (["F1"], intT))] }

theorem ctx_fields_eval :
    analyzeStructFieldsM {} {} [ctxField] [] true = .ok ([ctxFieldOut], ctxStateOut) := by
  have hrules := analyzeRules_context_demo false
  simp only [intT, mkT] at hrules
  simp [analyzeStructFieldsM, ctxField, ctxFieldOut, ctxStateOut, tagFirst, tagGet,
    fieldKeyFn, assignKeyStep, makeFieldKey, mapLookup, mapInsert, analyzeTypeM,
    analyzeTypeUnder, analyzeTypeKindM, isIsValiderM, isErrorConstructorM,
    isErrorAggregatorM, strToLower, hrules, intT, mkT, exceptBindOk, exceptBindErr,
    StructField.name, StructField.tag, Rule.name, Rule.context]

theorem ctx_typecheck_eval :
    typeCheckRulesM {} ctxStateOut [ctxFieldOut] = .ok ctxStateOut := by
  have hrs : typeCheckRuleSpec {} ctxStateOut eqCtxRule intT = .ok ctxStateOut := rfl
  simp only [ctxStateOut, eqCtxRule, intT, mkT] at hrs
  simp [typeCheckRulesM, typeCheckFieldRules, typeCheckWalk,
    ctxFieldOut, ctxStateOut, hrs, eqCtxRule, mapLookup,
    intT, mkT, exceptBindOk, exceptBindErr, Rule.args, Rule.key, Rule.elem]

theorem parseIsTagElem_eqctx_chars :
    parseIsTagElem ['e','q',':','1',':','@','c','r','e','a','t','e'] = eqCtxRule :=
  parseIsTagElemS_eqctx

theorem parseIsTagElemS_bracketctx :
    parseIsTagElemS "[eq:1:@create]" =
      Rule.mk "" [] "" "" (some eqCtxRule) none := by
  simp [parseIsTagElemS, parseIsTagElem, parseIsTagElem_eqctx_chars,
    List.takeWhile, List.dropWhile]

/-- A `map[int]int` type as the analysis renders it. -/
def intMapT : GoType :=
  .mk "" "" "" false false false .map 0 false false false (some intT) (some intT) []

/-- The bracketed element `[eq:1:@create]`: no top-level rule data, the
context-carrying `eq` rule sits in the key slot. -/
def bracketCtxRule : Rule := Rule.mk "" [] "" "" (some eqCtxRule) none

def mapCtxField : MField :=
  .mk "F1" [("is", ["[eq:1:@create]"])]
    (.mapT (.basic .int "int") (.basic .int "int")) false true

def mapCtxFieldOut : StructField :=
  .mk "F1" "F1" [("is", ["[eq:1:@create]"])] false true intMapT 0 [bracketCtxRule]

def mapCtxStateOut : AnState :=
  { keys := [("F1", 1)], selectorMap := [("F1", (["F1"], intMapT))] }

theorem analyzeRules_bracketctx_demo (nc0 : Bool) :
    analyzeRules {} nc0 ["[eq:1:@create]"] intMapT = .ok ([bracketCtxRule], nc0) := by
  have hspec : hasRuleSpec {} (Rule.mk "" [] "" "" (some eqCtxRule) none) = true := by
    decide
  have hloop : analyzeRulesLoop {} false false ["[eq:1:@create]"] none nc0 =
      .ok ([bracketCtxRule], none, nc0) := by
    simp [analyzeRulesLoop, parseIsTagElemS_bracketctx, bracketCtxRule, hspec,
      strTrim, Rule.name, Rule.context, exceptBindOk]
  have hbase : intMapT.ptrBase.isIsValider = false := rfl
  simp [analyzeRules, strTrim, hbase, hloop, exceptBindOk]

theorem mapctx_fields_eval :
    analyzeStructFieldsM {} {} [mapCtxField] [] true =
      .ok ([mapCtxFieldOut], mapCtxStateOut) := by
  have hrules := analyzeRules_bracketctx_demo false
  simp only [intMapT, intT, mkT] at hrules
  simp [analyzeStructFieldsM, mapCtxField, mapCtxFieldOut, mapCtxStateOut, tagFirst,
    tagGet, fieldKeyFn, assignKeyStep, makeFieldKey, mapLookup, mapInsert,
    analyzeTypeM, analyzeTypeUnder, analyzeTypeKindM, isIsValiderM,
    isErrorConstructorM, isErrorAggregatorM, strToLower, hrules, intMapT, intT, mkT,
    exceptBindOk, exceptBindErr, StructField.name, StructField.tag, Rule.name,
    Rule.context]

theorem mapctx_typecheck_eval :
    typeCheckRulesM {} mapCtxStateOut [mapCtxFieldOut] = .ok mapCtxStateOut := by
  have hrs : typeCheckRuleSpec {} mapCtxStateOut bracketCtxRule intMapT =
      .ok mapCtxStateOut := rfl
  simp only [mapCtxStateOut, bracketCtxRule, eqCtxRule, intMapT, intT, mkT] at hrs
  simp [typeCheckRulesM, typeCheckFieldRules, typeCheckWalk, mapCtxFieldOut,
    mapCtxStateOut, bracketCtxRule, eqCtxRule, hrs, mapLookup, intMapT, intT, mkT,
    exceptBindOk, exceptBindErr, Rule.args, Rule.key, Rule.elem]

/-- C3 counterexample: a map field whose only context clause sits on the key
sub-rule of the bracketed element `[eq:1:@create]` — the analysis succeeds
and produces a ValidatorStruct with no context-option field, because the
needs-context flag is read only off the top-level element. -/
theorem C3_counterexample :
    (parseIsTagElemS "[eq:1:@create]").key = some eqCtxRule ∧
    eqCtxRule.context = "create" ∧
    analyzeValidatorStruct {} "V" none none [mapCtxField] =
      .ok { typeName := "V", fields := [mapCtxFieldOut], errorHandler := none,
            contextOption := none, beforeValidate := none, afterValidate := none } := by
  refine ⟨by simp [parseIsTagElemS_bracketctx, Rule.key], rfl, ?_⟩
  unfold analyzeValidatorStruct
  rw [mapctx_fields_eval]
  simp only [exceptBindOk]
  try dsimp only
  rw [if_neg (by decide : ¬(([mapCtxFieldOut] : List StructField).isEmpty = true))]
  rw [mapctx_typecheck_eval]
  simp only [exceptBindOk]
  rw [if_neg (by decide :
    ¬(mapCtxStateOut.needsContext = true ∧ mapCtxStateOut.contextOption.isNone = true))]
  rfl

/-- C3 (amended): whenever the needs-context flag is set after rule
type-checking and no context-option field was recorded, the analysis fails
with the dedicated context-option-required error (so no ValidatorStruct is
produced); the flag is set by a context clause on a top-level rule element,
but not by one on a key/elem sub-rule of a bracketed element — a struct
whose only context clause sits on such a sub-rule passes analysis with no
context-option field. -/
theorem C3_context_option_required :
    (∀ (env : AnEnv) (typeName : String) (bv av : Option String)
        (rootFields : List MField) (fields : List StructField) (st st' : AnState),
      analyzeStructFieldsM env {} rootFields [] true = .ok (fields, st) →
      fields.isEmpty = false →
      typeCheckRulesM env st fields = .ok st' →
      st'.needsContext = true → st'.contextOption = none →
      analyzeValidatorStruct env typeName bv av rootFields =
        .error .errContextOptionFieldRequired) ∧
    (∀ (nc0 : Bool),
      analyzeRules {} nc0 ["eq:1:@create"] intT = .ok ([eqCtxRule], nc0 || true)) ∧
    (∀ (nc0 : Bool),
      analyzeRules {} nc0 ["[eq:1:@create]"] intMapT = .ok ([bracketCtxRule], nc0)) ∧
    analyzeValidatorStruct {} "V" none none [mapCtxField] =
      .ok { typeName := "V", fields := [mapCtxFieldOut], errorHandler := none,
            contextOption := none, beforeValidate := none, afterValidate := none } := by
  refine ⟨?_, analyzeRules_context_demo, analyzeRules_bracketctx_demo, ?_⟩
  · intro env typeName bv av rootFields fields st st' h1 h2 h3 h4 h5
    unfold analyzeValidatorStruct
    rw [h1]
    simp only [exceptBindOk]
    try dsimp only
    rw [h2]
    rw [if_neg Bool.false_ne_true]
    rw [h3]
    simp only [exceptBindOk]
    rw [h4, h5]
    rw [if_pos ⟨rfl, rfl⟩]
    rfl
  · unfold analyzeValidatorStruct
    rw [mapctx_fields_eval]
    simp only [exceptBindOk]
    try dsimp only
    rw [if_neg (by decide : ¬(([mapCtxFieldOut] : List StructField).isEmpty = true))]
    rw [mapctx_typecheck_eval]
    simp only [exceptBindOk]
    rw [if_neg (by decide :
      ¬(mapCtxStateOut.needsContext = true ∧ mapCtxStateOut.contextOption.isNone = true))]
    rfl

/-- C3 witness: a single int field with rule `eq:1:@create` and no context
field fails with the context-option-required error. -/
theorem C3_witness :
    analyzeValidatorStruct {} "V" none none [ctxField] =
      .error .errContextOptionFieldRequired :=
  C3_context_option_required.1 {} "V" none none [ctxField] [ctxFieldOut]
    ctxStateOut ctxStateOut ctx_fields_eval rfl ctx_typecheck_eval rfl rfl

-- ## C2: field-key disambiguation

theorem mapLookup_insert_self (m : List (String × α)) (k : String) (v : α) :
    mapLookup (mapInsert m k v) k = some v := by
  unfold mapLookup mapInsert
  rw [List.find?_cons_of_pos]
  · rfl
  · simp

theorem mapLookup_isSome_iff (m : List (String × α)) (k : String) :
    (mapLookup m k).isSome = true ↔ ∃ p ∈ m, p.1 = k := by
  unfold mapLookup
  have hmap : (Option.map (fun (p : String × α) => p.2)
      (m.find? fun p => p.1 = k)).isSome = (m.find? fun p => p.1 = k).isSome := by
    cases m.find? fun p => p.1 = k <;> rfl
  rw [hmap, List.find?_isSome]
  simp

theorem mapLookup_insert_mono (m : List (String × α)) (k k' : String) (v : α)
    (h : (mapLookup m k').isSome = true) :
    (mapLookup (mapInsert m k v) k').isSome = true := by
  by_cases hk : k' = k
  · subst hk
    rw [mapLookup_insert_self]
    rfl
  · obtain ⟨p, hp, hpk⟩ := (mapLookup_isSome_iff m k').mp h
    refine (mapLookup_isSome_iff _ k').mpr ⟨p, ?_, hpk⟩
    refine List.mem_cons_of_mem _ (List.mem_filter.mpr ⟨hp, ?_⟩)
    simp [hpk, hk]

theorem makeFieldKey_mono (keys : List (String × Nat)) (b k : String)
    (h : (mapLookup keys k).isSome = true) :
    (mapLookup (makeFieldKey keys b).2 k).isSome = true := by
  unfold makeFieldKey
  cases hb : mapLookup keys b
  · exact h
  · exact mapLookup_insert_mono _ _ _ _ h

theorem assignKeyStep_spec (keys0 : List (String × Nat)) (b k0 : String)
    (keysB : List (String × Nat))
    (hstep : assignKeyStep keys0 b = .ok (k0, keysB)) :
    mapLookup keysB k0 = some 1 ∧ mapLookup keys0 k0 = none ∧
    (∀ k, (mapLookup keys0 k).isSome = true → (mapLookup keysB k).isSome = true) := by
  unfold assignKeyStep at hstep
  rcases hmk : makeFieldKey keys0 b with ⟨k1, keysM⟩
  rw [hmk] at hstep
  dsimp only at hstep
  have hM2 : (makeFieldKey keys0 b).2 = keysM := by rw [hmk]
  rcases hl : mapLookup keysM k1 with _ | n <;> rw [hl] at hstep
  · injection hstep with hstep
    have hk : k0 = k1 := (congrArg Prod.fst hstep).symm
    have hkB : keysB = mapInsert keysM k1 1 := (congrArg Prod.snd hstep).symm
    rw [hk, hkB]
    refine ⟨mapLookup_insert_self _ _ _, ?_, ?_⟩
    · by_contra hne
      have hs : (mapLookup keys0 k1).isSome = true := by
        cases hl0 : mapLookup keys0 k1
        · exact absurd hl0 hne
        · rfl
      have hmono := makeFieldKey_mono keys0 b k1 hs
      rw [hM2, hl] at hmono
      cases hmono
    · intro k hk2
      have hmono := makeFieldKey_mono keys0 b k hk2
      rw [hM2] at hmono
      exact mapLookup_insert_mono _ _ _ _ hmono
  · cases hstep

theorem assignKeys_inv : ∀ (bs : List String) (keys0 : List (String × Nat))
    (ks : List String) (keys1 : List (String × Nat)),
    assignKeys keys0 bs = .ok (ks, keys1) →
    ks.Nodup ∧
    (∀ k ∈ ks, mapLookup keys0 k = none ∧ (mapLookup keys1 k).isSome = true) ∧
    (∀ k, (mapLookup keys0 k).isSome = true → (mapLookup keys1 k).isSome = true) := by
  intro bs
  induction bs with
  | nil =>
    intro keys0 ks keys1 h
    simp only [assignKeys] at h
    injection h with h
    have h1 : ([] : List String) = ks := congrArg Prod.fst h
    have h2 : keys0 = keys1 := congrArg Prod.snd h
    subst h1
    subst h2
    exact ⟨List.nodup_nil, by simp, fun k hk => hk⟩
  | cons b bs ih =>
    intro keys0 ks keys1 h
    simp only [assignKeys] at h
    rcases hstep : assignKeyStep keys0 b with e | ⟨k0, keysB⟩ <;> rw [hstep] at h
    · cases h
    · simp only [exceptBindOk] at h
      try dsimp only at h
      rcases hrec : assignKeys keysB bs with e | ⟨ks2, keys2⟩ <;> rw [hrec] at h
      · cases h
      · simp only [exceptBindOk] at h
        try dsimp only at h
        injection h with h
        have h1 : k0 :: ks2 = ks := congrArg Prod.fst h
        have h2 : keys2 = keys1 := congrArg Prod.snd h
        subst h1
        subst h2
        obtain ⟨hself, hnone0, hmonoB⟩ := assignKeyStep_spec keys0 b k0 keysB hstep
        obtain ⟨hnodup, hks, hmono⟩ := ih keysB ks2 _ hrec
        refine ⟨?_, ?_, ?_⟩
        · refine List.nodup_cons.mpr ⟨?_, hnodup⟩
          intro hmem
          have := (hks k0 hmem).1
          rw [hself] at this
          cases this
        · intro k hk
          rcases List.mem_cons.mp hk with hh | hh
          · subst hh
            exact ⟨hnone0, hmono _ (by rw [hself]; rfl)⟩
          · obtain ⟨hB, h1⟩ := hks k hh
            refine ⟨?_, h1⟩
            by_contra hne
            have hs : (mapLookup keys0 k).isSome = true := by
              cases hl0 : mapLookup keys0 k
              · exact absurd hl0 hne
              · rfl
            have := hmonoB k hs
            rw [hB] at this
            cases this
        · intro k hk
          exact hmono k (hmonoB k hk)

/-- C2 counterexample: with base keys X, X, X-1 the third field carries the
first occurrence of base key X-1, yet it does not keep that key — it is
assigned X-1-1, because X-1 was already taken as the disambiguation of the
second X. -/
theorem C2_counterexample :
    assignKeys [] ["X", "X", "X-1"] =
      .ok (["X", "X-1", "X-1-1"], [("X-1-1", 1), ("X-1", 2), ("X", 2)]) := rfl

/-- C2 (amended): on success the assigned field keys are pairwise distinct;
a base key not yet tracked is kept unchanged, and a base key tracked with
counter i yields the suffixed key base-i (bumping the counter to i+1) — but
the suffixed key need not be fresh: a later field whose base key equals an
already-assigned key receives a chained suffix instead of keeping its base
key, and a suffixed key that is already tracked aborts the analysis with the
field-key-conflict error. -/
theorem C2_key_disambiguation :
    (∀ (bs : List String) (keys0 : List (String × Nat)) (ks : List String)
        (keys1 : List (String × Nat)),
      assignKeys keys0 bs = .ok (ks, keys1) → ks.Nodup) ∧
    (∀ (keys : List (String × Nat)) (base : String),
      mapLookup keys base = none → makeFieldKey keys base = (base, keys)) ∧
    (∀ (keys : List (String × Nat)) (base : String) (i : Nat),
      mapLookup keys base = some i →
      makeFieldKey keys base = (base ++ "-" ++ toString i, mapInsert keys base (i + 1))) ∧
    (∀ (keys : List (String × Nat)) (base : String),
      (mapLookup (makeFieldKey keys base).2 (makeFieldKey keys base).1).isSome = true →
      assignKeyStep keys base = .error .errFieldKeyConflict) ∧
    assignKeys [] ["X", "X", "X"] =
      .ok (["X", "X-1", "X-2"], [("X-2", 1), ("X", 3), ("X-1", 1)]) := by
  refine ⟨?_, ?_, ?_, ?_, rfl⟩
  · intro bs keys0 ks keys1 h
    exact (assignKeys_inv bs keys0 ks keys1 h).1
  · intro keys base hb
    unfold makeFieldKey
    rw [hb]
  · intro keys base i hb
    unfold makeFieldKey
    rw [hb]
  · intro keys base hs
    unfold assignKeyStep
    rcases hmk : makeFieldKey keys base with ⟨k1, keysM⟩
    rw [hmk] at hs
    try dsimp only at hs
    rcases hl : mapLookup keysM k1 with _ | n
    · rw [hl] at hs
      cases hs
    · dsimp only
      rw [hl]

/-- C2 witness: the disambiguation laws applied at concrete key maps. -/
theorem C2_witness :
    (["X", "X-1", "X-2"] : List String).Nodup ∧
    makeFieldKey [] "X" = ("X", []) ∧
    makeFieldKey [("X", 1)] "X" = ("X-1", [("X", 2)]) ∧
    assignKeyStep [("X-1", 1), ("X", 1)] "X" = .error .errFieldKeyConflict :=
  ⟨C2_key_disambiguation.1 ["X", "X", "X"] [] ["X", "X-1", "X-2"]
      [("X-2", 1), ("X", 3), ("X-1", 1)] rfl,
   C2_key_disambiguation.2.1 [] "X" rfl,
   C2_key_disambiguation.2.2.1 [("X", 1)] "X" 1 rfl,
   C2_key_disambiguation.2.2.2.1 [("X-1", 1), ("X", 1)] "X" rfl⟩

end Isvalid